import Mathlib

/-!
# WebViewFunctorManager: functor lifecycle and registry

A shallow embedding of `libs/hwui/WebViewFunctorManager.{h,cpp}` (namespace
`uirenderer`), followed by embeddings of the class `StringBuffer` of
`core/jni/android_os_PerfettoTrackEventExtra.cpp`, of the PWLE and callback
parts of `services/core/jni/com_android_server_vibrator_VibratorController.cpp`
and of the parcel functions of `libs/hwui/jni/Region.cpp` (namespace `android`).

* Pointers are natural numbers; `Option` is used where the source tests a
  pointer against `nullptr`.
* The process-wide state the file reads and writes (the two globals
  `sNextId` and `sCurrentFunctor`, the singleton manager, the platform
  properties and the active canvas context) is one record, `Process`,
  passed explicitly.
* A call of an embedder callback, and a call into the compositor, is recorded
  as an `Event` in `Process.events`, in program order. What the embedder does
  while a callback runs is outside this file and outside the model, except for
  its calls of `mergeTransaction` through the pointer a callback is handed:
  `drawGlWith`, `drawVkWith` and `removeOverlaysWith` take them as a list.
* The code runs on one thread, except in `onContextDestroyed_concurrent`, where
  a `createFunctor` call of a second thread is placed among the steps of
  `onContextDestroyed` in the orders the lock allows.
* A functor lives at an address; a `Handle` holds the address of its functor,
  and reading through a handle looks the functor up among the functors the
  manager owns.
* `LOG_ALWAYS_FATAL`, a failed assertion, a call through a null function
  pointer and a read through a dangling reference end the computation with a
  `Failure`.
-/

namespace uirenderer

/-! ## Data model -/

/-- Modelled from the spec: the enum `RenderMode` of `private/hwui/WebViewFunctor.h`
(a closed set of two GPU backends). `other` stands for any value of the
underlying integer type that is neither enumerator. -/
inductive RenderMode where
  | OpenGL_ES
  | Vulkan
  | other (raw : Int)
  deriving DecidableEq, Repr

/-- The result of `Properties::getRenderPipelineType()`; `other` stands for
every pipeline type that is neither `SkiaGL` nor `SkiaVulkan`. -/
inductive RenderPipelineType where
  | SkiaGL
  | SkiaVulkan
  | other (raw : Int)
  deriving DecidableEq, Repr

/-- The field `overlaysMode` of `WebViewOverlayData`. -/
inductive OverlaysMode where
  | Disabled
  | Enabled
  deriving DecidableEq, Repr

/-- How a computation ends when it does not return. -/
inductive Failure where
  /-- The process is terminated by `LOG_ALWAYS_FATAL`, `LOG_ALWAYS_FATAL_IF` or a failed
  `ALOG_ASSERT`. -/
  | fatal (msg : String)
  /-- A call through a null function pointer or a read through a dangling reference. -/
  | undefinedBehaviour (what : String)
  deriving DecidableEq, Repr

/-- The member `gles` of `WebViewFunctorCallbacks`. -/
structure GlesCallbacks where
  draw : Option Nat
  deriving DecidableEq, Repr

/-- The member `vk` of `WebViewFunctorCallbacks`; `init` is the entry the
source calls `vk.initialize`. -/
structure VkCallbacks where
  init : Option Nat
  draw : Option Nat
  postDraw : Option Nat
  deriving DecidableEq, Repr

/-- Modelled from the spec: the callback table of `private/hwui/WebViewFunctor.h`.
Each entry is a function pointer, `none` for `nullptr`. The record names the
entries the way the code reads them. In the header `gles` and `vk` are the two
members of one union, so that `gles.draw` and `vk.initialize` are one pointer
read through two names: a table that exists as a C object satisfies
`WebViewFunctorCallbacks.Overlaid`. -/
structure WebViewFunctorCallbacks where
  onSync : Option Nat
  onContextDestroyed : Option Nat
  onDestroyed : Option Nat
  removeOverlays : Option Nat
  gles : GlesCallbacks
  vk : VkCallbacks
  deriving DecidableEq, Repr

/-- The layout of the union of `gles` and `vk`: the first entry of either
member is the same storage. -/
def WebViewFunctorCallbacks.Overlaid (callbacks : WebViewFunctorCallbacks) : Prop :=
  callbacks.gles.draw = callbacks.vk.init

instance (callbacks : WebViewFunctorCallbacks) : Decidable callbacks.Overlaid := by
  unfold WebViewFunctorCallbacks.Overlaid; infer_instance

/-- The field of `DrawGlInfo` that `drawGl` reads. -/
structure DrawGlInfo where
  isLayer : Bool
  deriving DecidableEq, Repr

/-- The field of `VkFunctorDrawParams` that `drawVk` reads. -/
structure VkFunctorDrawParams where
  is_layer : Bool
  deriving DecidableEq, Repr

/-- A `SurfaceComposerClient::Transaction`: the one the functor builds itself
(a reparent of its surface), or one handed in by the embedder. -/
inductive Transaction where
  | reparent (surface : Nat) (parent : Option Nat)
  | external (token : Nat)
  deriving DecidableEq, Repr

/-- The part of `renderthread::CanvasContext` this file uses. -/
structure CanvasContext where
  /-- The result of `getSurfaceControl()`: the root surface, `none` for a null `sp`. -/
  getSurfaceControl : Option Nat
  getSurfaceControlGenerationId : Int
  /-- What `mergeTransaction(transaction, surfaceControl)` returns. -/
  mergeTransactionResult : Bool
  deriving DecidableEq, Repr

/-- Calls that leave this file: embedder callbacks and compositor requests. -/
inductive Event where
  | onSync (functor : Int) (data : Nat)
  | onContextDestroyed (functor : Int) (data : Nat)
  | onDestroyed (functor : Int) (data : Nat)
  | removeOverlays (functor : Int) (data : Nat)
  | glesDraw (functor : Int) (data : Nat) (drawInfo : DrawGlInfo) (overlaysMode : OverlaysMode)
  | vkInitialize (functor : Int) (data : Nat)
  | vkDraw (functor : Int) (data : Nat) (params : VkFunctorDrawParams) (overlaysMode : OverlaysMode)
  | vkPostDraw (functor : Int) (data : Nat)
  /-- The call `grContext->resetContext()`. -/
  | resetContext
  /-- The call `activeContext->mergeTransaction(transaction, mSurfaceControl)`. -/
  | contextMergeTransaction (transaction : Transaction) (surfaceControl : Option Nat)
  /-- The call `transaction->apply()`. -/
  | transactionApply (transaction : Transaction)
  deriving DecidableEq, Repr

/-- The class `WebViewFunctor`; `addr` is the address of the object (`this`). -/
structure WebViewFunctor where
  addr : Nat
  mCallbacks : WebViewFunctorCallbacks
  mData : Nat
  mFunctor : Int
  mMode : RenderMode
  mHasContext : Bool := false
  mCreatedHandle : Bool := false
  mParentSurfaceControlGenerationId : Int := 0
  mSurfaceControl : Option Nat := none
  mRenderingThreads : List Int := []
  deriving DecidableEq, Repr

/-- The class `WebViewFunctor::Handle`: a reference to a functor, kept as the
address of the functor. The reference count of `sp<Handle>` is not part of
the model. -/
structure Handle where
  mReference : Nat
  deriving DecidableEq, Repr

/-- The state of the process as far as this file reads or writes it. -/
structure Process where
  /-- The build flag that turns `ALOG_ASSERT` into a no-op. -/
  LOG_NDEBUG : Bool
  /-- The value of `Properties::getRenderPipelineType()`. -/
  pipelineType : RenderPipelineType
  /-- The property `Properties::enableWebViewOverlays`. -/
  enableWebViewOverlays : Bool
  /-- The value of `renderthread::CanvasContext::getActiveContext()`. -/
  activeContext : Option CanvasContext
  /-- Whether `RenderThread::getInstance().getGrContext()` is non-null. -/
  grContext : Bool
  /-- The static `ScopedCurrentFunctor::sCurrentFunctor`. -/
  sCurrentFunctor : Option Nat
  /-- The counter `sNextId` (a `std::atomic_int`). -/
  sNextId : Int
  /-- The allocator: the address the next `std::make_unique` returns. Addresses
  are handed out in increasing order and not reused. -/
  heapNext : Nat
  /-- The member `WebViewFunctorManager::mFunctors`: the functors the manager owns. -/
  mFunctors : List WebViewFunctor
  /-- The member `WebViewFunctorManager::mActiveFunctors`. -/
  mActiveFunctors : List Handle
  /-- The calls made so far to the embedder and the compositor. -/
  events : List Event
  deriving DecidableEq, Repr

/-! ## Logging and assertions -/

/-- The macro `LOG_ALWAYS_FATAL_IF(cond, msg)`. -/
def LOG_ALWAYS_FATAL_IF (cond : Bool) (msg : String) : Except Failure Unit :=
  if cond then .error (.fatal msg) else .ok ()

/-- The macro `ALOG_ASSERT(cond)`: fatal when the condition fails, unless the
build compiles assertions out (`LOG_NDEBUG`). -/
def ALOG_ASSERT (p : Process) (cond : Bool) : Except Failure Unit :=
  if p.LOG_NDEBUG then .ok () else LOG_ALWAYS_FATAL_IF (!cond) "assertion failed"

/-- Two-complement wrap-around of a 32-bit `int`. -/
def wrapInt32 (n : Int) : Int :=
  (n + 2147483648) % 4294967296 - 2147483648

/-- A call through the function pointer `fn`, recorded as `ev`. -/
def invoke (fn : Option Nat) (ev : Event) (p : Process) : Except Failure Process :=
  match fn with
  | none => .error (.undefinedBehaviour "call through a null function pointer")
  | some _ => .ok { p with events := p.events ++ [ev] }

/-! ## The C entry points and the manager -/

/-- The function `WebViewFunctor_queryPlatformRenderMode` (WebViewFunctorManager.cpp, 61-71). -/
def WebViewFunctor_queryPlatformRenderMode (p : Process) : Except Failure RenderMode :=
  match p.pipelineType with
  | .SkiaGL => .ok .OpenGL_ES
  | .SkiaVulkan => .ok .Vulkan
  | .other _ => .error (.fatal "Unknown render pipeline type")

/-- The function `validateCallbacks` (WebViewFunctorManager.cpp, 278-297): the
checks are made in the order of the source; the first that fails is fatal. -/
def validateCallbacks (p : Process) (callbacks : WebViewFunctorCallbacks) :
    Except Failure Unit := do
  LOG_ALWAYS_FATAL_IF callbacks.onSync.isNone "onSync is null"
  LOG_ALWAYS_FATAL_IF callbacks.onContextDestroyed.isNone "onContextDestroyed is null"
  LOG_ALWAYS_FATAL_IF callbacks.onDestroyed.isNone "onDestroyed is null"
  LOG_ALWAYS_FATAL_IF callbacks.removeOverlays.isNone "removeOverlays is null"
  match (← WebViewFunctor_queryPlatformRenderMode p) with
  | .OpenGL_ES =>
    LOG_ALWAYS_FATAL_IF callbacks.gles.draw.isNone "gles.draw is null"
  | .Vulkan =>
    LOG_ALWAYS_FATAL_IF callbacks.vk.init.isNone "vk.initialize is null"
    LOG_ALWAYS_FATAL_IF callbacks.vk.draw.isNone "vk.draw is null"
    LOG_ALWAYS_FATAL_IF callbacks.vk.postDraw.isNone "vk.postDraw is null"
  | .other _ => .error (.fatal "unknown platform mode?")

namespace ScopedCurrentFunctor

/-- The constructor `ScopedCurrentFunctor(functor)`. -/
def enter (p : Process) (functor : Option Nat) : Except Failure Process := do
  ALOG_ASSERT p p.sCurrentFunctor.isNone
  ALOG_ASSERT p functor.isSome
  .ok { p with sCurrentFunctor := functor }

/-- The destructor of `ScopedCurrentFunctor`. -/
def leave (p : Process) : Except Failure Process := do
  ALOG_ASSERT p p.sCurrentFunctor.isSome
  .ok { p with sCurrentFunctor := none }

end ScopedCurrentFunctor

namespace WebViewFunctor

/-- The constructor, run by `std::make_unique<WebViewFunctor>`: the object
gets a fresh address and the id `sNextId++`. -/
def construct (p : Process) (data : Nat) (callbacks : WebViewFunctorCallbacks)
    (functorMode : RenderMode) : WebViewFunctor × Process :=
  ({ addr := p.heapNext, mCallbacks := callbacks, mData := data,
     mFunctor := p.sNextId, mMode := functorMode },
   { p with heapNext := p.heapNext + 1, sNextId := wrapInt32 (p.sNextId + 1) })

/-- The accessor `WebViewFunctor::id()`. -/
def id (self : WebViewFunctor) : Int := self.mFunctor

/-- The method `createHandle` (WebViewFunctorManager.h, 89-93). -/
def createHandle (self : WebViewFunctor) : Except Failure (Handle × WebViewFunctor) := do
  LOG_ALWAYS_FATAL_IF self.mCreatedHandle "mCreatedHandle"
  .ok ({ mReference := self.addr }, { self with mCreatedHandle := true })

/-- The method `sync` (115-118). -/
def sync (self : WebViewFunctor) (p : Process) : Except Failure Process :=
  invoke self.mCallbacks.onSync (Event.onSync self.mFunctor self.mData) p

/-- The method `mergeTransaction` (245-257); `none` is a null transaction. -/
def mergeTransaction (self : WebViewFunctor) (p : Process) (transaction : Option Transaction) :
    Process :=
  match transaction with
  | none => p
  | some t =>
    let (done, p) : Bool × Process :=
      match p.activeContext with
      | some activeContext =>
        (activeContext.mergeTransactionResult,
         { p with events := p.events ++ [Event.contextMergeTransaction t self.mSurfaceControl] })
      | none => (false, p)
    if !done then { p with events := p.events ++ [Event.transactionApply t] } else p

/-- The method `reparentSurfaceControl` (259-267). -/
def reparentSurfaceControl (self : WebViewFunctor) (p : Process) (parent : Option Nat) :
    Process :=
  match self.mSurfaceControl with
  | none => p
  | some surface => self.mergeTransaction p (some (.reparent surface parent))

/-- The method `prepareRootSurfaceControl` (127-143): the result, the functor
and the process afterwards. -/
def prepareRootSurfaceControl (self : WebViewFunctor) (p : Process) :
    Bool × WebViewFunctor × Process :=
  if !p.enableWebViewOverlays then (false, self, p) else
  match p.activeContext with
  | none => (false, self, p)
  | some activeContext =>
    match activeContext.getSurfaceControl with
    | none => (false, self, p)
    | some rootSurfaceControl =>
      let rgid := activeContext.getSurfaceControlGenerationId
      if self.mParentSurfaceControlGenerationId ≠ rgid then
        (true, { self with mParentSurfaceControlGenerationId := rgid },
         self.reparentSurfaceControl p (some rootSurfaceControl))
      else
        (true, self, p)

/-- The method `drawGl` (145-163). The guard `currentFunctor` is entered before
and left after the callback. -/
def drawGl (self : WebViewFunctor) (p : Process) (drawInfo : DrawGlInfo) :
    Except Failure (WebViewFunctor × Process) := do
  let self := if !self.mHasContext then { self with mHasContext := true } else self
  let p ← ScopedCurrentFunctor.enter p (some self.addr)
  let (overlaysMode, self, p) :=
    if !drawInfo.isLayer then
      let (prepared, self, p) := self.prepareRootSurfaceControl p
      (if prepared then OverlaysMode.Enabled else OverlaysMode.Disabled, self, p)
    else (OverlaysMode.Disabled, self, p)
  let p ← invoke self.mCallbacks.gles.draw
    (Event.glesDraw self.mFunctor self.mData drawInfo overlaysMode) p
  let p ← ScopedCurrentFunctor.leave p
  .ok (self, p)

/-- The method `initVk` (165-173). -/
def initVk (self : WebViewFunctor) (p : Process) : Except Failure (WebViewFunctor × Process) :=
  if !self.mHasContext then do
    let self := { self with mHasContext := true }
    let p ← invoke self.mCallbacks.vk.init (Event.vkInitialize self.mFunctor self.mData) p
    .ok (self, p)
  else
    .ok (self, p)

/-- The method `drawVk` (175-190). -/
def drawVk (self : WebViewFunctor) (p : Process) (params : VkFunctorDrawParams) :
    Except Failure (WebViewFunctor × Process) := do
  let p ← ScopedCurrentFunctor.enter p (some self.addr)
  let (overlaysMode, self, p) :=
    if !params.is_layer then
      let (prepared, self, p) := self.prepareRootSurfaceControl p
      (if prepared then OverlaysMode.Enabled else OverlaysMode.Disabled, self, p)
    else (OverlaysMode.Disabled, self, p)
  let p ← invoke self.mCallbacks.vk.draw
    (Event.vkDraw self.mFunctor self.mData params overlaysMode) p
  let p ← ScopedCurrentFunctor.leave p
  .ok (self, p)

/-- The method `postDrawVk` (192-195). -/
def postDrawVk (self : WebViewFunctor) (p : Process) : Except Failure Process :=
  invoke self.mCallbacks.vk.postDraw (Event.vkPostDraw self.mFunctor self.mData) p

/-- The method `destroyContext` (197-207). -/
def destroyContext (self : WebViewFunctor) (p : Process) :
    Except Failure (WebViewFunctor × Process) :=
  if self.mHasContext then do
    let self := { self with mHasContext := false }
    let p ← invoke self.mCallbacks.onContextDestroyed
      (Event.onContextDestroyed self.mFunctor self.mData) p
    let p := if p.grContext then { p with events := p.events ++ [Event.resetContext] } else p
    .ok (self, p)
  else
    .ok (self, p)

/-- The method `removeOverlays` (209-216). -/
def removeOverlays (self : WebViewFunctor) (p : Process) :
    Except Failure (WebViewFunctor × Process) := do
  let p ← ScopedCurrentFunctor.enter p (some self.addr)
  let p ← invoke self.mCallbacks.removeOverlays (Event.removeOverlays self.mFunctor self.mData) p
  let (self, p) :=
    if self.mSurfaceControl.isSome then
      ({ self with mSurfaceControl := none }, self.reparentSurfaceControl p none)
    else (self, p)
  let p ← ScopedCurrentFunctor.leave p
  .ok (self, p)

/-- The method `onRemovedFromTree` (120-125). -/
def onRemovedFromTree (self : WebViewFunctor) (p : Process) :
    Except Failure (WebViewFunctor × Process) :=
  if self.mSurfaceControl.isSome then self.removeOverlays p else .ok (self, p)

/-- The destructor `~WebViewFunctor()` (105-113). -/
def destruct (self : WebViewFunctor) (p : Process) : Except Failure Process := do
  let (self, p) ← self.destroyContext p
  let (self, p) ← if self.mSurfaceControl.isSome then self.removeOverlays p else .ok (self, p)
  invoke self.mCallbacks.onDestroyed (Event.onDestroyed self.mFunctor self.mData) p

/-- The method `reportRenderingThreads` (269-271). -/
def reportRenderingThreads (self : WebViewFunctor) (thread_ids : List Int) : WebViewFunctor :=
  { self with mRenderingThreads := thread_ids }

/-- The accessor `getRenderingThreads`. -/
def getRenderingThreads (self : WebViewFunctor) : List Int := self.mRenderingThreads

end WebViewFunctor

namespace Handle

/-- The functor a handle refers to: the object of `mFunctors` at the address
`mReference`; a failure when that object has been destroyed. -/
def deref (h : Handle) (p : Process) : Except Failure WebViewFunctor :=
  match p.mFunctors.find? (fun f => f.addr == h.mReference) with
  | some f => .ok f
  | none => .error (.undefinedBehaviour "read through a dangling Handle reference")

/-- The accessor `Handle::id()`, which reads the id through `mReference`. -/
def id (h : Handle) (p : Process) : Except Failure Int := do
  .ok (← h.deref p).id

end Handle

namespace WebViewFunctorManager

/-- The method `createFunctor` (299-311). -/
def createFunctor (p : Process) (data : Nat) (callbacks : WebViewFunctorCallbacks)
    (functorMode : RenderMode) : Except Failure (Int × Process) := do
  validateCallbacks p callbacks
  let (object, p) := WebViewFunctor.construct p data callbacks functorMode
  let id := object.id
  let (handle, object) ← object.createHandle
  .ok (id, { p with mActiveFunctors := p.mActiveFunctors ++ [handle],
                    mFunctors := p.mFunctors ++ [object] })

/-- The loop of `releaseFunctor`: erase the first handle whose `id()` is `functor`. -/
def releaseFunctor_loop (p : Process) : List Handle → Int → Except Failure (List Handle)
  | [], _ => .ok []
  | h :: rest, functor => do
    if (← h.id p) == functor then
      .ok rest
    else
      .ok (h :: (← releaseFunctor_loop p rest functor))

/-- The method `releaseFunctor` (313-325).
The handle moved into `toRelease` loses the reference the registry held;
what the destructor of the last reference requests from `RenderProxy` is
asynchronous and not part of this call. -/
def releaseFunctor (p : Process) (functor : Int) : Except Failure Process := do
  let active ← releaseFunctor_loop p p.mActiveFunctors functor
  .ok { p with mActiveFunctors := active }

/-- The loop of `destroyFunctor`: take the first functor whose `id()` is
`functor` out of the list. -/
def destroyFunctor_loop : List WebViewFunctor → Int → Option WebViewFunctor × List WebViewFunctor
  | [], _ => (none, [])
  | f :: rest, functor =>
    if f.id == functor then
      (some f, rest)
    else
      let (toRelease, rest) := destroyFunctor_loop rest functor
      (toRelease, f :: rest)

/-- The method `destroyFunctor` (345-357): the functor taken out of the list is
destroyed when `toRelease` goes out of scope. -/
def destroyFunctor (p : Process) (functor : Int) : Except Failure Process :=
  let (toRelease, functors) := destroyFunctor_loop p.mFunctors functor
  let p := { p with mFunctors := functors }
  match toRelease with
  | some object => object.destruct p
  | none => .ok p

/-- The loop of `handleFor`. -/
def handleFor_loop (p : Process) : List Handle → Int → Except Failure (Option Handle)
  | [], _ => .ok none
  | h :: rest, functor => do
    if (← h.id p) == functor then
      .ok (some h)
    else
      handleFor_loop p rest functor

/-- The method `handleFor` (385-393). -/
def handleFor (p : Process) (functor : Int) : Except Failure (Option Handle) :=
  handleFor_loop p p.mActiveFunctors functor

end WebViewFunctorManager

/-- The function `WebViewFunctor_create` (73-85); the result is the returned
`int` and the process afterwards. -/
def WebViewFunctor_create (p : Process) (data : Nat) (prototype : WebViewFunctorCallbacks)
    (functorMode : RenderMode) : Except Failure (Int × Process) :=
  if functorMode ≠ .OpenGL_ES ∧ functorMode ≠ .Vulkan then
    .ok (-1, p)
  else do
    -- the right operand of the conjunction is evaluated only when the left one holds
    let vulkanOnOther ←
      if functorMode = .Vulkan then
        (fun mode => decide (mode ≠ RenderMode.Vulkan)) <$> WebViewFunctor_queryPlatformRenderMode p
      else
        pure false
    if vulkanOnOther then
      .ok (-1, p)
    else
      WebViewFunctorManager.createFunctor p data prototype functorMode

/-- The function `WebViewFunctor_release` (87-89). -/
def WebViewFunctor_release (p : Process) (functor : Int) : Except Failure Process :=
  WebViewFunctorManager.releaseFunctor p functor

/-! ## Reachable states of the registry -/

/-- The entries every operation of a functor may call whatever the backend:
the ones `validateCallbacks` checks first. -/
def WebViewFunctorCallbacks.mandatoryPresent (callbacks : WebViewFunctorCallbacks) : Bool :=
  callbacks.onSync.isSome && callbacks.onContextDestroyed.isSome &&
    callbacks.onDestroyed.isSome && callbacks.removeOverlays.isSome

/-- Whether an event is a call of an embedder callback (and not a request to
the compositor or the GPU context). -/
def Event.isCallback : Event → Bool
  | .resetContext => false
  | .contextMergeTransaction _ _ => false
  | .transactionApply _ => false
  | _ => true

/-- Whether an event is a call of the embedder callback `onContextDestroyed`. -/
def Event.isOnContextDestroyed : Event → Bool
  | .onContextDestroyed _ _ => true
  | _ => false

/-- Overlay support is enabled in the configuration, an active render context
exists, and that context exposes a non-null root surface. -/
def overlaysAvailable (p : Process) : Bool :=
  p.enableWebViewOverlays &&
    match p.activeContext with
    | some activeContext => activeContext.getSurfaceControl.isSome
    | none => false

/-- The process `p'` differs from `p` at most in the event log and the
current-functor slot. -/
def Process.Frame (p p' : Process) : Prop :=
  p' = { p with events := p'.events, sCurrentFunctor := p'.sCurrentFunctor }

/-- Whether `h.id()` can be read and equals `functor`. -/
def Handle.hasId (h : Handle) (p : Process) (functor : Int) : Bool :=
  match h.id p with
  | .ok id => id == functor
  | .error _ => false

/-- A state without dangling references: every functor lies below the
allocation pointer and every active handle refers to a functor the manager
still owns. -/
def Process.MemorySafe (p : Process) : Prop :=
  (∀ f ∈ p.mFunctors, f.addr < p.heapNext) ∧
  (∀ h ∈ p.mActiveFunctors, ∃ f ∈ p.mFunctors, f.addr = h.mReference)

instance (p : Process) : Decidable p.MemorySafe := by
  unfold Process.MemorySafe; infer_instance

/-- The address and the id of every functor of the registry, in order. -/
def Process.identities (p : Process) : List (Nat × Int) :=
  p.mFunctors.map (fun f => (f.addr, f.mFunctor))

/-- The state of a process before the first functor is constructed. -/
def Process.Initial (p : Process) : Prop :=
  p.sNextId = 1 ∧ p.mFunctors = [] ∧ p.mActiveFunctors = []

instance (p : Process) : Decidable p.Initial := by
  unfold Process.Initial; infer_instance

/-- A registry call that has returned. -/
inductive Done where
  /-- A `createFunctor` call that returned `id`. -/
  | created (id : Int)
  /-- A `releaseFunctor(functor)` call. -/
  | released (functor : Int)
  /-- A `destroyFunctor(functor)` call. -/
  | destroyed (functor : Int)
  deriving DecidableEq, Repr

/-- The ids returned by the `createFunctor` calls of a history, in order. -/
def createdIds : List Done → List Int
  | [] => []
  | .created id :: rest => id :: createdIds rest
  | _ :: rest => createdIds rest

/-- The states a process reaches from `p0`, with the history of registry calls.
`destroyFunctor` is called the way the destructor of `Handle` requests it: for
an id that no handle of the active set carries any more. Everything else the
process does (draws, loss of the GPU context, thread reports, a change of a
property) is a step `other`: it creates and destroys no functor and leaves
`sNextId`, the allocator, the addresses, the ids and the active set alone. -/
inductive Reaches (p0 : Process) : List Done → Process → Prop where
  | start : Reaches p0 [] p0
  | createFunctor {hist p p' data callbacks functorMode id} :
    Reaches p0 hist p →
    WebViewFunctorManager.createFunctor p data callbacks functorMode = .ok (id, p') →
    Reaches p0 (hist ++ [.created id]) p'
  | releaseFunctor {hist p p' functor} :
    Reaches p0 hist p →
    WebViewFunctorManager.releaseFunctor p functor = .ok p' →
    Reaches p0 (hist ++ [.released functor]) p'
  | destroyFunctor {hist p p' functor} :
    Reaches p0 hist p →
    (∀ h ∈ p.mActiveFunctors, h.hasId p functor = false) →
    WebViewFunctorManager.destroyFunctor p functor = .ok p' →
    Reaches p0 (hist ++ [.destroyed functor]) p'
  | other {hist p p'} :
    Reaches p0 hist p →
    p'.sNextId = p.sNextId → p'.heapNext = p.heapNext →
    p'.mActiveFunctors = p.mActiveFunctors → p'.identities = p.identities →
    Reaches p0 hist p'

/-- A state reached from an initial one in the course of which fewer than
`2^31` functors were constructed (the counter `sNextId` has not wrapped). -/
def Reachable (p : Process) : Prop :=
  ∃ p0 hist, p0.Initial ∧ Reaches p0 hist p ∧ (createdIds hist).length < 2 ^ 31

/-- What holds of a state reached after `createFunctor` has returned the ids
`ids`, while `sNextId` has not wrapped: the ids handed out are 1, 2, 3, ... in
order, the registry holds functors with pairwise distinct ids and addresses,
and every active handle refers to a functor of the registry, no two to the
same one. -/
structure Consistent (ids : List Int) (p : Process) : Prop where
  next : p.sNextId = wrapInt32 (ids.length + 1)
  inOrder : ids = (List.range ids.length).map (fun k : Nat => (k : Int) + 1)
  known : ∀ i ∈ p.mFunctors.map (·.mFunctor), i ∈ ids
  idsNodup : (p.mFunctors.map (·.mFunctor)).Nodup
  addrNodup : (p.mFunctors.map (·.addr)).Nodup
  below : ∀ a ∈ p.mFunctors.map (·.addr), a < p.heapNext
  live : ∀ h ∈ p.mActiveFunctors, h.mReference ∈ p.mFunctors.map (·.addr)
  refsNodup : (p.mActiveFunctors.map (·.mReference)).Nodup

/-- Read off the history: `id` was returned by an earlier `createFunctor` call
and no `releaseFunctor(id)` call has been made since. -/
def ActiveByHistory (hist : List Done) (id : Int) : Prop :=
  ∃ before since, hist = before ++ Done.created id :: since ∧ Done.released id ∉ since

/-- Read off the history: `id` was returned by an earlier `createFunctor` call
and no `destroyFunctor(id)` call has been made since. -/
def RegisteredByHistory (hist : List Done) (id : Int) : Prop :=
  ∃ before since, hist = before ++ Done.created id :: since ∧ Done.destroyed id ∉ since

/-! ## Thread bookkeeping and context loss -/

namespace Handle

/-- The accessor `Handle::getRenderingThreads()`, which reads through `mReference`. -/
def getRenderingThreads (h : Handle) (p : Process) : Except Failure (List Int) := do
  .ok (← h.deref p).getRenderingThreads

end Handle

namespace WebViewFunctorManager

/-- The loop of `reportRenderingThreads`: the first functor whose `id()` is
`functor` stores the thread ids; the loop stops there. -/
def reportRenderingThreads_loop :
    List WebViewFunctor → Int → List Int → List WebViewFunctor
  | [], _, _ => []
  | f :: rest, functor, thread_ids =>
    if f.id == functor then
      f.reportRenderingThreads thread_ids :: rest
    else
      f :: reportRenderingThreads_loop rest functor thread_ids

/-- The method `reportRenderingThreads` (359-368); the array `thread_ids` of
length `size` is a list. -/
def reportRenderingThreads (p : Process) (functor : Int) (thread_ids : List Int) : Process :=
  { p with mFunctors := reportRenderingThreads_loop p.mFunctors functor thread_ids }

/-- The body of the inner loop of `getRenderingThreadsForActiveFunctors`: `tid`
is appended unless `std::find` finds it. -/
def pushUnique (renderingThreads : List Int) (tid : Int) : List Int :=
  if renderingThreads.contains tid then renderingThreads else renderingThreads ++ [tid]

/-- The outer loop of `getRenderingThreadsForActiveFunctors`. -/
def getRenderingThreads_loop (p : Process) :
    List Handle → List Int → Except Failure (List Int)
  | [], renderingThreads => .ok renderingThreads
  | h :: rest, renderingThreads => do
    let functorThreads ← h.getRenderingThreads p
    getRenderingThreads_loop p rest (functorThreads.foldl pushUnique renderingThreads)

/-- The method `getRenderingThreadsForActiveFunctors` (370-383). -/
def getRenderingThreadsForActiveFunctors (p : Process) : Except Failure (List Int) :=
  getRenderingThreads_loop p p.mActiveFunctors []

/-- The call `toDestroyContext[i]->destroyContext()`: the functor at the address
`functor` runs `destroyContext` and is changed in place. -/
def destroyContextAt (p : Process) (functor : Nat) : Except Failure Process :=
  match p.mFunctors.find? (fun f => f.addr == functor) with
  | none => .error (.undefinedBehaviour "call through a dangling functor pointer")
  | some object => do
    let (object, p) ← object.destroyContext p
    .ok { p with mFunctors := p.mFunctors.map (fun f => if f.addr == functor then object else f) }

/-- The second loop of `onContextDestroyed`, over the snapshot of pointers. -/
def onContextDestroyed_loop : List Nat → Process → Except Failure Process
  | [], p => .ok p
  | functor :: rest, p => do
    let p ← destroyContextAt p functor
    onContextDestroyed_loop rest p

/-- The method `onContextDestroyed` (327-343): the pointers to the functors are
copied (under the lock), then `destroyContext` is called through each copy. -/
def onContextDestroyed (p : Process) : Except Failure Process :=
  let toDestroyContext := p.mFunctors.map (fun f => f.addr)
  onContextDestroyed_loop toDestroyContext p

/-- Where the locked block of a `createFunctor` call made on another thread
(the two `push_back`s, 304-308) falls among the steps of `onContextDestroyed`:
before the locked block that takes the snapshot, or after it, when `calls` of
the `destroyContext` calls of the second loop have been made. `mLock` keeps
the block out of the first loop; a block that runs while a `destroyContext`
call is in progress is placed after that call, which reads and writes its own
object, the event log and no vector. -/
inductive Insertion where
  | beforeSnapshot
  | afterSnapshot (calls : Nat)
  deriving DecidableEq, Repr

/-- The method `onContextDestroyed` (327-343) on the render thread while another
thread calls `createFunctor` (299-311), the steps of the two threads in the
order `insertion` names. The part of `createFunctor` before its locked block
reads the pipeline type, `sNextId` and the allocator and writes the new object
only, none of which `onContextDestroyed` touches; the call is placed where its
locked block runs. The snapshot holds the addresses of the objects, not of the
slots of the vector, as `mFunctors[i].get()` gives them. -/
def onContextDestroyed_concurrent (p : Process) (insertion : Insertion) (data : Nat)
    (callbacks : WebViewFunctorCallbacks) (functorMode : RenderMode) :
    Except Failure (Int × Process) :=
  match insertion with
  | .beforeSnapshot => do
    let (id, p) ← createFunctor p data callbacks functorMode
    let p ← onContextDestroyed p
    .ok (id, p)
  | .afterSnapshot calls => do
    let toDestroyContext := p.mFunctors.map (fun f => f.addr)
    let p ← onContextDestroyed_loop (toDestroyContext.take calls) p
    let (id, p) ← createFunctor p data callbacks functorMode
    let p ← onContextDestroyed_loop (toDestroyContext.drop calls) p
    .ok (id, p)

end WebViewFunctorManager

/-- The function `WebViewFunctor_reportRenderingThreads` (91-93). -/
def WebViewFunctor_reportRenderingThreads (p : Process) (functor : Int)
    (thread_ids : List Int) : Process :=
  WebViewFunctorManager.reportRenderingThreads p functor thread_ids

/-! ## Callbacks that use the overlay functions

A callback of the embedder is handed pointers to static functions of
`ScopedCurrentFunctor`, which act on the functor the slot holds at the time
they are called. The calls of `mergeTransaction` a callback makes before it
returns are a parameter of the methods below; the calls of `getSurfaceControl`
are not modelled. -/

namespace ScopedCurrentFunctor

/-- The static function `mergeTransaction` (48-51). `current` is the functor
whose method is running, with the fields that method has set so far: the
object at the address `current.addr`. The object at any other address is read
from the functors the manager owns. -/
def mergeTransaction (p : Process) (current : WebViewFunctor)
    (transaction : Option Transaction) : Except Failure Process := do
  ALOG_ASSERT p p.sCurrentFunctor.isSome
  match p.sCurrentFunctor with
  | none => .error (.undefinedBehaviour "call through a null sCurrentFunctor")
  | some functor =>
    if functor = current.addr then
      .ok (current.mergeTransaction p transaction)
    else
      match p.mFunctors.find? (fun f => f.addr == functor) with
      | some object => .ok (object.mergeTransaction p transaction)
      | none => .error (.undefinedBehaviour "call through a dangling sCurrentFunctor")

/-- The calls of `mergeTransaction` a callback makes before it returns, in
order; `none` is a null transaction. -/
def mergeTransaction_each (current : WebViewFunctor) :
    List (Option Transaction) → Process → Except Failure Process
  | [], p => .ok p
  | transaction :: rest, p => do
    let p ← mergeTransaction p current transaction
    mergeTransaction_each current rest p

end ScopedCurrentFunctor

/-- A call through the function pointer `fn`, recorded as `ev`, of a callback
that calls `mergeTransaction` through the pointer it was handed, once for each
element of `requests`, and returns. -/
def invokeWith (fn : Option Nat) (ev : Event) (current : WebViewFunctor)
    (requests : List (Option Transaction)) (p : Process) : Except Failure Process := do
  let p ← invoke fn ev p
  ScopedCurrentFunctor.mergeTransaction_each current requests p

namespace WebViewFunctor

/-- The method `drawGl` (145-163) with a draw callback that makes the calls
`requests` through `overlayParams.mergeTransaction`. -/
def drawGlWith (self : WebViewFunctor) (p : Process) (drawInfo : DrawGlInfo)
    (requests : List (Option Transaction)) : Except Failure (WebViewFunctor × Process) := do
  let self := if !self.mHasContext then { self with mHasContext := true } else self
  let p ← ScopedCurrentFunctor.enter p (some self.addr)
  let (overlaysMode, self, p) :=
    if !drawInfo.isLayer then
      let (prepared, self, p) := self.prepareRootSurfaceControl p
      (if prepared then OverlaysMode.Enabled else OverlaysMode.Disabled, self, p)
    else (OverlaysMode.Disabled, self, p)
  let p ← invokeWith self.mCallbacks.gles.draw
    (Event.glesDraw self.mFunctor self.mData drawInfo overlaysMode) self requests p
  let p ← ScopedCurrentFunctor.leave p
  .ok (self, p)

/-- The method `drawVk` (175-190) with a draw callback that makes the calls
`requests` through `overlayParams.mergeTransaction`. -/
def drawVkWith (self : WebViewFunctor) (p : Process) (params : VkFunctorDrawParams)
    (requests : List (Option Transaction)) : Except Failure (WebViewFunctor × Process) := do
  let p ← ScopedCurrentFunctor.enter p (some self.addr)
  let (overlaysMode, self, p) :=
    if !params.is_layer then
      let (prepared, self, p) := self.prepareRootSurfaceControl p
      (if prepared then OverlaysMode.Enabled else OverlaysMode.Disabled, self, p)
    else (OverlaysMode.Disabled, self, p)
  let p ← invokeWith self.mCallbacks.vk.draw
    (Event.vkDraw self.mFunctor self.mData params overlaysMode) self requests p
  let p ← ScopedCurrentFunctor.leave p
  .ok (self, p)

/-- The method `removeOverlays` (209-216) with a `removeOverlays` callback that
makes the calls `requests` through the `mergeTransaction` pointer it is given. -/
def removeOverlaysWith (self : WebViewFunctor) (p : Process)
    (requests : List (Option Transaction)) : Except Failure (WebViewFunctor × Process) := do
  let p ← ScopedCurrentFunctor.enter p (some self.addr)
  let p ← invokeWith self.mCallbacks.removeOverlays
    (Event.removeOverlays self.mFunctor self.mData) self requests p
  let (self, p) :=
    if self.mSurfaceControl.isSome then
      ({ self with mSurfaceControl := none }, self.reparentSurfaceControl p none)
    else (self, p)
  let p ← ScopedCurrentFunctor.leave p
  .ok (self, p)

end WebViewFunctor

/-! ## Notions used in the statements -/

/-- The events of one `mergeTransaction` call for a non-null transaction: the
transaction is offered to the active context, if there is one, and applied
directly when it was not merged. -/
def mergeEvents (activeContext : Option CanvasContext) (transaction : Transaction)
    (surfaceControl : Option Nat) : List Event :=
  match activeContext with
  | some c =>
    Event.contextMergeTransaction transaction surfaceControl ::
      (if c.mergeTransactionResult then [] else [Event.transactionApply transaction])
  | none => [Event.transactionApply transaction]

/-- The events of the `mergeTransaction` calls `requests` when they reach a
functor whose surface is `surfaceControl`. -/
def requestEvents (activeContext : Option CanvasContext) (surfaceControl : Option Nat)
    (requests : List (Option Transaction)) : List Event :=
  requests.flatMap (fun transaction =>
    match transaction with
    | none => []
    | some t => mergeEvents activeContext t surfaceControl)

/-- The events of one `reparentSurfaceControl(parent)` call: none when the
functor has no compositor surface, otherwise those of merging the reparent of
that surface. -/
def reparentEvents (self : WebViewFunctor) (activeContext : Option CanvasContext)
    (parent : Option Nat) : List Event :=
  match self.mSurfaceControl with
  | some surface => mergeEvents activeContext (.reparent surface parent) (some surface)
  | none => []

/-- The compositor requests of `prepareRootSurfaceControl()` when overlays are
enabled and the active context `c` has the root surface `root`: a reparent
when the generation of `c` is not the last one seen, nothing otherwise. -/
def prepareRequests (self : WebViewFunctor) (c : CanvasContext) (root : Nat) : List Event :=
  if self.mParentSurfaceControlGenerationId ≠ c.getSurfaceControlGenerationId then
    reparentEvents self (some c) (some root)
  else []

/-- Whether an event hands a reparent of a surface to the active context. -/
def Event.isReparent : Event → Bool
  | .contextMergeTransaction (.reparent _ _) _ => true
  | _ => false

/-- The elements of a list in the order of their first occurrence, each once. -/
def keepFirst : List Int → List Int
  | [] => []
  | t :: rest => t :: (keepFirst rest).filter (fun u => u != t)

/-- The rendering threads of the functors of the active set, concatenated in
the order of the active set. -/
def activeRenderingThreads (p : Process) : List Int :=
  p.mActiveFunctors.flatMap (fun h =>
    match h.deref p with
    | .ok f => f.getRenderingThreads
    | .error _ => [])

/-- What `destroyContext` logs for one functor. -/
def contextEvents (grContext : Bool) (f : WebViewFunctor) : List Event :=
  if f.mHasContext then
    Event.onContextDestroyed f.mFunctor f.mData ::
      (if grContext then [Event.resetContext] else [])
  else []

end uirenderer

namespace android

open uirenderer (Failure)

/-! ## StringBuffer (core/jni/android_os_PerfettoTrackEventExtra.cpp)

The thread-local statics of the class are one record, passed explicitly. A
`char` is its byte value, a `jchar` its code unit. An array or a `std::string`
is the list of its elements; a store or a load outside it ends the computation.
The calls of `JNIEnv` copy or expose the code units of the Java string and are
taken to succeed. -/

/-- Where the `data()` of a `std::string_view` returned by `utf16_to_ascii` points. -/
inductive Pointer where
  /-- The string literal `""`. -/
  | literal
  /-- The address `char_buffer + offset`. -/
  | char_buffer (offset : Nat)
  /-- The characters of the `node`-th string of `overflow_strings`, counted
  from the front; a node of a `std::list` stays where it is until it is erased. -/
  | overflow_strings (node : Nat)
  deriving DecidableEq, Repr

/-- A `std::string_view`: a pointer and a length. -/
structure string_view where
  data : Pointer
  size : Nat
  deriving DecidableEq, Repr

/-- The static members of `StringBuffer` (71-90). -/
structure StringBuffer where
  char_buffer : List Nat
  jchar_buffer : List Nat
  overflow_strings : List (List Nat)
  current_offset : Nat
  is_overflow_strings_empty : Bool
  deriving DecidableEq, Repr

namespace StringBuffer

/-- The constant `BASE_SIZE`. -/
def BASE_SIZE : Nat := 128

/-- The statics as the program starts a thread: zero-filled arrays of
`BASE_SIZE` elements, an empty list, offset 0, flag `true`. -/
def initial : StringBuffer :=
  { char_buffer := List.replicate BASE_SIZE 0, jchar_buffer := List.replicate BASE_SIZE 0,
    overflow_strings := [], current_offset := 0, is_overflow_strings_empty := true }

/-- The arrays have their declared size. -/
def Sized (s : StringBuffer) : Prop :=
  s.char_buffer.length = BASE_SIZE ∧ s.jchar_buffer.length = BASE_SIZE

instance (s : StringBuffer) : Decidable s.Sized := by
  unfold Sized; infer_instance

/-- A store `buffer[i] = c`. -/
def store (buffer : List Nat) (i : Nat) (c : Nat) : Except Failure (List Nat) :=
  if i < buffer.length then .ok (buffer.set i c)
  else .error (.undefinedBehaviour "store outside the array")

/-- A load `buffer[i]`. -/
def load (buffer : List Nat) (i : Nat) : Except Failure Nat :=
  match buffer[i]? with
  | some c => .ok c
  | none => .error (.undefinedBehaviour "load outside the array")

/-- The lambda of `copy_utf16_to_ascii` (94-95); 63 is the character `?`. -/
def toAscii (c : Nat) : Nat :=
  if c ≤ 0xFF then c else 63

/-- The call of `std::transform` in `copy_utf16_to_ascii`: `remaining` elements
are still to be converted, the next one is `src[i]` and goes to `dst[offset + i]`. -/
def transform (src : List Nat) (offset : Nat) : Nat → Nat → List Nat → Except Failure (List Nat)
  | _, 0, dst => .ok dst
  | i, remaining + 1, dst => do
    let c ← load src i
    let dst ← store dst (offset + i) (toAscii c)
    transform src offset (i + 1) remaining dst

/-- The method `copy_utf16_to_ascii` (92-101), writing to `dst + offset`. The
release of the critical region changes nothing the class keeps. -/
def copy_utf16_to_ascii (src : List Nat) (len : Nat) (dst : List Nat) (offset : Nat) :
    Except Failure (List Nat) :=
  transform src offset 0 len dst

/-- The method `reset` (104-110). -/
def reset (s : StringBuffer) : StringBuffer :=
  let s :=
    if !s.is_overflow_strings_empty then
      { s with overflow_strings := [], is_overflow_strings_empty := true }
    else s
  { s with current_offset := 0 }

/-- The call `env->GetStringRegion(val, 0, len, buffer)`: `len` code units of the
string are copied to the front of the buffer. -/
def GetStringRegion (val : List Nat) (len : Nat) (buffer : List Nat) :
    Except Failure (List Nat) :=
  if len ≤ buffer.length ∧ len ≤ val.length then .ok (val.take len ++ buffer.drop len)
  else .error (.undefinedBehaviour "GetStringRegion outside the array")

/-- The method `utf16_to_ascii` (119-157); `none` is a null `jstring`, and a
string is the list of its UTF-16 code units. -/
def utf16_to_ascii (s : StringBuffer) (val : Option (List Nat)) :
    Except Failure (string_view × StringBuffer) :=
  match val with
  | none => .ok ({ data := .literal, size := 0 }, s)
  | some val =>
    let len := val.length
    if len = 0 then .ok ({ data := .literal, size := 0 }, s) else do
    let (temp_buffer, s) ←
      if len ≤ BASE_SIZE then do
        let jchar_buffer ← GetStringRegion val len s.jchar_buffer
        pure (jchar_buffer, { s with jchar_buffer := jchar_buffer })
      else
        -- GetStringCritical: a pointer to the code units of the string
        pure (val, s)
    let next_offset := s.current_offset + len + 1
    if BASE_SIZE > next_offset then do
      let char_buffer ← copy_utf16_to_ascii temp_buffer len s.char_buffer s.current_offset
      let char_buffer ← store char_buffer (s.current_offset + len) 0
      let res : string_view := { data := .char_buffer s.current_offset, size := len }
      .ok (res, { s with char_buffer := char_buffer, current_offset := next_offset })
    else do
      let node := s.overflow_strings.length
      let str ← copy_utf16_to_ascii temp_buffer len (List.replicate (len + 1) 0) 0
      .ok ({ data := .overflow_strings node, size := str.length },
        { s with overflow_strings := s.overflow_strings ++ [str],
                 is_overflow_strings_empty := false })

/-- The states of the statics a thread reaches by calling `reset` and
`utf16_to_ascii`. -/
inductive Reachable : StringBuffer → Prop where
  | start : Reachable initial
  | reset {s} : Reachable s → Reachable s.reset
  | utf16_to_ascii {s val res s'} :
    Reachable s → s.utf16_to_ascii val = .ok (res, s') → Reachable s'

end StringBuffer

/-- The character `data()[i]` of a view, read in the state `s`; `none` when
the address is not inside the array or string the view points into. -/
def string_view.get? (v : string_view) (s : StringBuffer) (i : Nat) : Option Nat :=
  match v.data with
  | .literal => if i = 0 then some 0 else none
  | .char_buffer offset => s.char_buffer[offset + i]?
  | .overflow_strings node =>
    match s.overflow_strings[node]? with
    | some str => if i < str.length then str[i]? else if i = str.length then some 0 else none
    | none => none

/-- The characters `data()[0]` to `data()[size() - 1]` of a view. -/
def string_view.chars (v : string_view) (s : StringBuffer) : List (Option Nat) :=
  (List.range v.size).map (v.get? s)

/-! ### Notions used in the statements about `StringBuffer` -/

namespace StringBuffer

/-- A sequence of `utf16_to_ascii` calls with no `reset` in between: the views
returned, in order, and the state afterwards. -/
def utf16_to_ascii_each (s : StringBuffer) :
    List (Option (List Nat)) → Except Failure (List string_view × StringBuffer)
  | [] => .ok ([], s)
  | val :: rest => do
    let (res, s) ← s.utf16_to_ascii val
    let (views, s) ← utf16_to_ascii_each s rest
    .ok (res :: views, s)

/-- What the class keeps between calls: the arrays have their declared size,
the offset is inside `char_buffer`, and the flag tells whether the overflow
list is empty. -/
def Invariant (s : StringBuffer) : Prop :=
  s.char_buffer.length = BASE_SIZE ∧ s.jchar_buffer.length = BASE_SIZE ∧
    s.current_offset < BASE_SIZE ∧
    (s.is_overflow_strings_empty = true ↔ s.overflow_strings = [])

end StringBuffer

/-- A view handed out before the state `s` was reached and since the last
`reset`: its characters and its terminator lie below `current_offset`, or it
points to a string the overflow list holds. -/
def string_view.Issued (v : string_view) (s : StringBuffer) : Prop :=
  match v.data with
  | .literal => True
  | .char_buffer offset => offset + v.size < s.current_offset
  | .overflow_strings node => node < s.overflow_strings.length

/-- A view into storage taken between the states `s` and `s'`. -/
def string_view.Fresh (v : string_view) (s s' : StringBuffer) : Prop :=
  match v.data with
  | .literal => True
  | .char_buffer offset => s.current_offset ≤ offset ∧ offset + v.size < s'.current_offset
  | .overflow_strings node =>
    s.overflow_strings.length ≤ node ∧ node < s'.overflow_strings.length

/-! ## VibratorController (services/core/jni/com_android_server_vibrator_VibratorController.cpp)

The values of type `float` are a parameter `α` of the model, with the two
comparisons against zero the file makes. The HAL is a parameter as well: what
a call answers. A call of `onComplete` on the callback listener is recorded in
the wrapper. -/

/-- Two-complement wrap-around of a 64-bit integer. -/
def wrapInt64 (n : Int) : Int :=
  (n + 9223372036854775808) % 18446744073709551616 - 9223372036854775808

/-- The comparisons of a `float` with zero. -/
structure FloatOps (α : Type) where
  /-- The test `x == 0`. -/
  isZero : α → Bool
  /-- The test `x > 0`. -/
  isPositive : α → Bool

namespace Aidl

/-- The AIDL enum `Braking`, as the integer it is cast from. -/
abbrev Braking := Int

/-- The enumerator `Braking::NONE`. -/
def Braking.NONE : Braking := 0

/-- The AIDL parcelable `ActivePwle`. -/
structure ActivePwle (α : Type) where
  startAmplitude : α
  endAmplitude : α
  startFrequency : α
  endFrequency : α
  duration : Int
  deriving DecidableEq, Repr

/-- The AIDL parcelable `BrakingPwle`. -/
structure BrakingPwle where
  braking : Braking
  duration : Int
  deriving DecidableEq, Repr

/-- The AIDL union `PrimitivePwle`. -/
inductive PrimitivePwle (α : Type) where
  | active (pwle : ActivePwle α)
  | braking (pwle : BrakingPwle)
  deriving DecidableEq, Repr

end Aidl

/-- The fields of a Java ramp segment that `sRampClassInfo` names. -/
structure RampSegment (α : Type) where
  startAmplitude : α
  endAmplitude : α
  startFrequencyHz : α
  endFrequencyHz : α
  duration : Int
  deriving DecidableEq, Repr

/-- How a call into the HAL ends, as far as the results are told apart. -/
inductive HalResult where
  | isOk
  | isUnsupported
  | failed
  deriving DecidableEq, Repr

/-- The captures of the lambda that `createCallback` returns. -/
structure Callback where
  vibrationId : Int
  stepId : Int
  callbackId : Int
  deriving DecidableEq, Repr

/-- The class `VibratorControllerWrapper` (91-145). `mCallbackListener` holds
the calls `onComplete(vibratorId, vibrationId, stepId)` made on the listener. -/
structure VibratorControllerWrapper where
  mVibratorId : Int
  mCallbackId : Int
  mCallbackListener : List (Int × Int × Int)
  deriving DecidableEq, Repr

namespace VibratorControllerWrapper

/-- The method `createCallback` (119-132): the callback and the wrapper after
`++mCallbackId`. -/
def createCallback (self : VibratorControllerWrapper) (vibrationId stepId : Int) :
    Callback × VibratorControllerWrapper :=
  let callbackId := wrapInt64 (self.mCallbackId + 1)
  ({ vibrationId := vibrationId, stepId := stepId, callbackId := callbackId },
   { self with mCallbackId := callbackId })

/-- The method `disableOldCallbacks` (134-137). -/
def disableOldCallbacks (self : VibratorControllerWrapper) : VibratorControllerWrapper :=
  { self with mCallbackId := wrapInt64 (self.mCallbackId + 1) }

end VibratorControllerWrapper

/-- The body of the lambda of `createCallback` (121-131), run on the wrapper it
captured; `fix` is the value of
`android_os_vibrator_fix_vibration_thread_callback_handling()`. -/
def Callback.invoke (callback : Callback) (fix : Bool) (self : VibratorControllerWrapper) :
    VibratorControllerWrapper :=
  let currentCallbackId := self.mCallbackId
  if !fix && currentCallbackId != callback.callbackId then
    self
  else
    { self with
      mCallbackListener := self.mCallbackListener ++
        [(self.mVibratorId, callback.vibrationId, callback.stepId)] }

/-- The function `brakingPwle` (147-152). -/
def brakingPwle (braking : Aidl.Braking) (duration : Int) : Aidl.BrakingPwle :=
  { braking := braking, duration := duration }

/-- The function `activePwleFromJavaPrimitive` (154-164). -/
def activePwleFromJavaPrimitive {α : Type} (ramp : RampSegment α) : Aidl.ActivePwle α :=
  { startAmplitude := ramp.startAmplitude, endAmplitude := ramp.endAmplitude,
    startFrequency := ramp.startFrequencyHz, endFrequency := ramp.endFrequencyHz,
    duration := ramp.duration }

/-- The function `shouldBeReplacedWithBraking` (176-180). -/
def shouldBeReplacedWithBraking {α : Type} (ops : FloatOps α) (activePwle : Aidl.ActivePwle α)
    (braking : Aidl.Braking) : Bool :=
  (braking != Aidl.Braking.NONE) && ops.isZero activePwle.startAmplitude &&
    ops.isZero activePwle.endAmplitude

/-- The function `shouldAddLastBraking` (182-186). -/
def shouldAddLastBraking {α : Type} (ops : FloatOps α) (lastActivePwle : Aidl.ActivePwle α)
    (braking : Aidl.Braking) : Bool :=
  (braking != Aidl.Braking.NONE) && ops.isPositive lastActivePwle.startAmplitude &&
    ops.isZero lastActivePwle.endAmplitude

/-- The loop of `vibratorPerformPwleEffect` (371-385): `i` is the index of the
next element, the pair is `primitives` and `totalDuration`. -/
def vibratorPerformPwleEffect_loop {α : Type} (ops : FloatOps α) (braking : Aidl.Braking)
    (size : Nat) :
    Nat → List (RampSegment α) → List (Aidl.PrimitivePwle α) × Int →
      List (Aidl.PrimitivePwle α) × Int
  | _, [], state => state
  | i, element :: rest, (primitives, totalDuration) =>
    let activePwle := activePwleFromJavaPrimitive element
    let primitives :=
      if decide (i > 0) && shouldBeReplacedWithBraking ops activePwle braking then
        primitives ++ [Aidl.PrimitivePwle.braking (brakingPwle braking activePwle.duration)]
      else
        primitives ++ [Aidl.PrimitivePwle.active activePwle]
    let totalDuration := wrapInt64 (totalDuration + activePwle.duration)
    let primitives :=
      if decide (i = size - 1) && shouldAddLastBraking ops activePwle braking then
        primitives ++ [Aidl.PrimitivePwle.braking (brakingPwle braking 0)]
      else primitives
    vibratorPerformPwleEffect_loop ops braking size (i + 1) rest (primitives, totalDuration)

/-- The function `vibratorPerformPwleEffect` (360-393); `ptr` is the wrapper
behind the pointer, `none` for null, and `performPwleEffect` is what the HAL
answers to the primitives. The result is the value returned, the wrapper
afterwards, and the primitives and the callback handed to the HAL. -/
def vibratorPerformPwleEffect {α : Type} (ops : FloatOps α)
    (performPwleEffect : List (Aidl.PrimitivePwle α) → HalResult)
    (ptr : Option VibratorControllerWrapper) (waveform : List (RampSegment α))
    (brakingId : Int) (vibrationId stepId : Int) :
    Int × Option VibratorControllerWrapper × Option (List (Aidl.PrimitivePwle α) × Callback) :=
  match ptr with
  | none => (-1, none, none)
  | some wrapper =>
    let braking : Aidl.Braking := brakingId
    let size := waveform.length
    let (primitives, totalDuration) :=
      vibratorPerformPwleEffect_loop ops braking size 0 waveform ([], 0)
    let (callback, wrapper) := wrapper.createCallback vibrationId stepId
    let result := performPwleEffect primitives
    (match result with
      | .isOk => totalDuration
      | .isUnsupported => 0
      | .failed => -1,
     some wrapper, some (primitives, callback))

/-- The function `vibratorOff` (266-275); the answer of the HAL is not used. -/
def vibratorOff (ptr : Option VibratorControllerWrapper) : Option VibratorControllerWrapper :=
  match ptr with
  | none => none
  | some wrapper => some wrapper.disableOldCallbacks

/-- The value `vibratorGetInfo` passes to `setPwleSizeMax` (481-486) for the
maximum `pwleSizeMax` the HAL reports. -/
def vibratorGetInfo_pwleSizeMax (pwleSizeMax : Int) : Int :=
  uirenderer.wrapInt32 (pwleSizeMax - 1)

/-! ### Notions used in the statements about the vibrator, and sample inputs -/

/-- What happens to a wrapper after a callback was created: a later
`createCallback`, a `disableOldCallbacks` (as `vibratorOff` makes it), or
another callback of the wrapper firing. -/
inductive WrapperCall where
  | createCallback (vibrationId stepId : Int)
  | disableOldCallbacks
  | fire (callback : Callback)
  deriving DecidableEq, Repr

/-- Whether the call is a `createCallback` or a `disableOldCallbacks`. -/
def WrapperCall.renews : WrapperCall → Bool
  | .fire _ => false
  | _ => true

/-- The wrapper after a sequence of calls. -/
def VibratorControllerWrapper.after (fix : Bool) (self : VibratorControllerWrapper) :
    List WrapperCall → VibratorControllerWrapper
  | [] => self
  | .createCallback vibrationId stepId :: rest =>
    VibratorControllerWrapper.after fix (self.createCallback vibrationId stepId).2 rest
  | .disableOldCallbacks :: rest =>
    VibratorControllerWrapper.after fix self.disableOldCallbacks rest
  | .fire callback :: rest =>
    VibratorControllerWrapper.after fix (callback.invoke fix self) rest

/-- The primitive the loop pushes for the ramp at index `i`. -/
def primitiveAt {α : Type} (ops : FloatOps α) (braking : Aidl.Braking) (i : Nat)
    (ramp : RampSegment α) : Aidl.PrimitivePwle α :=
  if 0 < i ∧ braking ≠ Aidl.Braking.NONE ∧ ops.isZero ramp.startAmplitude = true ∧
      ops.isZero ramp.endAmplitude = true then
    .braking { braking := braking, duration := ramp.duration }
  else
    .active { startAmplitude := ramp.startAmplitude, endAmplitude := ramp.endAmplitude,
              startFrequency := ramp.startFrequencyHz, endFrequency := ramp.endFrequencyHz,
              duration := ramp.duration }

/-- The primitives pushed for the ramps of a waveform, the first of which has
index `i`, the trailing braking primitive left aside. -/
def primitivesFrom {α : Type} (ops : FloatOps α) (braking : Aidl.Braking) :
    Nat → List (RampSegment α) → List (Aidl.PrimitivePwle α)
  | _, [] => []
  | i, ramp :: rest => primitiveAt ops braking i ramp :: primitivesFrom ops braking (i + 1) rest

/-- Whether a trailing braking primitive follows the waveform: the waveform is
not empty, braking is not `NONE`, and the last ramp starts with a positive
and ends with a zero amplitude. -/
def endsWithBraking {α : Type} (ops : FloatOps α) (braking : Aidl.Braking)
    (waveform : List (RampSegment α)) : Bool :=
  match waveform.getLast? with
  | none => false
  | some last =>
    decide (braking ≠ Aidl.Braking.NONE) && ops.isPositive last.startAmplitude &&
      ops.isZero last.endAmplitude

/-- The comparisons with zero on integers, for sample amplitudes. -/
def intOps : FloatOps Int :=
  { isZero := fun x => x == 0, isPositive := fun x => decide (0 < x) }

/-- A waveform of three ramps: up, silence, down to zero. -/
def sampleWaveform : List (RampSegment Int) :=
  [{ startAmplitude := 0, endAmplitude := 1, startFrequencyHz := 100, endFrequencyHz := 100,
     duration := 10 },
   { startAmplitude := 0, endAmplitude := 0, startFrequencyHz := 100, endFrequencyHz := 100,
     duration := 20 },
   { startAmplitude := 1, endAmplitude := 0, startFrequencyHz := 100, endFrequencyHz := 100,
     duration := 30 }]

/-- A wrapper of vibrator 4 on which nothing has been called. -/
def sampleWrapper : VibratorControllerWrapper :=
  { mVibratorId := 4, mCallbackId := 0, mCallbackListener := [] }

/-! ## Region (libs/hwui/jni/Region.cpp)

The classes `SkRegion` and `SkIRect` belong to Skia and the parcel to the
binder library; neither is among the sources. -/

/-- The struct `SkIRect`: four `int32_t` edges. -/
structure SkIRect where
  fLeft : Int
  fTop : Int
  fRight : Int
  fBottom : Int
  deriving DecidableEq, Repr

/-- The pixels a rectangle covers: none when it is empty. -/
def SkIRect.pixels (r : SkIRect) : Finset (Int × Int) :=
  Finset.Ico r.fLeft r.fRight ×ˢ Finset.Ico r.fTop r.fBottom

/-- Modelled from the spec: the class `SkRegion`, a black box of the Skia
library. A region is the set of the pixels it covers; `operator==` compares
these sets. -/
abbrev SkRegion := Finset (Int × Int)

/-- The call `region->op(rect, SkRegion::kUnion_Op)`. -/
def SkRegion.op_kUnion_Op (region : SkRegion) (rect : SkIRect) : SkRegion :=
  region ∪ rect.pixels

/-- The vector of `int32_t` a parcel carries at the read and write position. -/
structure Parcel where
  rects : List Int
  deriving DecidableEq, Repr

/-- The loop of `Region_createFromParcel` (218-220), four elements at a time. -/
def Region_createFromParcel_loop : List Int → SkRegion → SkRegion
  | left :: top :: right :: bottom :: rest, region =>
    Region_createFromParcel_loop rest
      (region.op_kUnion_Op { fLeft := left, fTop := top, fRight := right, fBottom := bottom })
  | _, region => region

/-- The function `Region_createFromParcel` (203-229) on Linux; `none` is a null
parcel on the way in and the handle 0 on the way out. -/
def Region_createFromParcel (parcel : Option Parcel) : Option SkRegion :=
  match parcel with
  | none => none
  | some p =>
    let rects := p.rects
    if rects.length % 4 ≠ 0 then none
    else some (Region_createFromParcel_loop rects ∅)

/-- The loop of `Region_writeToParcel` (240-248) over the rectangles the
iterator of the region yields. -/
def Region_writeToParcel_loop : List SkIRect → List Int → List Int
  | [], rects => rects
  | r :: rest, rects =>
    Region_writeToParcel_loop rest (rects ++ [r.fLeft, r.fTop, r.fRight, r.fBottom])

/-- The function `Region_writeToParcel` (231-258) on Linux: the result and the
parcel afterwards. `iterator` gives the rectangles `SkRegion::Iterator` yields
for a region. -/
def Region_writeToParcel (iterator : SkRegion → List SkIRect) (region : SkRegion)
    (parcel : Option Parcel) : Bool × Option Parcel :=
  match parcel with
  | none => (false, none)
  | some _ => (true, some { rects := Region_writeToParcel_loop (iterator region) [] })

/-- The function `Region_equals` (262-267). -/
def Region_equals (r1 r2 : SkRegion) : Bool :=
  decide (r1 = r2)

/-! ### Notions used in the statements about regions, and sample inputs -/

/-- The union of the pixels of a list of rectangles. -/
def unionOf (rects : List SkIRect) : SkRegion :=
  rects.foldl (fun region rect => region ∪ rect.pixels) ∅

/-- A rectangle of two by two pixels. -/
def sampleRect : SkIRect :=
  { fLeft := 0, fTop := 0, fRight := 2, fBottom := 2 }

/-! ### Sample strings -/

/-- A Java string of three code units, the last one above `0xFF`. -/
def shortString : List Nat := [72, 105, 300]

/-- A Java string of 127 code units. -/
def longString : List Nat := List.replicate 127 97

/-- A Java string of 128 code units. -/
def fullString : List Nat := List.replicate 128 97

end android

namespace uirenderer

/-! ## Sample inputs -/

/-- A callback table with every entry present. -/
def fullCallbacks : WebViewFunctorCallbacks :=
  { onSync := some 101, onContextDestroyed := some 102, onDestroyed := some 103,
    removeOverlays := some 104, gles := { draw := some 105 },
    vk := { init := some 105, draw := some 106, postDraw := some 107 } }

/-- A callback table of an OpenGL-ES embedder: the Vulkan draw entries are null. -/
def glesCallbacks : WebViewFunctorCallbacks :=
  { fullCallbacks with vk := { init := some 105, draw := none, postDraw := none } }

/-- A process in which no functor has been constructed yet. -/
def freshProcess (pipelineType : RenderPipelineType) : Process :=
  { LOG_NDEBUG := false, pipelineType := pipelineType, enableWebViewOverlays := true,
    activeContext := none, grContext := false, sCurrentFunctor := none, sNextId := 1,
    heapNext := 0, mFunctors := [], mActiveFunctors := [], events := [] }

/-- The functor the first `createFunctor` call of a process constructs. -/
def sampleFunctor : WebViewFunctor :=
  { addr := 0, mCallbacks := fullCallbacks, mData := 7, mFunctor := 1, mMode := .OpenGL_ES,
    mCreatedHandle := true }

/-- A process whose only functor has been released and not yet destroyed. -/
def releasedProcess : Process :=
  { freshProcess .SkiaGL with sNextId := 2, heapNext := 1, mFunctors := [sampleFunctor] }

/-- A Vulkan functor that has not been initialised: no GPU context yet. -/
def vulkanFunctor : WebViewFunctor :=
  { addr := 0, mCallbacks := fullCallbacks, mData := 7, mFunctor := 1, mMode := .Vulkan,
    mCreatedHandle := true }

/-- A functor that has a GPU context. -/
def contextFunctor : WebViewFunctor :=
  { sampleFunctor with mHasContext := true }

/-- A process with an active render context that exposes a root surface. -/
def renderingProcess : Process :=
  { freshProcess .SkiaGL with
    activeContext := some { getSurfaceControl := some 50, getSurfaceControlGenerationId := 1,
                            mergeTransactionResult := true } }

/-- The process after its first `createFunctor` call: one functor, active. -/
def activeProcess : Process :=
  { freshProcess .SkiaGL with
    sNextId := 2, heapNext := 1, mFunctors := [sampleFunctor],
    mActiveFunctors := [{ mReference := 0 }] }

/-- The second functor a process constructs. -/
def secondFunctor : WebViewFunctor :=
  { addr := 1, mCallbacks := glesCallbacks, mData := 8, mFunctor := 2, mMode := .OpenGL_ES,
    mCreatedHandle := true }

/-- The process after two `createFunctor` calls: two functors, both active. -/
def twoActiveProcess : Process :=
  { freshProcess .SkiaGL with
    sNextId := 3, heapNext := 2, mFunctors := [sampleFunctor, secondFunctor],
    mActiveFunctors := [{ mReference := 0 }, { mReference := 1 }] }

/-- The functor as the constructor leaves it, before `createHandle`. -/
def newFunctor : WebViewFunctor :=
  (WebViewFunctor.construct (freshProcess .SkiaGL) 7 fullCallbacks .OpenGL_ES).1

/-- A callback table whose first backend entry is null: `gles.draw` and, in
the same storage, `vk.initialize`. -/
def nullDrawCallbacks : WebViewFunctorCallbacks :=
  { fullCallbacks with
    gles := { draw := none }, vk := { init := none, draw := some 106, postDraw := some 107 } }

/-- A functor that was released after threads 9 were reported for it. -/
def releasedFunctor : WebViewFunctor :=
  { addr := 2, mCallbacks := fullCallbacks, mData := 9, mFunctor := 3, mMode := .OpenGL_ES,
    mCreatedHandle := true, mRenderingThreads := [9] }

/-- Two active functors with the threads `[1, 2]` and `[2, 3]` reported, and a
released functor with thread 9. -/
def threadsProcess : Process :=
  { freshProcess .SkiaGL with
    sNextId := 4, heapNext := 3,
    mFunctors := [{ sampleFunctor with mRenderingThreads := [1, 2] },
                  { secondFunctor with mRenderingThreads := [2, 3] }, releasedFunctor],
    mActiveFunctors := [{ mReference := 0 }, { mReference := 1 }] }

/-- A functor with a GPU context and a compositor surface attached. -/
def overlayFunctor : WebViewFunctor :=
  { sampleFunctor with mHasContext := true, mSurfaceControl := some 60,
                       mParentSurfaceControlGenerationId := 5 }

/-- The process `renderingProcess` after the surface generation changed to 2. -/
def generation2Process : Process :=
  { freshProcess .SkiaGL with
    activeContext := some { getSurfaceControl := some 50, getSurfaceControlGenerationId := 2,
                            mergeTransactionResult := true } }

/-- Three functors, the first two active and the third released; the first and
the released one have a GPU context, and a `GrDirectContext` exists. -/
def contextLossProcess : Process :=
  { freshProcess .SkiaGL with
    grContext := true, sNextId := 4, heapNext := 3,
    mFunctors := [contextFunctor, secondFunctor, { releasedFunctor with mHasContext := true }],
    mActiveFunctors := [{ mReference := 0 }, { mReference := 1 }] }

/-- A build with assertions compiled out, at a moment when the guard slot
holds the functor at address 9: a callback of that functor is running. -/
def nestedProcess : Process :=
  { freshProcess .SkiaGL with LOG_NDEBUG := true, sCurrentFunctor := some 9 }

/-- A build with assertions enabled at such a moment. -/
def nestedDebugProcess : Process :=
  { freshProcess .SkiaGL with sCurrentFunctor := some 9 }

/-! ## Theorems -/

section create

theorem createFunctor_eq_ok {p : Process} {data : Nat} {callbacks : WebViewFunctorCallbacks}
    {functorMode : RenderMode} (hv : validateCallbacks p callbacks = .ok ()) :
    WebViewFunctorManager.createFunctor p data callbacks functorMode =
      .ok (p.sNextId,
        { p with
          heapNext := p.heapNext + 1,
          sNextId := wrapInt32 (p.sNextId + 1),
          mActiveFunctors := p.mActiveFunctors ++ [{ mReference := p.heapNext }],
          mFunctors := p.mFunctors ++ [
            { addr := p.heapNext, mCallbacks := callbacks, mData := data,
              mFunctor := p.sNextId, mMode := functorMode, mCreatedHandle := true }] }) := by
  simp [WebViewFunctorManager.createFunctor, hv, WebViewFunctor.construct,
    WebViewFunctor.createHandle, WebViewFunctor.id, LOG_ALWAYS_FATAL_IF, bind, Except.bind]

theorem createFunctor_eq_error {p : Process} {data : Nat} {callbacks : WebViewFunctorCallbacks}
    {functorMode : RenderMode} {e : Failure} (hv : validateCallbacks p callbacks = .error e) :
    WebViewFunctorManager.createFunctor p data callbacks functorMode = .error e := by
  simp [WebViewFunctorManager.createFunctor, hv, bind, Except.bind]

/-- C1: `WebViewFunctor_create` returns -1 and leaves the process state, hence
both manager registries, as it was when the requested mode is Vulkan on a
platform whose render mode is OpenGL-ES, and when the requested mode is neither
OpenGL-ES nor Vulkan; whatever the context pointer and callback table. -/
theorem WebViewFunctor_create_rejects (p : Process) (data : Nat)
    (prototype : WebViewFunctorCallbacks) (functorMode : RenderMode)
    (h : (functorMode = .Vulkan ∧ WebViewFunctor_queryPlatformRenderMode p = .ok .OpenGL_ES) ∨
      (functorMode ≠ .OpenGL_ES ∧ functorMode ≠ .Vulkan)) :
    ∃ p', WebViewFunctor_create p data prototype functorMode = .ok (-1, p') ∧
      p'.mActiveFunctors = p.mActiveFunctors ∧ p'.mFunctors = p.mFunctors ∧ p' = p := by
  refine ⟨p, ?_, rfl, rfl, rfl⟩
  rcases h with ⟨hm, hq⟩ | ⟨h1, h2⟩
  · subst hm
    simp [WebViewFunctor_create, hq, bind, Except.bind, Functor.map, Except.map]
  · simp [WebViewFunctor_create, h1, h2]

theorem WebViewFunctor_create_rejects_witness :
    ∃ p', WebViewFunctor_create (freshProcess .SkiaGL) 7 fullCallbacks .Vulkan = .ok (-1, p') ∧
      p'.mActiveFunctors = [] ∧ p'.mFunctors = [] ∧ p' = freshProcess .SkiaGL :=
  WebViewFunctor_create_rejects (freshProcess .SkiaGL) 7 fullCallbacks .Vulkan
    (Or.inl ⟨rfl, rfl⟩)

/-- C2, as stated, fails: a request for OpenGL-ES on a platform whose render
mode is Vulkan differs from the platform mode, yet it is not answered with -1:
with a complete callback table the functor is registered and its id 1 returned. -/
theorem WebViewFunctor_create_mismatch_not_always_rejected :
    ¬ (∀ (p : Process) (data : Nat) (prototype : WebViewFunctorCallbacks)
        (functorMode platform : RenderMode),
        WebViewFunctor_queryPlatformRenderMode p = .ok platform → functorMode ≠ platform →
        ∃ p', WebViewFunctor_create p data prototype functorMode = .ok (-1, p') ∧
          p'.mActiveFunctors = p.mActiveFunctors ∧ p'.mFunctors = p.mFunctors) := by
  intro h
  obtain ⟨p', h1, -, -⟩ :=
    h (freshProcess .SkiaVulkan) 7 fullCallbacks .OpenGL_ES .Vulkan rfl (by decide)
  have h2 : WebViewFunctor_create (freshProcess .SkiaVulkan) 7 fullCallbacks .OpenGL_ES =
      WebViewFunctorManager.createFunctor (freshProcess .SkiaVulkan) 7 fullCallbacks
        .OpenGL_ES := by
    simp [WebViewFunctor_create]
  rw [h2, createFunctor_eq_ok (by rfl)] at h1
  simp [freshProcess] at h1

/-- C2, amended: when the requested mode differs from the platform render mode,
`WebViewFunctor_create` answers -1 with the state unchanged exactly when the
requested mode is not OpenGL-ES. A request for OpenGL-ES (on a Vulkan
platform) is handed to `createFunctor`: it aborts when the table fails the
validation against the platform, and otherwise registers the functor and
returns its id. -/
theorem WebViewFunctor_create_mismatch (p : Process) (data : Nat)
    (prototype : WebViewFunctorCallbacks) (functorMode platform : RenderMode)
    (hq : WebViewFunctor_queryPlatformRenderMode p = .ok platform)
    (hne : functorMode ≠ platform) :
    (functorMode ≠ .OpenGL_ES →
      WebViewFunctor_create p data prototype functorMode = .ok (-1, p)) ∧
    (functorMode = .OpenGL_ES →
      platform = .Vulkan ∧
      WebViewFunctor_create p data prototype functorMode =
        WebViewFunctorManager.createFunctor p data prototype functorMode ∧
      (∀ e, validateCallbacks p prototype = .error e →
        WebViewFunctor_create p data prototype functorMode = .error e) ∧
      (validateCallbacks p prototype = .ok () →
        ∃ p', WebViewFunctor_create p data prototype functorMode = .ok (p.sNextId, p') ∧
          p'.mFunctors.length = p.mFunctors.length + 1 ∧
          p'.mActiveFunctors.length = p.mActiveFunctors.length + 1)) := by
  have hplat : platform = .OpenGL_ES ∨ platform = .Vulkan := by
    unfold WebViewFunctor_queryPlatformRenderMode at hq
    split at hq <;> simp_all
  constructor
  · intro hgl
    by_cases hvk : functorMode = .Vulkan
    · subst hvk
      have hp : platform = .OpenGL_ES := by
        rcases hplat with h | h
        · exact h
        · exact absurd h.symm hne
      subst hp
      simp [WebViewFunctor_create, hq, bind, Except.bind, Functor.map, Except.map]
    · simp [WebViewFunctor_create, hgl, hvk]
  · intro hgl
    subst hgl
    have hp : platform = .Vulkan := by
      rcases hplat with h | h
      · exact absurd h.symm hne
      · exact h
    have hc : WebViewFunctor_create p data prototype .OpenGL_ES =
        WebViewFunctorManager.createFunctor p data prototype .OpenGL_ES := by
      simp [WebViewFunctor_create]
    refine ⟨hp, hc, ?_, ?_⟩
    · intro e he
      rw [hc, createFunctor_eq_error he]
    · intro hv
      rw [hc, createFunctor_eq_ok hv]
      exact ⟨_, rfl, by simp, by simp⟩

theorem WebViewFunctor_create_mismatch_witness :
    RenderMode.Vulkan = .Vulkan ∧
    WebViewFunctor_create (freshProcess .SkiaVulkan) 7 fullCallbacks .OpenGL_ES =
      WebViewFunctorManager.createFunctor (freshProcess .SkiaVulkan) 7 fullCallbacks
        .OpenGL_ES ∧
    (∀ e, validateCallbacks (freshProcess .SkiaVulkan) fullCallbacks = .error e →
      WebViewFunctor_create (freshProcess .SkiaVulkan) 7 fullCallbacks .OpenGL_ES =
        .error e) ∧
    (validateCallbacks (freshProcess .SkiaVulkan) fullCallbacks = .ok () →
      ∃ p', WebViewFunctor_create (freshProcess .SkiaVulkan) 7 fullCallbacks .OpenGL_ES =
          .ok ((freshProcess .SkiaVulkan).sNextId, p') ∧
        p'.mFunctors.length = (freshProcess .SkiaVulkan).mFunctors.length + 1 ∧
        p'.mActiveFunctors.length =
          (freshProcess .SkiaVulkan).mActiveFunctors.length + 1) :=
  (WebViewFunctor_create_mismatch (freshProcess .SkiaVulkan) 7 fullCallbacks .OpenGL_ES
    .Vulkan rfl (by decide)).2 rfl

end create

section loops

theorem Handle.id_eq_ok_of_mem {p : Process} {h : Handle} {f : WebViewFunctor}
    (hnd : (p.mFunctors.map (·.addr)).Nodup) (hf : f ∈ p.mFunctors)
    (ha : f.addr = h.mReference) : h.id p = .ok f.mFunctor := by
  unfold Handle.id Handle.deref
  cases hfind : p.mFunctors.find? (fun f => f.addr == h.mReference) with
  | none =>
    rw [List.find?_eq_none] at hfind
    exact absurd (by simpa using ha) (hfind f hf)
  | some g =>
    have hg : g ∈ p.mFunctors := List.mem_of_find?_eq_some hfind
    have hga : g.addr = h.mReference := by simpa using List.find?_some hfind
    have : g = f := List.inj_on_of_nodup_map hnd hg hf (hga.trans ha.symm)
    subst this
    simp [bind, Except.bind, WebViewFunctor.id]

theorem Handle.mem_of_id_eq_ok {p : Process} {h : Handle} {i : Int} (hi : h.id p = .ok i) :
    ∃ f ∈ p.mFunctors, f.addr = h.mReference ∧ f.mFunctor = i := by
  unfold Handle.id Handle.deref at hi
  cases hfind : p.mFunctors.find? (fun f => f.addr == h.mReference) with
  | none => simp [hfind, bind, Except.bind] at hi
  | some g =>
    simp [hfind, bind, Except.bind, WebViewFunctor.id] at hi
    exact ⟨g, List.mem_of_find?_eq_some hfind, by simpa using List.find?_some hfind, hi⟩

theorem Handle.id_eq_ok_iff {p : Process} {h : Handle} {i : Int}
    (hnd : (p.mFunctors.map (·.addr)).Nodup) :
    h.id p = .ok i ↔ ∃ f ∈ p.mFunctors, f.addr = h.mReference ∧ f.mFunctor = i := by
  constructor
  · exact Handle.mem_of_id_eq_ok
  · rintro ⟨f, hf, ha, rfl⟩
    exact Handle.id_eq_ok_of_mem hnd hf ha

theorem Handle.hasId_eq_true_iff {p : Process} {h : Handle} {i : Int} :
    h.hasId p i = true ↔ h.id p = .ok i := by
  unfold Handle.hasId
  cases h.id p <;> simp

theorem Handle.hasId_eq_false_iff {p : Process} {h : Handle} {i : Int} :
    h.hasId p i = false ↔ h.id p ≠ .ok i := by
  rw [← Bool.not_eq_true, Handle.hasId_eq_true_iff]

theorem Handle.id_ok_of_live {p : Process} {h : Handle}
    (hl : ∃ f ∈ p.mFunctors, f.addr = h.mReference) : ∃ i, h.id p = .ok i := by
  obtain ⟨f, hf, ha⟩ := hl
  unfold Handle.id Handle.deref
  cases hfind : p.mFunctors.find? (fun f => f.addr == h.mReference) with
  | none =>
    rw [List.find?_eq_none] at hfind
    exact absurd (by simpa using ha) (hfind f hf)
  | some g => exact ⟨g.mFunctor, by simp [bind, Except.bind, WebViewFunctor.id]⟩

theorem releaseFunctor_loop_eq (p : Process) (functor : Int) :
    ∀ l : List Handle, (∀ h ∈ l, ∃ i, h.id p = .ok i) →
      WebViewFunctorManager.releaseFunctor_loop p l functor =
        .ok (l.eraseP (fun h => h.hasId p functor))
  | [], _ => by simp [WebViewFunctorManager.releaseFunctor_loop]
  | h :: rest, hl => by
    obtain ⟨i, hi⟩ := hl h (List.mem_cons_self _ _)
    have ih := releaseFunctor_loop_eq p functor rest
      (fun g hg => hl g (List.mem_cons_of_mem _ hg))
    by_cases hif : i = functor
    · simp [WebViewFunctorManager.releaseFunctor_loop, hi, hif, Handle.hasId, bind,
        Except.bind]
    · simp [WebViewFunctorManager.releaseFunctor_loop, hi, hif, Handle.hasId, bind,
        Except.bind, ih]

theorem handleFor_loop_eq (p : Process) (functor : Int) :
    ∀ l : List Handle, (∀ h ∈ l, ∃ i, h.id p = .ok i) →
      WebViewFunctorManager.handleFor_loop p l functor =
        .ok (l.find? (fun h => h.hasId p functor))
  | [], _ => by simp [WebViewFunctorManager.handleFor_loop]
  | h :: rest, hl => by
    obtain ⟨i, hi⟩ := hl h (List.mem_cons_self _ _)
    have ih := handleFor_loop_eq p functor rest
      (fun g hg => hl g (List.mem_cons_of_mem _ hg))
    by_cases hif : i = functor
    · simp [WebViewFunctorManager.handleFor_loop, hi, hif, Handle.hasId, bind,
        Except.bind]
    · simp [WebViewFunctorManager.handleFor_loop, hi, hif, Handle.hasId, bind,
        Except.bind, ih]

theorem destroyFunctor_loop_eq (functor : Int) :
    ∀ l : List WebViewFunctor,
      WebViewFunctorManager.destroyFunctor_loop l functor =
        (l.find? (fun f => f.id == functor), l.eraseP (fun f => f.id == functor))
  | [] => by simp [WebViewFunctorManager.destroyFunctor_loop]
  | f :: rest => by
    have ih := destroyFunctor_loop_eq functor rest
    by_cases hf : f.id = functor
    · simp [WebViewFunctorManager.destroyFunctor_loop, hf]
    · simp [WebViewFunctorManager.destroyFunctor_loop, hf, ih]

end loops

section frame

theorem Process.Frame.refl (p : Process) : p.Frame p := rfl

theorem Process.Frame.trans {p q r : Process} (h1 : p.Frame q) (h2 : q.Frame r) :
    p.Frame r := by
  unfold Process.Frame at *
  rw [h2, h1]

theorem Process.Frame.mFunctors {p q : Process} (h : p.Frame q) : q.mFunctors = p.mFunctors := by
  rw [h]

theorem Process.Frame.mActiveFunctors {p q : Process} (h : p.Frame q) :
    q.mActiveFunctors = p.mActiveFunctors := by
  rw [h]

theorem Process.Frame.sNextId {p q : Process} (h : p.Frame q) : q.sNextId = p.sNextId := by
  rw [h]

theorem Process.Frame.heapNext {p q : Process} (h : p.Frame q) : q.heapNext = p.heapNext := by
  rw [h]

theorem validateCallbacks_mandatory {p : Process} {callbacks : WebViewFunctorCallbacks}
    (h : validateCallbacks p callbacks = .ok ()) : callbacks.mandatoryPresent = true := by
  unfold validateCallbacks LOG_ALWAYS_FATAL_IF at h
  unfold WebViewFunctorCallbacks.mandatoryPresent
  cases h1 : callbacks.onSync <;> cases h2 : callbacks.onContextDestroyed <;>
    cases h3 : callbacks.onDestroyed <;> cases h4 : callbacks.removeOverlays <;>
    simp_all [bind, Except.bind]

theorem invoke_eq_ok {fn : Option Nat} (ev : Event) (p : Process) (h : fn.isSome = true) :
    invoke fn ev p = .ok { p with events := p.events ++ [ev] } := by
  cases fn with
  | none => simp at h
  | some a => rfl

theorem enter_eq_ok {p : Process} (functor : Nat)
    (h : p.LOG_NDEBUG = true ∨ p.sCurrentFunctor = none) :
    ScopedCurrentFunctor.enter p (some functor) =
      .ok { p with sCurrentFunctor := some functor } := by
  rcases h with h | h <;>
    simp [ScopedCurrentFunctor.enter, ALOG_ASSERT, LOG_ALWAYS_FATAL_IF, h, bind, Except.bind]

theorem leave_eq_ok {p : Process} (h : p.LOG_NDEBUG = true ∨ p.sCurrentFunctor.isSome = true) :
    ScopedCurrentFunctor.leave p = .ok { p with sCurrentFunctor := none } := by
  rcases h with h | h <;>
    simp [ScopedCurrentFunctor.leave, ALOG_ASSERT, LOG_ALWAYS_FATAL_IF, h, bind, Except.bind]

theorem mergeTransaction_events (self : WebViewFunctor) (p : Process)
    (transaction : Option Transaction) :
    ∃ evs, self.mergeTransaction p transaction = { p with events := p.events ++ evs } ∧
      ∀ e ∈ evs, e.isCallback = false := by
  unfold WebViewFunctor.mergeTransaction
  cases transaction with
  | none => exact ⟨[], by simp, by simp⟩
  | some t =>
    cases hc : p.activeContext with
    | none => exact ⟨[.transactionApply t], by simp [hc], by simp [Event.isCallback]⟩
    | some c =>
      cases hm : c.mergeTransactionResult
      · exact ⟨[.contextMergeTransaction t self.mSurfaceControl, .transactionApply t],
          by simp [hc, hm], by simp [Event.isCallback]⟩
      · exact ⟨[.contextMergeTransaction t self.mSurfaceControl], by simp [hc, hm],
          by simp [Event.isCallback]⟩

theorem reparentSurfaceControl_events (self : WebViewFunctor) (p : Process)
    (parent : Option Nat) :
    ∃ evs, self.reparentSurfaceControl p parent = { p with events := p.events ++ evs } ∧
      ∀ e ∈ evs, e.isCallback = false := by
  unfold WebViewFunctor.reparentSurfaceControl
  cases self.mSurfaceControl with
  | none => exact ⟨[], by simp, by simp⟩
  | some surface => exact mergeTransaction_events self p _

theorem destroyContext_eq (self : WebViewFunctor) (p : Process)
    (hcb : self.mHasContext = true → self.mCallbacks.onContextDestroyed.isSome = true) :
    self.destroyContext p =
      .ok ({ self with mHasContext := false },
        { p with events := p.events ++
            (if self.mHasContext then
              Event.onContextDestroyed self.mFunctor self.mData ::
                (if p.grContext then [Event.resetContext] else [])
            else []) }) := by
  unfold WebViewFunctor.destroyContext
  cases hc : self.mHasContext with
  | false =>
    cases self
    simp_all
  | true =>
    simp only [if_true, invoke_eq_ok _ _ (hcb hc), bind, Except.bind]
    cases p.grContext <;> simp

theorem removeOverlays_eq (self : WebViewFunctor) (p : Process)
    (hguard : p.LOG_NDEBUG = true ∨ p.sCurrentFunctor = none)
    (hcb : self.mCallbacks.removeOverlays.isSome = true) :
    ∃ evs, self.removeOverlays p =
      .ok ({ self with mSurfaceControl := none },
        { p with sCurrentFunctor := none,
                 events := p.events ++ Event.removeOverlays self.mFunctor self.mData :: evs }) := by
  obtain ⟨evs, he, -⟩ := reparentSurfaceControl_events self
    { p with sCurrentFunctor := some self.addr,
             events := p.events ++ [Event.removeOverlays self.mFunctor self.mData] } none
  unfold WebViewFunctor.removeOverlays
  by_cases hs : self.mSurfaceControl.isSome = true
  · refine ⟨evs, ?_⟩
    simp [enter_eq_ok self.addr hguard, invoke_eq_ok _ _ hcb, bind, Except.bind, hs, he,
      ScopedCurrentFunctor.leave, ALOG_ASSERT, LOG_ALWAYS_FATAL_IF]
  · refine ⟨[], ?_⟩
    have hn : self.mSurfaceControl = none := by
      cases h : self.mSurfaceControl <;> simp_all
    have hself : { self with mSurfaceControl := none } = self := by
      cases self; simp_all
    simp [enter_eq_ok self.addr hguard, invoke_eq_ok _ _ hcb, bind, Except.bind, hn,
      ScopedCurrentFunctor.leave, ALOG_ASSERT, LOG_ALWAYS_FATAL_IF]
    exact hself.symm

theorem destruct_eq (self : WebViewFunctor) (p : Process)
    (hguard : p.LOG_NDEBUG = true ∨ p.sCurrentFunctor = none)
    (hcb : self.mCallbacks.mandatoryPresent = true) :
    ∃ p' evs, self.destruct p = .ok p' ∧ p.Frame p' ∧
      p'.events = p.events ++ evs ++ [Event.onDestroyed self.mFunctor self.mData] := by
  unfold WebViewFunctorCallbacks.mandatoryPresent at hcb
  simp only [Bool.and_eq_true] at hcb
  obtain ⟨⟨⟨-, h2⟩, h3⟩, h4⟩ := hcb
  have h1 := destroyContext_eq self p (fun _ => h2)
  obtain ⟨evs, he⟩ := removeOverlays_eq { self with mHasContext := false }
    { p with events := p.events ++
        (if self.mHasContext then
          Event.onContextDestroyed self.mFunctor self.mData ::
            (if p.grContext then [Event.resetContext] else [])
        else []) } hguard h4
  unfold WebViewFunctor.destruct
  by_cases hs : self.mSurfaceControl.isSome = true
  · simp only [h1, bind, Except.bind, hs, if_true, he]
    rw [invoke_eq_ok _ _ h3]
    refine ⟨_, (if self.mHasContext then
        Event.onContextDestroyed self.mFunctor self.mData ::
          (if p.grContext then [Event.resetContext] else [])
      else []) ++ Event.removeOverlays self.mFunctor self.mData :: evs, rfl,
      by simp [Process.Frame], by simp⟩
  · simp only [h1, bind, Except.bind, hs, if_false]
    rw [invoke_eq_ok _ _ h3]
    refine ⟨_, (if self.mHasContext then
        Event.onContextDestroyed self.mFunctor self.mData ::
          (if p.grContext then [Event.resetContext] else [])
      else []), rfl,
      by simp [Process.Frame], by simp⟩

theorem prepareRootSurfaceControl_spec (self : WebViewFunctor) (p : Process) :
    ∃ self' evs,
      self.prepareRootSurfaceControl p =
        (overlaysAvailable p, self', { p with events := p.events ++ evs }) ∧
      self'.mHasContext = self.mHasContext ∧ self'.mCallbacks = self.mCallbacks ∧
      self'.mFunctor = self.mFunctor ∧ self'.mData = self.mData ∧ self'.addr = self.addr ∧
      ∀ e ∈ evs, e.isCallback = false := by
  unfold WebViewFunctor.prepareRootSurfaceControl overlaysAvailable
  by_cases he : p.enableWebViewOverlays = true
  · match hc : p.activeContext with
    | none => exact ⟨self, [], by cases p; simp_all, rfl, rfl, rfl, rfl, rfl, by simp⟩
    | some c =>
      match hs : c.getSurfaceControl with
      | none => exact ⟨self, [], by cases p; simp_all, rfl, rfl, rfl, rfl, rfl, by simp⟩
      | some root =>
        by_cases hg : self.mParentSurfaceControlGenerationId = c.getSurfaceControlGenerationId
        · exact ⟨self, [], by cases p; simp_all, rfl, rfl, rfl, rfl, rfl, by simp⟩
        · obtain ⟨evs, hr, hev⟩ := reparentSurfaceControl_events self p (some root)
          exact ⟨{ self with
              mParentSurfaceControlGenerationId := c.getSurfaceControlGenerationId },
            evs, by cases p; simp_all, rfl, rfl, rfl, rfl, rfl, hev⟩
  · exact ⟨self, [], by cases p; simp_all, rfl, rfl, rfl, rfl, rfl, by simp⟩

theorem drawGl_spec (self : WebViewFunctor) (p : Process) (drawInfo : DrawGlInfo)
    (hguard : p.LOG_NDEBUG = true ∨ p.sCurrentFunctor = none)
    (hcb : self.mCallbacks.gles.draw.isSome = true) :
    ∃ self' evs,
      self.drawGl p drawInfo =
        .ok (self', { p with
          sCurrentFunctor := none,
          events := p.events ++ evs ++ [Event.glesDraw self.mFunctor self.mData drawInfo
            (if !drawInfo.isLayer && overlaysAvailable p then .Enabled else .Disabled)] }) ∧
      self'.mHasContext = true ∧ self'.mCallbacks = self.mCallbacks ∧
      self'.mFunctor = self.mFunctor ∧ self'.mData = self.mData ∧ self'.addr = self.addr ∧
      ∀ e ∈ evs, e.isCallback = false := by
  unfold WebViewFunctor.drawGl
  generalize hself0 :
    (if (!self.mHasContext) = true then { self with mHasContext := true } else self) = self0
  have h0 : self0.mHasContext = true ∧ self0.mCallbacks = self.mCallbacks ∧
      self0.mFunctor = self.mFunctor ∧ self0.mData = self.mData ∧ self0.addr = self.addr := by
    subst hself0
    cases h : self.mHasContext <;> simp [h]
  obtain ⟨h01, h02, h03, h04, h05⟩ := h0
  obtain ⟨self1, evs, hp, h11, h12, h13, h14, h15, hev⟩ :=
    prepareRootSurfaceControl_spec self0 { p with sCurrentFunctor := some self0.addr }
  have hav : overlaysAvailable { p with sCurrentFunctor := some self0.addr } =
      overlaysAvailable p := rfl
  rw [hav] at hp
  simp only [enter_eq_ok self0.addr hguard, bind, Except.bind]
  cases hl : drawInfo.isLayer with
  | true =>
    refine ⟨self0, [], ?_, h01, h02, h03, h04, h05, by simp⟩
    simp [invoke_eq_ok _ _ (h02 ▸ hcb), ScopedCurrentFunctor.leave, ALOG_ASSERT,
      LOG_ALWAYS_FATAL_IF, bind, Except.bind, h03, h04]
  | false =>
    refine ⟨self1, evs, ?_, h11.trans h01, h12.trans h02, h13.trans h03, h14.trans h04,
      h15.trans h05, hev⟩
    simp [hp, invoke_eq_ok _ _ ((h12.trans h02) ▸ hcb), ScopedCurrentFunctor.leave, ALOG_ASSERT,
      LOG_ALWAYS_FATAL_IF, bind, Except.bind, h13, h03, h14, h04]

theorem drawVk_spec (self : WebViewFunctor) (p : Process) (params : VkFunctorDrawParams)
    (hguard : p.LOG_NDEBUG = true ∨ p.sCurrentFunctor = none)
    (hcb : self.mCallbacks.vk.draw.isSome = true) :
    ∃ self' evs,
      self.drawVk p params =
        .ok (self', { p with
          sCurrentFunctor := none,
          events := p.events ++ evs ++ [Event.vkDraw self.mFunctor self.mData params
            (if !params.is_layer && overlaysAvailable p then .Enabled else .Disabled)] }) ∧
      self'.mHasContext = self.mHasContext ∧ self'.mCallbacks = self.mCallbacks ∧
      self'.mFunctor = self.mFunctor ∧ self'.mData = self.mData ∧ self'.addr = self.addr ∧
      ∀ e ∈ evs, e.isCallback = false := by
  unfold WebViewFunctor.drawVk
  obtain ⟨self1, evs, hp, h11, h12, h13, h14, h15, hev⟩ :=
    prepareRootSurfaceControl_spec self { p with sCurrentFunctor := some self.addr }
  have hav : overlaysAvailable { p with sCurrentFunctor := some self.addr } =
      overlaysAvailable p := rfl
  rw [hav] at hp
  simp only [enter_eq_ok self.addr hguard, bind, Except.bind]
  cases hl : params.is_layer with
  | true =>
    refine ⟨self, [], ?_, rfl, rfl, rfl, rfl, rfl, by simp⟩
    simp [invoke_eq_ok _ _ hcb, ScopedCurrentFunctor.leave, ALOG_ASSERT,
      LOG_ALWAYS_FATAL_IF, bind, Except.bind]
  | false =>
    refine ⟨self1, evs, ?_, h11, h12, h13, h14, h15, hev⟩
    simp [hp, invoke_eq_ok _ _ (h12 ▸ hcb), ScopedCurrentFunctor.leave, ALOG_ASSERT,
      LOG_ALWAYS_FATAL_IF, bind, Except.bind, h13, h14]

theorem initVk_spec (self : WebViewFunctor) (p : Process)
    (hcb : self.mHasContext = false → self.mCallbacks.vk.init.isSome = true) :
    self.initVk p =
      .ok ({ self with mHasContext := true },
        { p with events := p.events ++
            (if self.mHasContext then [] else [Event.vkInitialize self.mFunctor self.mData]) }) := by
  unfold WebViewFunctor.initVk
  cases hc : self.mHasContext with
  | true =>
    cases self
    simp_all
  | false =>
    simp [invoke_eq_ok _ _ (hcb hc), bind, Except.bind]

theorem overlaysAvailable_iff (p : Process) :
    overlaysAvailable p = true ↔
      p.enableWebViewOverlays = true ∧
        ∃ c, p.activeContext = some c ∧ c.getSurfaceControl.isSome = true := by
  unfold overlaysAvailable
  cases p.activeContext <;> simp

end frame

section steps

theorem except_bind_eq_ok {ε α β : Type} {x : Except ε α} {f : α → Except ε β} {b : β}
    (h : (x >>= f) = .ok b) : ∃ a, x = .ok a ∧ f a = .ok b := by
  cases x with
  | error e => simp [bind, Except.bind] at h
  | ok a => exact ⟨a, rfl, by simpa [bind, Except.bind] using h⟩

theorem invoke_frame {fn : Option Nat} {ev : Event} {p p' : Process}
    (h : invoke fn ev p = .ok p') : p.Frame p' := by
  cases fn with
  | none => simp [invoke] at h
  | some a =>
    simp only [invoke, Except.ok.injEq] at h
    subst h
    rfl

theorem enter_frame {functor : Option Nat} {p p' : Process}
    (h : ScopedCurrentFunctor.enter p functor = .ok p') : p.Frame p' := by
  unfold ScopedCurrentFunctor.enter at h
  obtain ⟨_, -, h⟩ := except_bind_eq_ok h
  obtain ⟨_, -, h⟩ := except_bind_eq_ok h
  simp only [Except.ok.injEq] at h
  subst h
  rfl

theorem leave_frame {p p' : Process}
    (h : ScopedCurrentFunctor.leave p = .ok p') : p.Frame p' := by
  unfold ScopedCurrentFunctor.leave at h
  obtain ⟨_, -, h⟩ := except_bind_eq_ok h
  simp only [Except.ok.injEq] at h
  subst h
  rfl

theorem frame_of_events {p : Process} (evs : List Event) :
    p.Frame { p with events := p.events ++ evs } := rfl

theorem destroyContext_frame {self self' : WebViewFunctor} {p p' : Process}
    (h : self.destroyContext p = .ok (self', p')) : p.Frame p' := by
  unfold WebViewFunctor.destroyContext at h
  split at h
  · obtain ⟨q, hq, h⟩ := except_bind_eq_ok h
    have hf := invoke_frame hq
    simp only [Except.ok.injEq, Prod.mk.injEq] at h
    obtain ⟨-, h⟩ := h
    subst h
    split
    · exact hf.trans (frame_of_events _)
    · exact hf
  · simp only [Except.ok.injEq, Prod.mk.injEq] at h
    rw [h.2]
    exact Process.Frame.refl _

theorem removeOverlays_frame {self self' : WebViewFunctor} {p p' : Process}
    (h : self.removeOverlays p = .ok (self', p')) : p.Frame p' := by
  unfold WebViewFunctor.removeOverlays at h
  obtain ⟨q1, hq1, h⟩ := except_bind_eq_ok h
  obtain ⟨q2, hq2, h⟩ := except_bind_eq_ok h
  have h12 := (enter_frame hq1).trans (invoke_frame hq2)
  obtain ⟨evs, he, -⟩ := reparentSurfaceControl_events self q2 none
  have hpair : ∃ s3 q3,
      (if self.mSurfaceControl.isSome = true then
        (({ self with mSurfaceControl := none } : WebViewFunctor),
          self.reparentSurfaceControl q2 none)
      else (self, q2)) = (s3, q3) ∧ q2.Frame q3 := by
    split
    · exact ⟨_, _, rfl, by rw [he]; exact frame_of_events evs⟩
    · exact ⟨_, _, rfl, Process.Frame.refl _⟩
  obtain ⟨s3, q3, hpair, hf3⟩ := hpair
  rw [hpair] at h
  simp only at h
  obtain ⟨q4, hq4, h⟩ := except_bind_eq_ok h
  simp only [Except.ok.injEq, Prod.mk.injEq] at h
  rw [← h.2]
  exact (h12.trans hf3).trans (leave_frame hq4)

theorem destruct_frame {self : WebViewFunctor} {p p' : Process}
    (h : self.destruct p = .ok p') : p.Frame p' := by
  unfold WebViewFunctor.destruct at h
  obtain ⟨⟨s1, q1⟩, hq1, h⟩ := except_bind_eq_ok h
  have h1 := destroyContext_frame hq1
  simp only at h
  split at h
  · obtain ⟨⟨s2, q2⟩, hq2, h⟩ := except_bind_eq_ok h
    exact (h1.trans (removeOverlays_frame hq2)).trans (invoke_frame h)
  · obtain ⟨⟨s2, q2⟩, hq2, h⟩ := except_bind_eq_ok h
    simp only [Except.ok.injEq, Prod.mk.injEq] at hq2
    rw [hq2.2] at h1
    exact h1.trans (invoke_frame h)

theorem createFunctor_ok_inv {p p' : Process} {data : Nat}
    {callbacks : WebViewFunctorCallbacks} {functorMode : RenderMode} {id : Int}
    (h : WebViewFunctorManager.createFunctor p data callbacks functorMode = .ok (id, p')) :
    id = p.sNextId ∧ p'.sNextId = wrapInt32 (p.sNextId + 1) ∧ p'.heapNext = p.heapNext + 1 ∧
      ∃ object : WebViewFunctor, object.addr = p.heapNext ∧ object.mFunctor = p.sNextId ∧
        p'.mFunctors = p.mFunctors ++ [object] ∧
        p'.mActiveFunctors = p.mActiveFunctors ++ [{ mReference := p.heapNext }] := by
  cases hv : validateCallbacks p callbacks with
  | error e => rw [createFunctor_eq_error hv] at h; cases h
  | ok u =>
    cases u
    rw [createFunctor_eq_ok hv] at h
    simp only [Except.ok.injEq, Prod.mk.injEq] at h
    obtain ⟨h1, h2⟩ := h
    subst h1 h2
    exact ⟨rfl, rfl, rfl, _, rfl, rfl, rfl, rfl⟩

theorem releaseFunctor_ok_inv {p p' : Process} {functor : Int}
    (hlive : ∀ h ∈ p.mActiveFunctors, ∃ i, h.id p = .ok i)
    (h : WebViewFunctorManager.releaseFunctor p functor = .ok p') :
    p' = { p with mActiveFunctors := p.mActiveFunctors.eraseP (fun h => h.hasId p functor) } := by
  unfold WebViewFunctorManager.releaseFunctor at h
  rw [releaseFunctor_loop_eq p functor _ hlive] at h
  simp only [bind, Except.bind, Except.ok.injEq] at h
  exact h.symm

theorem destroyFunctor_ok_inv {p p' : Process} {functor : Int}
    (h : WebViewFunctorManager.destroyFunctor p functor = .ok p') :
    p'.mFunctors = p.mFunctors.eraseP (fun f => f.id == functor) ∧
      p'.mActiveFunctors = p.mActiveFunctors ∧ p'.sNextId = p.sNextId ∧
      p'.heapNext = p.heapNext := by
  unfold WebViewFunctorManager.destroyFunctor at h
  rw [destroyFunctor_loop_eq] at h
  simp only at h
  split at h
  · have hf := destruct_frame h
    exact ⟨hf.mFunctors, hf.mActiveFunctors, hf.sNextId, hf.heapNext⟩
  · simp only [Except.ok.injEq] at h
    subst h
    exact ⟨rfl, rfl, rfl, rfl⟩

end steps

section invariant

theorem wrapInt32_of_lt {n : Int} (h0 : 0 ≤ n) (h1 : n < 2 ^ 31) : wrapInt32 n = n := by
  unfold wrapInt32
  omega

theorem createdIds_append (a b : List Done) :
    createdIds (a ++ b) = createdIds a ++ createdIds b := by
  induction a with
  | nil => rfl
  | cons x rest ih => cases x <;> simp [createdIds, ih]

theorem mem_map_addr {l : List WebViewFunctor} {a : Nat} :
    a ∈ l.map (·.addr) ↔ ∃ f ∈ l, f.addr = a := by
  simp

theorem map_addr_of_identities {p q : Process} (h : q.identities = p.identities) :
    q.mFunctors.map (·.addr) = p.mFunctors.map (·.addr) := by
  have := congrArg (List.map Prod.fst) h
  simpa [Process.identities, List.map_map, Function.comp_def] using this

theorem map_id_of_identities {p q : Process} (h : q.identities = p.identities) :
    q.mFunctors.map (·.mFunctor) = p.mFunctors.map (·.mFunctor) := by
  have := congrArg (List.map Prod.snd) h
  simpa [Process.identities, List.map_map, Function.comp_def] using this

theorem Handle.id_eq_ok_iff_identities {p : Process} {h : Handle} {i : Int}
    (hnd : (p.mFunctors.map (·.addr)).Nodup) :
    h.id p = .ok i ↔ (h.mReference, i) ∈ p.identities := by
  rw [Handle.id_eq_ok_iff hnd]
  simp [Process.identities]

theorem Consistent.readable {ids : List Int} {p : Process} (hc : Consistent ids p) :
    ∀ h ∈ p.mActiveFunctors, ∃ i, h.id p = .ok i := by
  intro h hh
  exact Handle.id_ok_of_live (mem_map_addr.mp (hc.live h hh))

theorem Consistent.id_injective {ids : List Int} {p : Process} (hc : Consistent ids p)
    {a b : Handle} {i : Int} (ha : a.id p = .ok i) (hb : b.id p = .ok i) : a = b := by
  obtain ⟨fa, hfa, haa, hia⟩ := Handle.mem_of_id_eq_ok ha
  obtain ⟨fb, hfb, hba, hib⟩ := Handle.mem_of_id_eq_ok hb
  have : fa = fb := List.inj_on_of_nodup_map hc.idsNodup hfa hfb (hia.trans hib.symm)
  subst this
  cases a; cases b
  simp_all

theorem Reaches.consistent {p0 p : Process} {hist : List Done} (h0 : p0.Initial)
    (hr : Reaches p0 hist p) :
    (createdIds hist).length < 2 ^ 31 → Consistent (createdIds hist) p := by
  induction hr with
  | start =>
    intro _
    obtain ⟨h1, h2, h3⟩ := h0
    exact ⟨by simp [createdIds, h1, wrapInt32], by simp [createdIds], by simp [h2],
      by simp [h2], by simp [h2], by simp [h2], by simp [h3], by simp [h3]⟩
  | @createFunctor hist p p' data callbacks functorMode id _ hc ih =>
    intro hb
    rw [createdIds_append] at hb ⊢
    simp only [createdIds, List.length_append, List.length_singleton] at hb ⊢
    have ih := ih (by omega)
    obtain ⟨hid, hnext, hheap, object, hoa, hoi, hfs, has⟩ := createFunctor_ok_inv hc
    have hsn : p.sNextId = ((createdIds hist).length : Int) + 1 := by
      rw [ih.next]
      apply wrapInt32_of_lt <;> omega
    have hfresh : id ∉ createdIds hist := by
      rw [ih.inOrder, hid, hsn]
      simp only [List.mem_map, List.mem_range, not_exists, not_and]
      intro k hk
      omega
    have haddr : p.heapNext ∉ p.mFunctors.map (·.addr) := fun hm =>
      absurd (ih.below _ hm) (by omega)
    refine ⟨?_, ?_, ?_, ?_, ?_, ?_, ?_, ?_⟩
    · rw [hnext, hsn]
      simp only [List.length_append, List.length_singleton]
      push_cast
      ring_nf
    · simp only [List.length_append, List.length_singleton]
      rw [List.range_succ, List.map_append, ← ih.inOrder, hid, hsn]
      simp
    · intro i hi
      rw [hfs] at hi
      simp only [List.map_append, List.map_cons, List.map_nil, List.mem_append,
        List.mem_singleton] at hi ⊢
      rcases hi with hi | hi
      · exact Or.inl (ih.known i hi)
      · exact Or.inr (by rw [hi, hoi, hid])
    · rw [hfs, List.map_append, List.nodup_append]
      refine ⟨ih.idsNodup, by simp, ?_⟩
      intro i hi hi'
      simp only [List.map_cons, List.map_nil, List.mem_singleton] at hi'
      exact hfresh (by rw [hid, ← hoi, ← hi']; exact ih.known i hi)
    · rw [hfs, List.map_append, List.nodup_append]
      refine ⟨ih.addrNodup, by simp, ?_⟩
      intro a ha ha'
      simp only [List.map_cons, List.map_nil, List.mem_singleton] at ha'
      exact haddr (by rw [← hoa, ← ha']; exact ha)
    · intro a ha
      rw [hfs] at ha
      simp only [List.map_append, List.map_cons, List.map_nil, List.mem_append,
        List.mem_singleton] at ha
      rcases ha with ha | ha
      · have := ih.below a ha
        omega
      · omega
    · intro h hh
      rw [has] at hh
      rw [hfs]
      simp only [List.mem_append, List.mem_singleton, List.map_append, List.map_cons,
        List.map_nil] at hh ⊢
      rcases hh with hh | hh
      · exact Or.inl (ih.live h hh)
      · exact Or.inr (by rw [hh, hoa])
    · rw [has, List.map_append, List.nodup_append]
      refine ⟨ih.refsNodup, by simp, ?_⟩
      intro a ha ha'
      simp only [List.map_cons, List.map_nil, List.mem_singleton] at ha'
      subst ha'
      obtain ⟨h, hh, hha⟩ := List.mem_map.mp ha
      exact haddr (hha ▸ ih.live h hh)
  | @releaseFunctor hist p p' functor _ hc ih =>
    intro hb
    rw [createdIds_append] at hb ⊢
    simp only [createdIds, List.append_nil] at hb ⊢
    have ih := ih hb
    have hp := releaseFunctor_ok_inv ih.readable hc
    subst hp
    refine ⟨ih.next, ih.inOrder, ih.known, ih.idsNodup, ih.addrNodup, ih.below, ?_, ?_⟩
    · intro h hh
      exact ih.live h (List.mem_of_mem_eraseP hh)
    · exact ih.refsNodup.sublist ((List.eraseP_sublist _).map _)
  | @destroyFunctor hist p p' functor _ hprot hc ih =>
    intro hb
    rw [createdIds_append] at hb ⊢
    simp only [createdIds, List.append_nil] at hb ⊢
    have ih := ih hb
    obtain ⟨hfs, has, hsn, hheap⟩ := destroyFunctor_ok_inv hc
    have hsub : (p'.mFunctors.map (·.mFunctor)).Sublist (p.mFunctors.map (·.mFunctor)) := by
      rw [hfs]; exact (List.eraseP_sublist _).map _
    have hsuba : (p'.mFunctors.map (·.addr)).Sublist (p.mFunctors.map (·.addr)) := by
      rw [hfs]; exact (List.eraseP_sublist _).map _
    refine ⟨hsn ▸ ih.next, ih.inOrder, fun i hi => ih.known i (hsub.subset hi),
      ih.idsNodup.sublist hsub, ih.addrNodup.sublist hsuba,
      fun a ha => hheap ▸ ih.below a (hsuba.subset ha), ?_, has ▸ ih.refsNodup⟩
    intro h hh
    rw [has] at hh
    obtain ⟨g, hg, hga⟩ := mem_map_addr.mp (ih.live h hh)
    have hid := Handle.id_eq_ok_of_mem ih.addrNodup hg hga
    have hne : g.mFunctor ≠ functor := by
      intro heq
      exact Handle.hasId_eq_false_iff.mp (hprot h hh) (heq ▸ hid)
    rw [hfs]
    exact mem_map_addr.mpr ⟨g, (List.mem_eraseP_of_neg (by simpa [WebViewFunctor.id] using hne)).mpr hg, hga⟩
  | @other hist p p' _ hsn hheap has hident ih =>
    intro hb
    have ih := ih hb
    have hm := map_id_of_identities hident
    have ha := map_addr_of_identities hident
    exact ⟨hsn ▸ ih.next, ih.inOrder, hm ▸ ih.known, hm ▸ ih.idsNodup, ha ▸ ih.addrNodup,
      by rw [ha, hheap]; exact ih.below, by rw [has, ha]; exact ih.live,
      has ▸ ih.refsNodup⟩

theorem eraseP_eq_filter_of_unique {α : Type} (q : α → Bool) :
    ∀ l : List α, l.Nodup → (∀ a ∈ l, ∀ b ∈ l, q a = true → q b = true → a = b) →
      l.eraseP q = l.filter (fun a => !q a)
  | [], _, _ => rfl
  | a :: t, hnd, hu => by
    have hat : a ∉ t := (List.nodup_cons.mp hnd).1
    have ih := eraseP_eq_filter_of_unique q t (List.nodup_cons.mp hnd).2
      (fun x hx y hy => hu x (List.mem_cons_of_mem _ hx) y (List.mem_cons_of_mem _ hy))
    by_cases hq : q a = true
    · have hnone : ∀ b ∈ t, q b = false := by
        intro b hb
        by_contra hqb
        have := hu a (List.mem_cons_self _ _) b (List.mem_cons_of_mem _ hb) hq (by simpa using hqb)
        exact hat (this ▸ hb)
      rw [List.eraseP_cons_of_pos hq, List.filter_cons_of_neg (by simp [hq])]
      symm
      rw [List.filter_eq_self]
      intro b hb
      simp [hnone b hb]
    · rw [List.eraseP_cons_of_neg hq, List.filter_cons_of_pos (by simpa using hq), ih]

theorem Handle.id_congr {p q : Process} (h : Handle) (hm : q.mFunctors = p.mFunctors) :
    h.id q = h.id p := by
  simp [Handle.id, Handle.deref, hm]

theorem Handle.hasId_congr {p q : Process} (h : Handle) (functor : Int)
    (hm : q.mFunctors = p.mFunctors) : h.hasId q functor = h.hasId p functor := by
  simp [Handle.hasId, Handle.id_congr h hm]

theorem Consistent.eraseP_eq_filter {ids : List Int} {p : Process} (hc : Consistent ids p)
    (functor : Int) :
    p.mActiveFunctors.eraseP (fun h => h.hasId p functor) =
      p.mActiveFunctors.filter (fun h => !h.hasId p functor) :=
  eraseP_eq_filter_of_unique _ _ (List.Nodup.of_map _ hc.refsNodup)
    (fun _ _ _ _ ha hb =>
      hc.id_injective (Handle.hasId_eq_true_iff.mp ha) (Handle.hasId_eq_true_iff.mp hb))

theorem reaches_activeProcess :
    Reaches (freshProcess .SkiaGL) [.created 1] activeProcess :=
  @Reaches.createFunctor (freshProcess .SkiaGL) [] (freshProcess .SkiaGL) activeProcess
    7 fullCallbacks .OpenGL_ES 1 Reaches.start rfl

theorem reaches_releasedProcess :
    Reaches (freshProcess .SkiaGL) [.created 1, .released 1] releasedProcess :=
  @Reaches.releaseFunctor (freshProcess .SkiaGL) [.created 1] activeProcess releasedProcess 1
    reaches_activeProcess rfl

theorem reaches_twoActiveProcess :
    Reaches (freshProcess .SkiaGL) [.created 1, .created 2] twoActiveProcess :=
  @Reaches.createFunctor (freshProcess .SkiaGL) [.created 1] activeProcess twoActiveProcess
    8 glesCallbacks .OpenGL_ES 2 reaches_activeProcess rfl

end invariant

section registry

/-- C3: for every memory-safe state and every callback table that passes
validation, `createFunctor` returns the id of the functor it constructs (the
value of `sNextId`), appends a handle referring to that functor to the active
set and the functor to the all-functors registry, the earlier entries of both
staying in place; `handleFor` of the returned id then yields a handle whose
`id()` is the returned id. -/
theorem createFunctor_appends (p : Process) (data : Nat) (callbacks : WebViewFunctorCallbacks)
    (functorMode : RenderMode) (hsafe : p.MemorySafe)
    (hv : validateCallbacks p callbacks = .ok ()) :
    ∃ p' object handle found,
      WebViewFunctorManager.createFunctor p data callbacks functorMode = .ok (object.id, p') ∧
      object.id = p.sNextId ∧ object.mCallbacks = callbacks ∧ object.mData = data ∧
      object.mMode = functorMode ∧
      p'.mActiveFunctors = p.mActiveFunctors ++ [handle] ∧
      p'.mFunctors = p.mFunctors ++ [object] ∧
      handle.deref p' = .ok object ∧
      WebViewFunctorManager.handleFor p' object.id = .ok (some found) ∧
      found.id p' = .ok object.id := by
  obtain ⟨hbelow, hlive⟩ := hsafe
  have hnone : p.mFunctors.find? (fun f => f.addr == p.heapNext) = none := by
    rw [List.find?_eq_none]
    intro f hf
    have := hbelow f hf
    simp
    omega
  let object : WebViewFunctor :=
    { addr := p.heapNext, mCallbacks := callbacks, mData := data, mFunctor := p.sNextId,
      mMode := functorMode, mCreatedHandle := true }
  let handle : Handle := { mReference := p.heapNext }
  let p' : Process :=
    { p with
      heapNext := p.heapNext + 1,
      sNextId := wrapInt32 (p.sNextId + 1),
      mActiveFunctors := p.mActiveFunctors ++ [handle],
      mFunctors := p.mFunctors ++ [object] }
  have hderef : handle.deref p' = .ok object := by
    simp [Handle.deref, p', handle, hnone, object]
  have hid : handle.id p' = .ok object.id := by
    simp [Handle.id, hderef, bind, Except.bind]
  have hall : ∀ h ∈ p'.mActiveFunctors, ∃ i, h.id p' = .ok i := by
    intro h hh
    simp only [p', List.mem_append, List.mem_singleton] at hh
    rcases hh with hh | hh
    · apply Handle.id_ok_of_live
      obtain ⟨f, hf, ha⟩ := hlive h hh
      exact ⟨f, by simp [p', hf], ha⟩
    · exact ⟨_, hh ▸ hid⟩
  have hfor := handleFor_loop_eq p' object.id p'.mActiveFunctors hall
  cases hfind : p'.mActiveFunctors.find? (fun h => h.hasId p' object.id) with
  | none =>
    rw [List.find?_eq_none] at hfind
    have := hfind handle (by simp [p'])
    rw [Handle.hasId_eq_true_iff] at this
    exact absurd hid this
  | some found =>
    have hfound : found.id p' = .ok object.id := by
      have := List.find?_some hfind
      exact Handle.hasId_eq_true_iff.mp (by simpa using this)
    refine ⟨p', object, handle, found, createFunctor_eq_ok hv, rfl, rfl, rfl, rfl, rfl, rfl,
      hderef, ?_, hfound⟩
    unfold WebViewFunctorManager.handleFor
    rw [hfor, hfind]

theorem createFunctor_appends_witness :
    ∃ p' object handle found,
      WebViewFunctorManager.createFunctor (freshProcess .SkiaGL) 7 glesCallbacks .OpenGL_ES =
        .ok (object.id, p') ∧
      object.id = (freshProcess .SkiaGL).sNextId ∧ object.mCallbacks = glesCallbacks ∧
      object.mData = 7 ∧ object.mMode = .OpenGL_ES ∧
      p'.mActiveFunctors = (freshProcess .SkiaGL).mActiveFunctors ++ [handle] ∧
      p'.mFunctors = (freshProcess .SkiaGL).mFunctors ++ [object] ∧
      handle.deref p' = .ok object ∧
      WebViewFunctorManager.handleFor p' object.id = .ok (some found) ∧
      found.id p' = .ok object.id :=
  createFunctor_appends (freshProcess .SkiaGL) 7 glesCallbacks .OpenGL_ES (by decide) (by rfl)

/-- C5: `destroyFunctor(functor)` takes the first functor with that id out of the
all-functors registry and runs its destructor (the last callback made is
`onDestroyed` for that functor); the functors before and after it keep their
order, the active set and everything but the event log and the current-functor
slot stay as they were; when no registered functor has the id nothing changes.
The functors carry the entries validation demands and the call is not made
from inside a guarded callback. -/
theorem destroyFunctor_removes (p : Process) (functor : Int)
    (hguard : p.LOG_NDEBUG = true ∨ p.sCurrentFunctor = none)
    (hcb : ∀ f ∈ p.mFunctors, f.mCallbacks.mandatoryPresent = true) :
    ((∀ f ∈ p.mFunctors, f.id ≠ functor) →
      WebViewFunctorManager.destroyFunctor p functor = .ok p) ∧
    (∀ before object after, p.mFunctors = before ++ object :: after →
      (∀ f ∈ before, f.id ≠ functor) → object.id = functor →
      ∃ p' evs, WebViewFunctorManager.destroyFunctor p functor = .ok p' ∧
        WebViewFunctorManager.destroyFunctor p functor =
          object.destruct { p with mFunctors := before ++ after } ∧
        p'.mFunctors = before ++ after ∧
        p'.mActiveFunctors = p.mActiveFunctors ∧
        p'.events = p.events ++ evs ++ [Event.onDestroyed functor object.mData] ∧
        Process.Frame { p with mFunctors := before ++ after } p') := by
  constructor
  · intro hno
    unfold WebViewFunctorManager.destroyFunctor
    rw [destroyFunctor_loop_eq]
    have h1 : p.mFunctors.find? (fun f => f.id == functor) = none := by
      rw [List.find?_eq_none]
      intro f hf
      simpa using hno f hf
    have h2 : p.mFunctors.eraseP (fun f => f.id == functor) = p.mFunctors := by
      rw [List.eraseP_eq_self_iff]
      intro f hf
      simpa using hno f hf
    simp [h1, h2]
  · intro before object after hsplit hbefore hobj
    have h1 : p.mFunctors.find? (fun f => f.id == functor) = some object := by
      rw [hsplit, List.find?_append]
      have : before.find? (fun f => f.id == functor) = none := by
        rw [List.find?_eq_none]
        intro f hf
        simpa using hbefore f hf
      simp [this, hobj]
    have h2 : p.mFunctors.eraseP (fun f => f.id == functor) = before ++ after := by
      rw [hsplit, List.eraseP_append_right _ (by intro f hf; simpa using hbefore f hf)]
      simp [hobj]
    have hrun : WebViewFunctorManager.destroyFunctor p functor =
        object.destruct { p with mFunctors := before ++ after } := by
      unfold WebViewFunctorManager.destroyFunctor
      rw [destroyFunctor_loop_eq]
      simp [h1, h2]
    obtain ⟨p', evs, hd, hframe, hev⟩ := destruct_eq object
      { p with mFunctors := before ++ after } hguard
      (hcb object (by simp [hsplit]))
    refine ⟨p', evs, hrun.trans hd, hrun, ?_, ?_, ?_, hframe⟩
    · rw [hframe.mFunctors]
    · rw [hframe.mActiveFunctors]
    · rw [hev]
      simp [← hobj, WebViewFunctor.id]

theorem destroyFunctor_removes_witness :
    ∃ p' evs, WebViewFunctorManager.destroyFunctor releasedProcess 1 = .ok p' ∧
      WebViewFunctorManager.destroyFunctor releasedProcess 1 =
        sampleFunctor.destruct { releasedProcess with mFunctors := [] ++ [] } ∧
      p'.mFunctors = [] ++ [] ∧
      p'.mActiveFunctors = releasedProcess.mActiveFunctors ∧
      p'.events = releasedProcess.events ++ evs ++ [Event.onDestroyed 1 sampleFunctor.mData] ∧
      Process.Frame { releasedProcess with mFunctors := [] ++ [] } p' :=
  (destroyFunctor_removes releasedProcess 1 (Or.inr rfl) (by decide)).2
    [] sampleFunctor [] rfl (by simp) rfl

theorem activeByHistory_nil (id : Int) : ¬ ActiveByHistory [] id := by
  rintro ⟨before, since, h, -⟩
  simp at h

theorem activeByHistory_snoc (hist : List Done) (e : Done) (id : Int) :
    ActiveByHistory (hist ++ [e]) id ↔
      e = .created id ∨ (ActiveByHistory hist id ∧ e ≠ .released id) := by
  constructor
  · rintro ⟨before, since, h, hs⟩
    rcases List.eq_nil_or_concat since with rfl | ⟨since0, x, rfl⟩
    · have := List.append_inj' h (by simp)
      simp only [List.cons.injEq, and_true] at this
      exact Or.inl this.2
    · rw [List.concat_eq_append] at h hs
      have h' : hist ++ [e] = (before ++ Done.created id :: since0) ++ [x] := by
        simpa using h
      have := List.append_inj' h' (by simp)
      simp only [List.cons.injEq, and_true] at this
      simp only [List.mem_append, List.mem_singleton, not_or] at hs
      exact Or.inr ⟨⟨before, since0, this.1, hs.1⟩, by rw [this.2]; exact fun h => hs.2 h.symm⟩
  · rintro (rfl | ⟨⟨before, since, rfl, hs⟩, he⟩)
    · exact ⟨hist, [], rfl, by simp⟩
    · refine ⟨before, since ++ [e], by simp, ?_⟩
      simp only [List.mem_append, List.mem_singleton, not_or]
      exact ⟨hs, fun h => he h.symm⟩

theorem Reaches.active_iff {p0 p : Process} {hist : List Done} (h0 : p0.Initial)
    (hr : Reaches p0 hist p) :
    (createdIds hist).length < 2 ^ 31 →
      ∀ id, (∃ h ∈ p.mActiveFunctors, h.id p = .ok id) ↔ ActiveByHistory hist id := by
  induction hr with
  | start =>
    intro _ id
    simp [h0.2.2, activeByHistory_nil]
  | @createFunctor hist p p' data callbacks functorMode id0 hprev hc ih =>
    intro hb id
    have hb' : (createdIds hist).length < 2 ^ 31 := by
      rw [createdIds_append] at hb
      simp only [createdIds, List.length_append, List.length_singleton] at hb
      omega
    have hold := hprev.consistent h0 hb'
    have hnew := (Reaches.createFunctor hprev hc).consistent h0 hb
    obtain ⟨hid, -, -, object, hoa, hoi, hfs, has⟩ := createFunctor_ok_inv hc
    rw [activeByHistory_snoc, ← ih hb' id]
    have hkeep : ∀ h ∈ p.mActiveFunctors, (h.id p' = .ok id ↔ h.id p = .ok id) := by
      intro h hh
      rw [Handle.id_eq_ok_iff hnew.addrNodup, Handle.id_eq_ok_iff hold.addrNodup, hfs]
      have hlt := hold.below _ (hold.live h hh)
      constructor
      · rintro ⟨f, hf, hfa, hfi⟩
        simp only [List.mem_append, List.mem_singleton] at hf
        rcases hf with hf | hf
        · exact ⟨f, hf, hfa, hfi⟩
        · subst hf; omega
      · rintro ⟨f, hf, hfa, hfi⟩
        exact ⟨f, List.mem_append_left _ hf, hfa, hfi⟩
    have hlast : (({ mReference := p.heapNext } : Handle).id p' = .ok id ↔ id0 = id) := by
      rw [Handle.id_eq_ok_iff hnew.addrNodup, hfs]
      constructor
      · rintro ⟨f, hf, hfa, hfi⟩
        simp only [List.mem_append, List.mem_singleton] at hf
        rcases hf with hf | hf
        · have := hold.below _ (mem_map_addr.mpr ⟨f, hf, rfl⟩)
          simp only at hfa
          omega
        · subst hf; rw [hid, ← hoi, hfi]
      · intro h
        exact ⟨object, by simp, hoa, by rw [hoi, ← hid, h]⟩
    rw [has]
    constructor
    · rintro ⟨h, hh, hi⟩
      simp only [List.mem_append, List.mem_singleton] at hh
      rcases hh with hh | hh
      · exact Or.inr ⟨⟨h, hh, (hkeep h hh).mp hi⟩, by simp⟩
      · subst hh
        exact Or.inl (by rw [hlast.mp hi])
    · rintro (h | ⟨⟨h, hh, hi⟩, -⟩)
      · simp only [Done.created.injEq] at h
        exact ⟨_, by simp, hlast.mpr h⟩
      · exact ⟨h, List.mem_append_left _ hh, (hkeep h hh).mpr hi⟩
  | @releaseFunctor hist p p' functor hprev hc ih =>
    intro hb id
    have hb' : (createdIds hist).length < 2 ^ 31 := by
      rw [createdIds_append] at hb
      simpa [createdIds] using hb
    have hold := hprev.consistent h0 hb'
    have hp := releaseFunctor_ok_inv hold.readable hc
    rw [hold.eraseP_eq_filter] at hp
    subst hp
    rw [activeByHistory_snoc, ← ih hb' id]
    constructor
    · rintro ⟨h, hh, hi⟩
      simp only [List.mem_filter, Bool.not_eq_eq_eq_not, Bool.not_true] at hh
      rw [Handle.id_congr h rfl] at hi
      refine Or.inr ⟨⟨h, hh.1, hi⟩, ?_⟩
      intro heq
      simp only [Done.released.injEq] at heq
      exact Handle.hasId_eq_false_iff.mp hh.2 (heq ▸ hi)
    · rintro (h | ⟨⟨h, hh, hi⟩, hne⟩)
      · cases h
      · refine ⟨h, ?_, (Handle.id_congr h rfl).trans hi⟩
        simp only [List.mem_filter, Bool.not_eq_eq_eq_not, Bool.not_true]
        refine ⟨hh, Handle.hasId_eq_false_iff.mpr ?_⟩
        rw [hi]
        intro heq
        simp only [Except.ok.injEq] at heq
        exact hne (by rw [heq])
  | @destroyFunctor hist p p' functor hprev hprot hc ih =>
    intro hb id
    have hb' : (createdIds hist).length < 2 ^ 31 := by
      rw [createdIds_append] at hb
      simpa [createdIds] using hb
    have hold := hprev.consistent h0 hb'
    have hnew := (Reaches.destroyFunctor hprev hprot hc).consistent h0 hb
    obtain ⟨hfs, has, -, -⟩ := destroyFunctor_ok_inv hc
    rw [activeByHistory_snoc, ← ih hb' id, has]
    have hkeep : ∀ h ∈ p.mActiveFunctors, (h.id p' = .ok id ↔ h.id p = .ok id) := by
      intro h hh
      rw [Handle.id_eq_ok_iff hnew.addrNodup, Handle.id_eq_ok_iff hold.addrNodup, hfs]
      constructor
      · rintro ⟨g, hg, hga, hgi⟩
        exact ⟨g, List.mem_of_mem_eraseP hg, hga, hgi⟩
      · rintro ⟨g, hg, hga, hgi⟩
        have hid := Handle.id_eq_ok_of_mem hold.addrNodup hg hga
        have hne : g.mFunctor ≠ functor := fun heq =>
          Handle.hasId_eq_false_iff.mp (hprot h hh) (heq ▸ hid)
        exact ⟨g, (List.mem_eraseP_of_neg (by simpa [WebViewFunctor.id] using hne)).mpr hg,
          hga, hgi⟩
    constructor
    · rintro ⟨h, hh, hi⟩
      exact Or.inr ⟨⟨h, hh, (hkeep h hh).mp hi⟩, by simp⟩
    · rintro (h | ⟨⟨h, hh, hi⟩, -⟩)
      · cases h
      · exact ⟨h, hh, (hkeep h hh).mpr hi⟩
  | @other hist p p' hprev hsn hheap has hident ih =>
    intro hb id
    have hold := hprev.consistent h0 hb
    have hnew := (Reaches.other hprev hsn hheap has hident).consistent h0 hb
    rw [← ih hb id, has]
    have hkeep : ∀ h : Handle, (h.id p' = .ok id ↔ h.id p = .ok id) := by
      intro h
      rw [Handle.id_eq_ok_iff_identities hnew.addrNodup,
        Handle.id_eq_ok_iff_identities hold.addrNodup, hident]
    constructor
    · rintro ⟨h, hh, hi⟩
      exact ⟨h, hh, (hkeep h).mp hi⟩
    · rintro ⟨h, hh, hi⟩
      exact ⟨h, hh, (hkeep h).mpr hi⟩

/-- C6: after every sequence of `createFunctor`, `releaseFunctor` and
`destroyFunctor` calls (fewer than `2^31` functors constructed, `destroyFunctor`
called for ids that are no longer active), an id is carried by a handle of the
active set if and only if an earlier `createFunctor` returned it and no
`releaseFunctor` for it has been executed since; in particular an id whose last
`createFunctor`/`releaseFunctor` call was the release is not active. -/
theorem active_iff_created_and_not_released (p0 p : Process) (hist : List Done)
    (h0 : p0.Initial) (hr : Reaches p0 hist p) (hn : (createdIds hist).length < 2 ^ 31)
    (id : Int) :
    ((∃ h ∈ p.mActiveFunctors, h.id p = .ok id) ↔
      ∃ before since, hist = before ++ Done.created id :: since ∧
        Done.released id ∉ since) ∧
    (∀ before since, hist = before ++ Done.released id :: since →
      Done.created id ∉ since → ¬ ∃ h ∈ p.mActiveFunctors, h.id p = .ok id) := by
  have hiff := hr.active_iff h0 hn id
  refine ⟨hiff, ?_⟩
  intro before since hrel hcre hact
  obtain ⟨before', since', hhist, hs⟩ := hiff.mp hact
  rw [hhist] at hrel
  rcases List.append_eq_append_iff.mp hrel with ⟨a, h1, h2⟩ | ⟨c, h1, h2⟩
  · cases a with
    | nil => simp at h2
    | cons x a =>
      simp only [List.cons_append, List.cons.injEq] at h2
      exact hs (by rw [h2.2]; simp)
  · cases c with
    | nil => simp at h2
    | cons x c =>
      simp only [List.cons_append, List.cons.injEq] at h2
      exact hcre (by rw [h2.2]; simp)

theorem active_iff_created_and_not_released_witness :
    ((∃ h ∈ releasedProcess.mActiveFunctors, h.id releasedProcess = .ok 1) ↔
      ∃ before since, [Done.created 1, Done.released 1] =
          before ++ Done.created 1 :: since ∧
        Done.released 1 ∉ since) ∧
    (∀ before since, [Done.created 1, Done.released 1] =
        before ++ Done.released 1 :: since →
      Done.created 1 ∉ since →
      ¬ ∃ h ∈ releasedProcess.mActiveFunctors, h.id releasedProcess = .ok 1) :=
  active_iff_created_and_not_released (freshProcess .SkiaGL) releasedProcess
    [.created 1, .released 1] (by decide)
    reaches_releasedProcess
    (by simp [createdIds]) 1

/-- C4: in every reachable state `releaseFunctor(functor)` returns and removes
the handle with that id from the active set: the other active handles stay, in
order, and keep their ids; the all-functors registry (and everything else) is
unchanged, so the functor is not destroyed; no remaining handle has the id and
`handleFor(functor)` yields none. When no active handle has the id the state
does not change. -/
theorem releaseFunctor_removes (p : Process) (functor : Int) (hp : Reachable p) :
    ∃ p', WebViewFunctorManager.releaseFunctor p functor = .ok p' ∧
      p' = { p with
        mActiveFunctors := p.mActiveFunctors.filter (fun h => !h.hasId p functor) } ∧
      p'.mFunctors = p.mFunctors ∧
      (∀ h ∈ p'.mActiveFunctors, h.id p' ≠ .ok functor) ∧
      (∀ h ∈ p.mActiveFunctors, h.id p ≠ .ok functor →
        h ∈ p'.mActiveFunctors ∧ h.id p' = h.id p) ∧
      WebViewFunctorManager.handleFor p' functor = .ok none ∧
      ((∀ h ∈ p.mActiveFunctors, h.id p ≠ .ok functor) → p' = p) := by
  obtain ⟨p0, hist, h0, hr, hb⟩ := hp
  have hc := hr.consistent h0 hb
  have hrun : WebViewFunctorManager.releaseFunctor p functor =
      .ok { p with
        mActiveFunctors := p.mActiveFunctors.filter (fun h => !h.hasId p functor) } := by
    unfold WebViewFunctorManager.releaseFunctor
    rw [releaseFunctor_loop_eq p functor _ hc.readable, hc.eraseP_eq_filter]
    rfl
  refine ⟨_, hrun, rfl, rfl, ?_, ?_, ?_, ?_⟩
  · intro h hh
    simp only [List.mem_filter, Bool.not_eq_eq_eq_not, Bool.not_true] at hh
    rw [Handle.id_congr h rfl]
    exact Handle.hasId_eq_false_iff.mp hh.2
  · intro h hh hne
    refine ⟨?_, Handle.id_congr h rfl⟩
    simp only [List.mem_filter, Bool.not_eq_eq_eq_not, Bool.not_true]
    exact ⟨hh, Handle.hasId_eq_false_iff.mpr hne⟩
  · unfold WebViewFunctorManager.handleFor
    rw [handleFor_loop_eq]
    · simp only [Except.ok.injEq, List.find?_eq_none, List.mem_filter, Bool.not_eq_eq_eq_not,
        Bool.not_true, Bool.not_eq_true]
      intro h hh
      rw [Handle.hasId_congr h functor rfl]
      exact hh.2
    · intro h hh
      simp only [List.mem_filter] at hh
      obtain ⟨i, hi⟩ := hc.readable h hh.1
      exact ⟨i, (Handle.id_congr h rfl).trans hi⟩
  · intro hno
    have : p.mActiveFunctors.filter (fun h => !h.hasId p functor) = p.mActiveFunctors := by
      rw [List.filter_eq_self]
      intro h hh
      simp [Handle.hasId_eq_false_iff.mpr (hno h hh)]
    rw [this]

theorem releaseFunctor_removes_witness :
    ∃ p', WebViewFunctorManager.releaseFunctor activeProcess 1 = .ok p' ∧
      p' = { activeProcess with
        mActiveFunctors := activeProcess.mActiveFunctors.filter
          (fun h => !h.hasId activeProcess 1) } ∧
      p'.mFunctors = activeProcess.mFunctors ∧
      (∀ h ∈ p'.mActiveFunctors, h.id p' ≠ .ok 1) ∧
      (∀ h ∈ activeProcess.mActiveFunctors, h.id activeProcess ≠ .ok 1 →
        h ∈ p'.mActiveFunctors ∧ h.id p' = h.id activeProcess) ∧
      WebViewFunctorManager.handleFor p' 1 = .ok none ∧
      ((∀ h ∈ activeProcess.mActiveFunctors, h.id activeProcess ≠ .ok 1) →
        p' = activeProcess) :=
  releaseFunctor_removes activeProcess 1
    ⟨freshProcess .SkiaGL, [.created 1], by decide, reaches_activeProcess,
      by simp [createdIds]⟩

/-- C7: in a process that has constructed fewer than `2^31` functors, the
`k`-th functor constructed has the id `k` (counting from 1): the first id is 1,
a later functor has a strictly larger id, so every id `createFunctor` returns
is positive and differs from the failure value -1; the ids of the functors in
the all-functors registry are pairwise distinct, and so are the ids of the
handles of the active set (each of which can be read). -/
theorem functor_ids_monotone (p0 p : Process) (hist : List Done) (h0 : p0.Initial)
    (hr : Reaches p0 hist p) (hn : (createdIds hist).length < 2 ^ 31) :
    createdIds hist =
      (List.range (createdIds hist).length).map (fun k : Nat => (k : Int) + 1) ∧
    (createdIds hist).head? = (if createdIds hist = [] then none else some 1) ∧
    (createdIds hist).Pairwise (· < ·) ∧
    (∀ id ∈ createdIds hist, 0 < id ∧ id ≠ -1) ∧
    (p.mFunctors.map (·.id)).Nodup ∧
    (∀ h ∈ p.mActiveFunctors, ∃ id, h.id p = .ok id) ∧
    p.mActiveFunctors.Pairwise (fun a b => a.id p ≠ b.id p) := by
  have hc := hr.consistent h0 hn
  have hpos : ∀ id ∈ createdIds hist, 0 < id ∧ id ≠ -1 := by
    intro id hid
    rw [hc.inOrder] at hid
    obtain ⟨k, -, hk⟩ := List.mem_map.mp hid
    omega
  refine ⟨hc.inOrder, ?_, ?_, hpos, hc.idsNodup, hc.readable, ?_⟩
  · generalize createdIds hist = ids at hc
    have := hc.inOrder
    cases ids with
    | nil => simp
    | cons a rest =>
      rw [List.length_cons, List.range_succ_eq_map] at this
      simp only [List.map_cons, List.cons.injEq] at this
      simp [this.1]
  · rw [hc.inOrder, List.pairwise_map]
    exact (List.pairwise_lt_range _).imp (by intro a b hab; omega)
  · have hnd : p.mActiveFunctors.Pairwise (fun a b => a.mReference ≠ b.mReference) :=
      List.pairwise_map.mp hc.refsNodup
    refine hnd.imp_of_mem ?_
    intro a b ha _ hab heq
    obtain ⟨i, hi⟩ := hc.readable a ha
    have := hc.id_injective hi (heq ▸ hi)
    exact hab (by rw [this])

theorem functor_ids_monotone_witness :
    createdIds [.created 1, .created 2] =
      (List.range (createdIds [.created 1, .created 2]).length).map
        (fun k : Nat => (k : Int) + 1) ∧
    (createdIds [.created 1, .created 2]).head? =
      (if createdIds [.created 1, .created 2] = [] then none else some 1) ∧
    (createdIds [.created 1, .created 2]).Pairwise (· < ·) ∧
    (∀ id ∈ createdIds [.created 1, .created 2], 0 < id ∧ id ≠ -1) ∧
    (twoActiveProcess.mFunctors.map (·.id)).Nodup ∧
    (∀ h ∈ twoActiveProcess.mActiveFunctors, ∃ id, h.id twoActiveProcess = .ok id) ∧
    twoActiveProcess.mActiveFunctors.Pairwise
      (fun a b => a.id twoActiveProcess ≠ b.id twoActiveProcess) :=
  functor_ids_monotone (freshProcess .SkiaGL) twoActiveProcess [.created 1, .created 2]
    (by decide)
    reaches_twoActiveProcess
    (by simp [createdIds])

end registry

section functor

/-- C8: `destroyContext()` calls `onContextDestroyed` exactly when the
has-context flag was set (once, followed by the reset of the GPU context when
there is one) and leaves the flag cleared; a second `destroyContext()` right
after it changes nothing and calls nothing, so two calls in a row on a functor
with a context perform the callback exactly once. -/
theorem destroyContext_idempotent (self : WebViewFunctor) (p : Process)
    (hcb : self.mHasContext = true → self.mCallbacks.onContextDestroyed.isSome = true) :
    ∃ self' p' added,
      self.destroyContext p = .ok (self', p') ∧
      self'.mHasContext = false ∧
      p'.events = p.events ++ added ∧
      added = (if self.mHasContext then
        Event.onContextDestroyed self.mFunctor self.mData ::
          (if p.grContext then [Event.resetContext] else [])
        else []) ∧
      added.countP Event.isOnContextDestroyed = (if self.mHasContext then 1 else 0) ∧
      (Event.onContextDestroyed self.mFunctor self.mData ∈ added ↔ self.mHasContext = true) ∧
      self'.destroyContext p' = .ok (self', p') ∧
      (do let (self1, p1) ← self.destroyContext p; self1.destroyContext p1) =
        .ok (self', p') := by
  have h1 := destroyContext_eq self p hcb
  have h2 := destroyContext_eq { self with mHasContext := false }
    { p with events := p.events ++
        (if self.mHasContext then
          Event.onContextDestroyed self.mFunctor self.mData ::
            (if p.grContext then [Event.resetContext] else [])
        else []) } (by simp)
  have h3 : ({ self with mHasContext := false } : WebViewFunctor).destroyContext
      { p with events := p.events ++
        (if self.mHasContext then
          Event.onContextDestroyed self.mFunctor self.mData ::
            (if p.grContext then [Event.resetContext] else [])
        else []) } = .ok ({ self with mHasContext := false },
      { p with events := p.events ++
        (if self.mHasContext then
          Event.onContextDestroyed self.mFunctor self.mData ::
            (if p.grContext then [Event.resetContext] else [])
        else []) }) := by
    rw [h2]
    simp
  refine ⟨_, _, _, h1, rfl, rfl, rfl, ?_, ?_, h3, ?_⟩
  · cases self.mHasContext <;> cases p.grContext <;>
      simp [Event.isOnContextDestroyed, List.countP_cons]
  · cases self.mHasContext <;> simp
  · rw [h1]
    exact h3

theorem destroyContext_idempotent_witness :
    ∃ self' p' added,
      contextFunctor.destroyContext (freshProcess .SkiaGL) = .ok (self', p') ∧
      self'.mHasContext = false ∧
      p'.events = (freshProcess .SkiaGL).events ++ added ∧
      added = (if contextFunctor.mHasContext then
        Event.onContextDestroyed contextFunctor.mFunctor contextFunctor.mData ::
          (if (freshProcess .SkiaGL).grContext then [Event.resetContext] else [])
        else []) ∧
      added.countP Event.isOnContextDestroyed = (if contextFunctor.mHasContext then 1 else 0) ∧
      (Event.onContextDestroyed contextFunctor.mFunctor contextFunctor.mData ∈ added ↔
        contextFunctor.mHasContext = true) ∧
      self'.destroyContext p' = .ok (self', p') ∧
      (do let (self1, p1) ← contextFunctor.destroyContext (freshProcess .SkiaGL)
          self1.destroyContext p1) = .ok (self', p') :=
  destroyContext_idempotent contextFunctor (freshProcess .SkiaGL) (fun _ => rfl)

/-- C9, as stated, fails for the Vulkan backend: `drawVk` on a functor without
a context returns with the has-context flag still false, and the
`destroyContext()` that follows calls no callback. -/
theorem drawVk_does_not_create_context :
    ∃ self' p',
      vulkanFunctor.drawVk (freshProcess .SkiaVulkan) { is_layer := false } = .ok (self', p') ∧
      self'.mHasContext = false ∧
      self'.destroyContext p' = .ok (self', p') ∧
      p'.events = [Event.vkDraw 1 7 { is_layer := false } .Disabled] :=
  ⟨_, _, rfl, rfl, rfl, rfl⟩

/-- C9, amended: `drawGl` creates the context lazily: after it returns the
has-context flag is set. On the Vulkan backend the flag is set by `initVk`
(which calls `vk.initialize` only when the flag was clear), and `drawVk`
leaves the flag as it found it. After `drawGl` or `initVk` has returned, a
following `destroyContext()` calls `onContextDestroyed`. -/
theorem draw_creates_context (self : WebViewFunctor) (p : Process)
    (hguard : p.LOG_NDEBUG = true ∨ p.sCurrentFunctor = none)
    (hcb : self.mCallbacks.onContextDestroyed.isSome = true) :
    (∀ drawInfo, self.mCallbacks.gles.draw.isSome = true →
      ∃ self' p' self'' p'', self.drawGl p drawInfo = .ok (self', p') ∧
        self'.mHasContext = true ∧
        self'.destroyContext p' = .ok (self'', p'') ∧
        Event.onContextDestroyed self.mFunctor self.mData ∈
          p''.events.drop p'.events.length) ∧
    (self.mCallbacks.vk.init.isSome = true →
      ∃ self' p' self'' p'', self.initVk p = .ok (self', p') ∧
        self'.mHasContext = true ∧
        p'.events = p.events ++
          (if self.mHasContext then [] else [Event.vkInitialize self.mFunctor self.mData]) ∧
        self'.destroyContext p' = .ok (self'', p'') ∧
        Event.onContextDestroyed self.mFunctor self.mData ∈
          p''.events.drop p'.events.length) ∧
    (∀ params, self.mCallbacks.vk.draw.isSome = true →
      ∃ self' p', self.drawVk p params = .ok (self', p') ∧
        self'.mHasContext = self.mHasContext) := by
  refine ⟨?_, ?_, ?_⟩
  · intro drawInfo hdraw
    obtain ⟨self', evs, hd, h1, h2, h3, h4, -, -⟩ := drawGl_spec self p drawInfo hguard hdraw
    refine ⟨self', _, _, _, hd, h1, destroyContext_eq self' _ (fun _ => h2 ▸ hcb), ?_⟩
    simp [h1, h3, h4]
  · intro hinit
    have hi := initVk_spec self p (fun _ => hinit)
    have hc := destroyContext_eq { self with mHasContext := true }
      { p with events := p.events ++
          (if self.mHasContext then [] else [Event.vkInitialize self.mFunctor self.mData]) }
      (fun _ => hcb)
    refine ⟨_, _, _, _, hi, rfl, rfl, hc, ?_⟩
    simp
  · intro params hdraw
    obtain ⟨self', evs, hd, h1, -⟩ := drawVk_spec self p params hguard hdraw
    exact ⟨self', _, hd, h1⟩

theorem draw_creates_context_witness :
    ∃ self' p' self'' p'',
      sampleFunctor.drawGl renderingProcess { isLayer := false } = .ok (self', p') ∧
      self'.mHasContext = true ∧
      self'.destroyContext p' = .ok (self'', p'') ∧
      Event.onContextDestroyed sampleFunctor.mFunctor sampleFunctor.mData ∈
        p''.events.drop p'.events.length :=
  (draw_creates_context sampleFunctor renderingProcess (Or.inr rfl) rfl).1
    { isLayer := false } rfl

/-- C10: a top-level `drawGl` or `drawVk` whose draw callback is present returns,
and calls that callback exactly once (the only embedder callback of the draw);
the overlays mode it hands over is `Enabled` if and only if the draw is not a
layer draw, overlay support is enabled, an active render context exists and
that context has a non-null root surface, and `Disabled` in every other case. -/
theorem draw_overlays_mode (self : WebViewFunctor) (p : Process)
    (hguard : p.LOG_NDEBUG = true ∨ p.sCurrentFunctor = none) :
    (∀ drawInfo, self.mCallbacks.gles.draw.isSome = true →
      ∃ self' p' added mode, self.drawGl p drawInfo = .ok (self', p') ∧
        p'.events = p.events ++ added ∧
        added.filter Event.isCallback = [Event.glesDraw self.mFunctor self.mData drawInfo mode] ∧
        (mode = .Enabled ↔ drawInfo.isLayer = false ∧ p.enableWebViewOverlays = true ∧
          ∃ c, p.activeContext = some c ∧ c.getSurfaceControl.isSome = true) ∧
        (mode = .Disabled ↔ ¬ (drawInfo.isLayer = false ∧ p.enableWebViewOverlays = true ∧
          ∃ c, p.activeContext = some c ∧ c.getSurfaceControl.isSome = true))) ∧
    (∀ params, self.mCallbacks.vk.draw.isSome = true →
      ∃ self' p' added mode, self.drawVk p params = .ok (self', p') ∧
        p'.events = p.events ++ added ∧
        added.filter Event.isCallback = [Event.vkDraw self.mFunctor self.mData params mode] ∧
        (mode = .Enabled ↔ params.is_layer = false ∧ p.enableWebViewOverlays = true ∧
          ∃ c, p.activeContext = some c ∧ c.getSurfaceControl.isSome = true) ∧
        (mode = .Disabled ↔ ¬ (params.is_layer = false ∧ p.enableWebViewOverlays = true ∧
          ∃ c, p.activeContext = some c ∧ c.getSurfaceControl.isSome = true))) := by
  have hfilter : ∀ (evs : List Event) (e : Event), (∀ x ∈ evs, x.isCallback = false) →
      e.isCallback = true → (evs ++ [e]).filter Event.isCallback = [e] := by
    intro evs e h he
    rw [List.filter_append, List.filter_eq_nil_iff.mpr (by simpa using h)]
    simp [List.filter, he]
  have hmode : ∀ (layer : Bool),
      ((if (!layer && overlaysAvailable p) = true then OverlaysMode.Enabled
          else OverlaysMode.Disabled) = .Enabled ↔
        layer = false ∧ p.enableWebViewOverlays = true ∧
          ∃ c, p.activeContext = some c ∧ c.getSurfaceControl.isSome = true) ∧
      ((if (!layer && overlaysAvailable p) = true then OverlaysMode.Enabled
          else OverlaysMode.Disabled) = .Disabled ↔
        ¬ (layer = false ∧ p.enableWebViewOverlays = true ∧
          ∃ c, p.activeContext = some c ∧ c.getSurfaceControl.isSome = true)) := by
    intro layer
    rw [← overlaysAvailable_iff]
    cases layer <;> cases overlaysAvailable p <;> simp
  constructor
  · intro drawInfo hdraw
    obtain ⟨self', evs, hd, -, -, -, -, -, hev⟩ := drawGl_spec self p drawInfo hguard hdraw
    exact ⟨self', _, _, _, hd, by simp, hfilter _ _ hev rfl,
      (hmode drawInfo.isLayer).1, (hmode drawInfo.isLayer).2⟩
  · intro params hdraw
    obtain ⟨self', evs, hd, -, -, -, -, -, hev⟩ := drawVk_spec self p params hguard hdraw
    exact ⟨self', _, _, _, hd, by simp, hfilter _ _ hev rfl,
      (hmode params.is_layer).1, (hmode params.is_layer).2⟩

theorem draw_overlays_mode_witness :
    ∃ self' p' added mode,
      sampleFunctor.drawGl (freshProcess .SkiaGL) { isLayer := false } = .ok (self', p') ∧
      p'.events = (freshProcess .SkiaGL).events ++ added ∧
      added.filter Event.isCallback =
        [Event.glesDraw sampleFunctor.mFunctor sampleFunctor.mData { isLayer := false } mode] ∧
      (mode = .Enabled ↔ ({ isLayer := false } : DrawGlInfo).isLayer = false ∧
        (freshProcess .SkiaGL).enableWebViewOverlays = true ∧
        ∃ c, (freshProcess .SkiaGL).activeContext = some c ∧
          c.getSurfaceControl.isSome = true) ∧
      (mode = .Disabled ↔ ¬ (({ isLayer := false } : DrawGlInfo).isLayer = false ∧
        (freshProcess .SkiaGL).enableWebViewOverlays = true ∧
        ∃ c, (freshProcess .SkiaGL).activeContext = some c ∧
          c.getSurfaceControl.isSome = true)) :=
  (draw_overlays_mode sampleFunctor (freshProcess .SkiaGL) (Or.inr rfl)).1
    { isLayer := false } rfl

end functor

section handle

theorem prepareRootSurfaceControl_createdHandle (self : WebViewFunctor) (p : Process) :
    (self.prepareRootSurfaceControl p).2.1.mCreatedHandle = self.mCreatedHandle := by
  unfold WebViewFunctor.prepareRootSurfaceControl
  split
  · rfl
  · split
    · rfl
    · split
      · rfl
      · simp only
        split <;> rfl

theorem destroyContext_createdHandle {self self' : WebViewFunctor} {p p' : Process}
    (h : self.destroyContext p = .ok (self', p')) :
    self'.mCreatedHandle = self.mCreatedHandle := by
  unfold WebViewFunctor.destroyContext at h
  split at h
  · obtain ⟨q, -, h⟩ := except_bind_eq_ok h
    simp only [Except.ok.injEq, Prod.mk.injEq] at h
    rw [← h.1]
  · simp only [Except.ok.injEq, Prod.mk.injEq] at h
    rw [h.1]

theorem initVk_createdHandle {self self' : WebViewFunctor} {p p' : Process}
    (h : self.initVk p = .ok (self', p')) :
    self'.mCreatedHandle = self.mCreatedHandle := by
  unfold WebViewFunctor.initVk at h
  split at h
  · obtain ⟨q, -, h⟩ := except_bind_eq_ok h
    simp only [Except.ok.injEq, Prod.mk.injEq] at h
    rw [← h.1]
  · simp only [Except.ok.injEq, Prod.mk.injEq] at h
    rw [h.1]

theorem removeOverlays_createdHandle {self self' : WebViewFunctor} {p p' : Process}
    (h : self.removeOverlays p = .ok (self', p')) :
    self'.mCreatedHandle = self.mCreatedHandle := by
  unfold WebViewFunctor.removeOverlays at h
  obtain ⟨q1, -, h⟩ := except_bind_eq_ok h
  obtain ⟨q2, -, h⟩ := except_bind_eq_ok h
  split at h
  rename_i s3 q3 hpair
  obtain ⟨q4, -, h⟩ := except_bind_eq_ok h
  simp only [Except.ok.injEq, Prod.mk.injEq] at h
  rw [← h.1]
  split at hpair
  · simp only [Prod.mk.injEq] at hpair
    rw [← hpair.1]
  · simp only [Prod.mk.injEq] at hpair
    rw [← hpair.1]

theorem drawGl_createdHandle {self self' : WebViewFunctor} {p p' : Process}
    {drawInfo : DrawGlInfo} (h : self.drawGl p drawInfo = .ok (self', p')) :
    self'.mCreatedHandle = self.mCreatedHandle := by
  unfold WebViewFunctor.drawGl at h
  obtain ⟨q1, -, h⟩ := except_bind_eq_ok h
  split at h
  rename_i mode s3 q3 hpair
  obtain ⟨q4, -, h⟩ := except_bind_eq_ok h
  obtain ⟨q5, -, h⟩ := except_bind_eq_ok h
  simp only [Except.ok.injEq, Prod.mk.injEq] at h
  rw [← h.1]
  have h0 : (if (!self.mHasContext) = true then { self with mHasContext := true }
      else self).mCreatedHandle = self.mCreatedHandle := by
    split <;> rfl
  split at hpair
  · simp only [Prod.mk.injEq] at hpair
    rw [← hpair.2.1, prepareRootSurfaceControl_createdHandle, h0]
  · simp only [Prod.mk.injEq] at hpair
    rw [← hpair.2.1, h0]

theorem drawVk_createdHandle {self self' : WebViewFunctor} {p p' : Process}
    {params : VkFunctorDrawParams} (h : self.drawVk p params = .ok (self', p')) :
    self'.mCreatedHandle = self.mCreatedHandle := by
  unfold WebViewFunctor.drawVk at h
  obtain ⟨q1, -, h⟩ := except_bind_eq_ok h
  split at h
  rename_i mode s3 q3 hpair
  obtain ⟨q4, -, h⟩ := except_bind_eq_ok h
  obtain ⟨q5, -, h⟩ := except_bind_eq_ok h
  simp only [Except.ok.injEq, Prod.mk.injEq] at h
  rw [← h.1]
  split at hpair
  · simp only [Prod.mk.injEq] at hpair
    rw [← hpair.2.1, prepareRootSurfaceControl_createdHandle]
  · simp only [Prod.mk.injEq] at hpair
    rw [← hpair.2.1]

/-- C15: on a functor whose handle has not been created (as the constructor
leaves it) `createHandle()` returns a handle that refers to the functor, so that
its `id()` is the id of the functor, and sets the created flag; every
`createHandle()` call on a functor whose flag is set is fatal, and no operation
of the functor clears the flag, so every later call aborts and at most one
handle is created per functor. -/
theorem createHandle_once (self : WebViewFunctor) (hnew : self.mCreatedHandle = false) :
    (∀ p data callbacks functorMode,
      (WebViewFunctor.construct p data callbacks functorMode).1.mCreatedHandle = false) ∧
    (∃ handle self', self.createHandle = .ok (handle, self') ∧
      handle.mReference = self.addr ∧
      self' = { self with mCreatedHandle := true } ∧
      (∀ p : Process, handle.deref p = .ok self' → handle.id p = .ok self.id) ∧
      self'.createHandle = .error (.fatal "mCreatedHandle")) ∧
    (∀ later : WebViewFunctor, later.mCreatedHandle = true →
      later.createHandle = .error (.fatal "mCreatedHandle")) ∧
    (∀ (f f' : WebViewFunctor) (p p' : Process),
      (∀ drawInfo, f.drawGl p drawInfo = .ok (f', p') → f'.mCreatedHandle = f.mCreatedHandle) ∧
      (∀ params, f.drawVk p params = .ok (f', p') → f'.mCreatedHandle = f.mCreatedHandle) ∧
      (f.initVk p = .ok (f', p') → f'.mCreatedHandle = f.mCreatedHandle) ∧
      (f.destroyContext p = .ok (f', p') → f'.mCreatedHandle = f.mCreatedHandle) ∧
      (f.removeOverlays p = .ok (f', p') → f'.mCreatedHandle = f.mCreatedHandle) ∧
      (f.onRemovedFromTree p = .ok (f', p') → f'.mCreatedHandle = f.mCreatedHandle) ∧
      (∀ thread_ids, (f.reportRenderingThreads thread_ids).mCreatedHandle =
        f.mCreatedHandle)) := by
  refine ⟨fun _ _ _ _ => rfl, ?_, ?_, ?_⟩
  · refine ⟨{ mReference := self.addr }, { self with mCreatedHandle := true }, ?_, rfl, rfl,
      ?_, ?_⟩
    · simp [WebViewFunctor.createHandle, LOG_ALWAYS_FATAL_IF, hnew, bind, Except.bind]
    · intro p hd
      simp [Handle.id, hd, bind, Except.bind, WebViewFunctor.id]
    · simp [WebViewFunctor.createHandle, LOG_ALWAYS_FATAL_IF, bind, Except.bind]
  · intro later hl
    simp [WebViewFunctor.createHandle, LOG_ALWAYS_FATAL_IF, hl, bind, Except.bind]
  · intro f f' p p'
    refine ⟨fun _ h => drawGl_createdHandle h, fun _ h => drawVk_createdHandle h,
      initVk_createdHandle, destroyContext_createdHandle, removeOverlays_createdHandle, ?_,
      fun _ => rfl⟩
    intro h
    unfold WebViewFunctor.onRemovedFromTree at h
    split at h
    · exact removeOverlays_createdHandle h
    · simp only [Except.ok.injEq, Prod.mk.injEq] at h
      rw [h.1]

theorem createHandle_once_witness :
    ∃ handle self', newFunctor.createHandle = .ok (handle, self') ∧
      handle.mReference = newFunctor.addr ∧
      self' = { newFunctor with mCreatedHandle := true } ∧
      (∀ p : Process, handle.deref p = .ok self' → handle.id p = .ok newFunctor.id) ∧
      self'.createHandle = .error (.fatal "mCreatedHandle") :=
  (createHandle_once newFunctor rfl).2.1

end handle

section threads

theorem reportRenderingThreads_loop_absent (functor : Int) (thread_ids : List Int) :
    ∀ l : List WebViewFunctor, (∀ f ∈ l, f.id ≠ functor) →
      WebViewFunctorManager.reportRenderingThreads_loop l functor thread_ids = l
  | [], _ => rfl
  | f :: rest, h => by
    have hf : f.id ≠ functor := h f (List.mem_cons_self _ _)
    simp [WebViewFunctorManager.reportRenderingThreads_loop, hf,
      reportRenderingThreads_loop_absent functor thread_ids rest
        (fun g hg => h g (List.mem_cons_of_mem _ hg))]

theorem reportRenderingThreads_loop_split (functor : Int) (thread_ids : List Int)
    (object : WebViewFunctor) (after : List WebViewFunctor) (ho : object.id = functor) :
    ∀ before : List WebViewFunctor, (∀ f ∈ before, f.id ≠ functor) →
      WebViewFunctorManager.reportRenderingThreads_loop (before ++ object :: after) functor
          thread_ids =
        before ++ { object with mRenderingThreads := thread_ids } :: after
  | [], _ => by
    simp [WebViewFunctorManager.reportRenderingThreads_loop, ho,
      WebViewFunctor.reportRenderingThreads]
  | f :: rest, h => by
    have hf : f.id ≠ functor := h f (List.mem_cons_self _ _)
    simp [WebViewFunctorManager.reportRenderingThreads_loop, hf,
      reportRenderingThreads_loop_split functor thread_ids object after ho rest
        (fun g hg => h g (List.mem_cons_of_mem _ hg))]

/-- C13: when the all-functors registry holds a functor with the id (the first
such functor is `object`), `reportRenderingThreads(id, a)` stores `a` in it and
a following `reportRenderingThreads(id, b)` leaves it with exactly `b`: nothing
of `a` is kept; the functors before and after it, and the rest of the process,
do not change. For an id no registered functor has, the call changes nothing. -/
theorem reportRenderingThreads_replaces (p : Process) (functor : Int) (a b : List Int) :
    (∀ before object after, p.mFunctors = before ++ object :: after →
      (∀ f ∈ before, f.id ≠ functor) → object.id = functor →
      WebViewFunctorManager.reportRenderingThreads p functor a =
        { p with mFunctors := before ++ { object with mRenderingThreads := a } :: after } ∧
      WebViewFunctorManager.reportRenderingThreads
          (WebViewFunctorManager.reportRenderingThreads p functor a) functor b =
        { p with mFunctors := before ++ { object with mRenderingThreads := b } :: after } ∧
      ({ object with mRenderingThreads := b } : WebViewFunctor).getRenderingThreads = b) ∧
    ((∀ f ∈ p.mFunctors, f.id ≠ functor) →
      WebViewFunctorManager.reportRenderingThreads p functor a = p) := by
  constructor
  · intro before object after hsplit hbefore hobj
    have h1 : WebViewFunctorManager.reportRenderingThreads p functor a =
        { p with mFunctors := before ++ { object with mRenderingThreads := a } :: after } := by
      unfold WebViewFunctorManager.reportRenderingThreads
      rw [hsplit, reportRenderingThreads_loop_split functor a object after hobj before hbefore]
    refine ⟨h1, ?_, rfl⟩
    rw [h1]
    unfold WebViewFunctorManager.reportRenderingThreads
    simp only
    rw [reportRenderingThreads_loop_split functor b { object with mRenderingThreads := a }
      after hobj before hbefore]
  · intro hno
    unfold WebViewFunctorManager.reportRenderingThreads
    rw [reportRenderingThreads_loop_absent functor a _ hno]

theorem reportRenderingThreads_replaces_witness :
    WebViewFunctorManager.reportRenderingThreads twoActiveProcess 2 [1, 2] =
      { twoActiveProcess with
        mFunctors := [sampleFunctor] ++
          { secondFunctor with mRenderingThreads := [1, 2] } :: [] } ∧
    WebViewFunctorManager.reportRenderingThreads
        (WebViewFunctorManager.reportRenderingThreads twoActiveProcess 2 [1, 2]) 2 [2, 3] =
      { twoActiveProcess with
        mFunctors := [sampleFunctor] ++
          { secondFunctor with mRenderingThreads := [2, 3] } :: [] } ∧
    ({ secondFunctor with mRenderingThreads := [2, 3] } : WebViewFunctor).getRenderingThreads =
      [2, 3] :=
  (reportRenderingThreads_replaces twoActiveProcess 2 [1, 2] [2, 3]).1
    [sampleFunctor] secondFunctor [] rfl (by decide) rfl

end threads

section validation

theorem validateCallbacks_eq_ok_iff (p : Process) (callbacks : WebViewFunctorCallbacks)
    (platform : RenderMode) (hq : WebViewFunctor_queryPlatformRenderMode p = .ok platform) :
    validateCallbacks p callbacks = .ok () ↔
      callbacks.onSync.isSome = true ∧ callbacks.onContextDestroyed.isSome = true ∧
      callbacks.onDestroyed.isSome = true ∧ callbacks.removeOverlays.isSome = true ∧
      (platform = .OpenGL_ES → callbacks.gles.draw.isSome = true) ∧
      (platform = .Vulkan → callbacks.vk.init.isSome = true ∧
        callbacks.vk.draw.isSome = true ∧ callbacks.vk.postDraw.isSome = true) := by
  unfold validateCallbacks LOG_ALWAYS_FATAL_IF
  rw [hq]
  cases h1 : callbacks.onSync <;> cases h2 : callbacks.onContextDestroyed <;>
    cases h3 : callbacks.onDestroyed <;> cases h4 : callbacks.removeOverlays <;>
    simp [bind, Except.bind]
  cases platform with
  | OpenGL_ES => cases callbacks.gles.draw <;> simp
  | Vulkan =>
    cases callbacks.vk.init <;> cases callbacks.vk.draw <;> cases callbacks.vk.postDraw <;>
      simp
  | other raw =>
    unfold WebViewFunctor_queryPlatformRenderMode at hq
    split at hq <;> simp at hq

theorem validateCallbacks_error_fatal {p : Process} {callbacks : WebViewFunctorCallbacks}
    {e : Failure} (h : validateCallbacks p callbacks = .error e) : ∃ msg, e = .fatal msg := by
  unfold validateCallbacks LOG_ALWAYS_FATAL_IF WebViewFunctor_queryPlatformRenderMode at h
  cases h1 : callbacks.onSync <;> cases h2 : callbacks.onContextDestroyed <;>
    cases h3 : callbacks.onDestroyed <;> cases h4 : callbacks.removeOverlays <;>
    simp [h1, h2, h3, h4, bind, Except.bind] at h <;> try exact ⟨_, h.symm⟩
  cases h5 : p.pipelineType <;> simp [h5] at h
  · cases h6 : callbacks.gles.draw <;> simp [h6] at h
    exact ⟨_, h.symm⟩
  · cases h6 : callbacks.vk.init <;> cases h7 : callbacks.vk.draw <;>
      cases h8 : callbacks.vk.postDraw <;> simp [h6, h7, h8] at h <;> exact ⟨_, h.symm⟩
  · exact ⟨_, h.symm⟩

/-- C16: on a platform whose render mode is OpenGL-ES or Vulkan, `createFunctor`
aborts (always fatally, and always inside `validateCallbacks`, its first
statement, hence before an id is allocated or a registry changed) if and only if
the table lacks `onSync`, `onContextDestroyed`, `onDestroyed` or
`removeOverlays`, or lacks an entry of the backend of the platform (`gles.draw`
on OpenGL-ES; `vk.initialize`, `vk.draw` or `vk.postDraw` on Vulkan). Otherwise
it returns, whatever the entries of the other backend are. -/
theorem createFunctor_aborts_iff (p : Process) (data : Nat)
    (callbacks : WebViewFunctorCallbacks) (functorMode platform : RenderMode)
    (hq : WebViewFunctor_queryPlatformRenderMode p = .ok platform) :
    ((∃ e, WebViewFunctorManager.createFunctor p data callbacks functorMode = .error e) ↔
      (callbacks.onSync = none ∨ callbacks.onContextDestroyed = none ∨
        callbacks.onDestroyed = none ∨ callbacks.removeOverlays = none ∨
        (platform = .OpenGL_ES ∧ callbacks.gles.draw = none) ∨
        (platform = .Vulkan ∧ (callbacks.vk.init = none ∨ callbacks.vk.draw = none ∨
          callbacks.vk.postDraw = none)))) ∧
    (∀ e, WebViewFunctorManager.createFunctor p data callbacks functorMode = .error e →
      validateCallbacks p callbacks = .error e ∧ ∃ msg, e = .fatal msg) ∧
    ((∀ e, WebViewFunctorManager.createFunctor p data callbacks functorMode ≠ .error e) →
      ∃ id p', WebViewFunctorManager.createFunctor p data callbacks functorMode =
        .ok (id, p')) := by
  have hiff := validateCallbacks_eq_ok_iff p callbacks platform hq
  have herr : ∀ e, WebViewFunctorManager.createFunctor p data callbacks functorMode = .error e →
      validateCallbacks p callbacks = .error e := by
    intro e he
    cases hv : validateCallbacks p callbacks with
    | error e' =>
      rw [createFunctor_eq_error hv] at he
      simp only [Except.error.injEq] at he
      rw [he]
    | ok u =>
      cases u
      rw [createFunctor_eq_ok hv] at he
      cases he
  refine ⟨?_, fun e he => ⟨herr e he, validateCallbacks_error_fatal (herr e he)⟩, ?_⟩
  · constructor
    · rintro ⟨e, he⟩
      have hv := herr e he
      by_contra hall
      simp only [not_or, not_and] at hall
      obtain ⟨n1, n2, n3, n4, n5, n6⟩ := hall
      have : validateCallbacks p callbacks = .ok () := by
        rw [hiff]
        refine ⟨Option.ne_none_iff_isSome.mp n1, Option.ne_none_iff_isSome.mp n2,
          Option.ne_none_iff_isSome.mp n3, Option.ne_none_iff_isSome.mp n4, ?_, ?_⟩
        · intro hp
          exact Option.ne_none_iff_isSome.mp (n5 hp)
        · intro hp
          have := n6 hp
          exact ⟨Option.ne_none_iff_isSome.mp this.1, Option.ne_none_iff_isSome.mp this.2.1,
            Option.ne_none_iff_isSome.mp this.2.2⟩
      rw [this] at hv
      cases hv
    · intro hlack
      cases hv : validateCallbacks p callbacks with
      | error e => exact ⟨e, createFunctor_eq_error hv⟩
      | ok u =>
        cases u
        obtain ⟨v1, v2, v3, v4, v5, v6⟩ := hiff.mp hv
        rcases hlack with h | h | h | h | ⟨hp, h⟩ | ⟨hp, h | h | h⟩
        · rw [h] at v1; simp at v1
        · rw [h] at v2; simp at v2
        · rw [h] at v3; simp at v3
        · rw [h] at v4; simp at v4
        · have := v5 hp; rw [h] at this; simp at this
        · have := (v6 hp).1; rw [h] at this; simp at this
        · have := (v6 hp).2.1; rw [h] at this; simp at this
        · have := (v6 hp).2.2; rw [h] at this; simp at this
  · intro hne
    cases hv : validateCallbacks p callbacks with
    | error e => exact absurd (createFunctor_eq_error hv) (hne e)
    | ok u =>
      cases u
      exact ⟨_, _, createFunctor_eq_ok hv⟩

theorem createFunctor_aborts_iff_witness :
    ((∃ e, WebViewFunctorManager.createFunctor (freshProcess .SkiaGL) 7 nullDrawCallbacks
        .OpenGL_ES = .error e) ↔
      (nullDrawCallbacks.onSync = none ∨ nullDrawCallbacks.onContextDestroyed = none ∨
        nullDrawCallbacks.onDestroyed = none ∨ nullDrawCallbacks.removeOverlays = none ∨
        (RenderMode.OpenGL_ES = .OpenGL_ES ∧ nullDrawCallbacks.gles.draw = none) ∨
        (RenderMode.OpenGL_ES = .Vulkan ∧ (nullDrawCallbacks.vk.init = none ∨
          nullDrawCallbacks.vk.draw = none ∨ nullDrawCallbacks.vk.postDraw = none)))) ∧
    (∀ e, WebViewFunctorManager.createFunctor (freshProcess .SkiaGL) 7 nullDrawCallbacks
        .OpenGL_ES = .error e →
      validateCallbacks (freshProcess .SkiaGL) nullDrawCallbacks = .error e ∧
        ∃ msg, e = .fatal msg) ∧
    ((∀ e, WebViewFunctorManager.createFunctor (freshProcess .SkiaGL) 7 nullDrawCallbacks
        .OpenGL_ES ≠ .error e) →
      ∃ id p', WebViewFunctorManager.createFunctor (freshProcess .SkiaGL) 7 nullDrawCallbacks
        .OpenGL_ES = .ok (id, p')) :=
  createFunctor_aborts_iff (freshProcess .SkiaGL) 7 nullDrawCallbacks .OpenGL_ES .OpenGL_ES rfl

end validation

section activeThreads

theorem mem_keepFirst {t : Int} : ∀ {l : List Int}, t ∈ keepFirst l ↔ t ∈ l
  | [] => by simp [keepFirst]
  | x :: rest => by
    have ih := @mem_keepFirst t rest
    simp only [keepFirst, List.mem_cons, List.mem_filter, ih, bne_iff_ne, ne_eq]
    constructor
    · rintro (h | ⟨h, -⟩)
      · exact Or.inl h
      · exact Or.inr h
    · rintro (h | h)
      · exact Or.inl h
      · by_cases hx : t = x
        · exact Or.inl hx
        · exact Or.inr ⟨h, hx⟩

theorem keepFirst_nodup : ∀ l : List Int, (keepFirst l).Nodup
  | [] => by simp [keepFirst]
  | x :: rest => by
    simp only [keepFirst, List.nodup_cons, List.mem_filter, bne_self_eq_false,
      Bool.false_eq_true, and_false, not_false_eq_true, true_and]
    exact (keepFirst_nodup rest).sublist (List.filter_sublist _)

theorem foldl_pushUnique : ∀ (l acc : List Int),
    l.foldl WebViewFunctorManager.pushUnique acc =
      acc ++ (keepFirst l).filter (fun t => !acc.contains t)
  | [], acc => by simp [keepFirst]
  | x :: rest, acc => by
    rw [List.foldl_cons, foldl_pushUnique rest]
    unfold WebViewFunctorManager.pushUnique
    by_cases hx : acc.contains x = true
    · have hmem : x ∈ acc := by simpa using hx
      simp only [hx, if_true, keepFirst, List.filter_cons, Bool.not_true, Bool.false_eq_true,
        if_false, List.filter_filter]
      congr 1
      apply List.filter_congr
      intro t _
      by_cases ht : t ∈ acc
      · simp [ht]
      · have : t ≠ x := fun h => ht (h ▸ hmem)
        simp [ht, this]
    · have hmem : x ∉ acc := by simpa using hx
      simp only [hx, Bool.false_eq_true, if_false, keepFirst, List.filter_cons, Bool.not_false,
        if_true, List.filter_filter, List.append_assoc, List.singleton_append]
      congr 2
      apply List.filter_congr
      intro t _
      by_cases ht : t = x
      · simp [ht]
      · simp [ht]

theorem getRenderingThreads_loop_eq (p : Process) :
    ∀ (l : List Handle) (acc : List Int), (∀ h ∈ l, ∃ f, h.deref p = .ok f) →
      WebViewFunctorManager.getRenderingThreads_loop p l acc =
        .ok ((l.flatMap (fun h =>
          match h.deref p with
          | .ok f => f.getRenderingThreads
          | .error _ => [])).foldl WebViewFunctorManager.pushUnique acc)
  | [], acc, _ => by simp [WebViewFunctorManager.getRenderingThreads_loop]
  | h :: rest, acc, hl => by
    obtain ⟨f, hf⟩ := hl h (List.mem_cons_self _ _)
    have ih := getRenderingThreads_loop_eq p rest
      (f.getRenderingThreads.foldl WebViewFunctorManager.pushUnique acc)
      (fun g hg => hl g (List.mem_cons_of_mem _ hg))
    simp [WebViewFunctorManager.getRenderingThreads_loop, Handle.getRenderingThreads, hf, ih,
      bind, Except.bind]

theorem Handle.deref_ok_of_safe {p : Process} (hsafe : p.MemorySafe) :
    ∀ h ∈ p.mActiveFunctors, ∃ f, h.deref p = .ok f := by
  intro h hh
  obtain ⟨g, hg, hga⟩ := hsafe.2 h hh
  unfold Handle.deref
  cases hfind : p.mFunctors.find? (fun f => f.addr == h.mReference) with
  | none =>
    rw [List.find?_eq_none] at hfind
    exact absurd (by simpa using hga) (hfind g hg)
  | some f => exact ⟨f, rfl⟩

/-- C14: in a state without dangling handles,
`getRenderingThreadsForActiveFunctors()` returns a list without duplicates whose
elements are exactly the thread ids stored in the functors the handles of the
active set refer to (a functor that is only in the all-functors registry
contributes nothing), in the order of their first occurrence when the lists of
the active functors are read in the order of the active set. -/
theorem getRenderingThreads_deduplicates (p : Process) (hsafe : p.MemorySafe) :
    ∃ threads, WebViewFunctorManager.getRenderingThreadsForActiveFunctors p = .ok threads ∧
      threads.Nodup ∧
      (∀ t, t ∈ threads ↔
        ∃ h ∈ p.mActiveFunctors, ∃ f, h.deref p = .ok f ∧ t ∈ f.getRenderingThreads) ∧
      threads = keepFirst (activeRenderingThreads p) := by
  have hall := Handle.deref_ok_of_safe hsafe
  have hrun : WebViewFunctorManager.getRenderingThreadsForActiveFunctors p =
      .ok (keepFirst (activeRenderingThreads p)) := by
    unfold WebViewFunctorManager.getRenderingThreadsForActiveFunctors
    rw [getRenderingThreads_loop_eq p _ _ hall, foldl_pushUnique]
    simp [activeRenderingThreads]
  refine ⟨_, hrun, keepFirst_nodup _, ?_, rfl⟩
  intro t
  rw [mem_keepFirst]
  unfold activeRenderingThreads
  rw [List.mem_flatMap]
  constructor
  · rintro ⟨h, hh, ht⟩
    obtain ⟨f, hf⟩ := hall h hh
    rw [hf] at ht
    exact ⟨h, hh, f, hf, ht⟩
  · rintro ⟨h, hh, f, hf, ht⟩
    exact ⟨h, hh, by rw [hf]; exact ht⟩

theorem getRenderingThreads_deduplicates_witness :
    (∃ threads,
      WebViewFunctorManager.getRenderingThreadsForActiveFunctors threadsProcess = .ok threads ∧
      threads.Nodup ∧
      (∀ t, t ∈ threads ↔
        ∃ h ∈ threadsProcess.mActiveFunctors, ∃ f, h.deref threadsProcess = .ok f ∧
          t ∈ f.getRenderingThreads) ∧
      threads = keepFirst (activeRenderingThreads threadsProcess)) ∧
    WebViewFunctorManager.getRenderingThreadsForActiveFunctors threadsProcess =
      .ok [1, 2, 3] :=
  ⟨getRenderingThreads_deduplicates threadsProcess (by decide), rfl⟩

end activeThreads

section exact

theorem mergeTransaction_eq (self : WebViewFunctor) (p : Process) (t : Transaction) :
    self.mergeTransaction p (some t) =
      { p with events := p.events ++ mergeEvents p.activeContext t self.mSurfaceControl } := by
  unfold WebViewFunctor.mergeTransaction mergeEvents
  cases p with
  | mk a1 a2 a3 activeContext a5 a6 a7 a8 a9 a10 events =>
    cases activeContext with
    | none => simp
    | some c => cases hm : c.mergeTransactionResult <;> simp [hm]

theorem reparentSurfaceControl_eq (self : WebViewFunctor) (p : Process)
    (parent : Option Nat) :
    self.reparentSurfaceControl p parent =
      { p with events := p.events ++ reparentEvents self p.activeContext parent } := by
  unfold WebViewFunctor.reparentSurfaceControl reparentEvents
  cases hs : self.mSurfaceControl with
  | none => simp
  | some surface =>
    simp only
    rw [mergeTransaction_eq, hs]

theorem removeOverlays_exact (self : WebViewFunctor) (p : Process)
    (hguard : p.LOG_NDEBUG = true ∨ p.sCurrentFunctor = none)
    (hcb : self.mCallbacks.removeOverlays.isSome = true) :
    self.removeOverlays p =
      .ok ({ self with mSurfaceControl := none },
        { p with
          sCurrentFunctor := none,
          events := p.events ++ Event.removeOverlays self.mFunctor self.mData ::
            reparentEvents self p.activeContext none }) := by
  unfold WebViewFunctor.removeOverlays
  by_cases hs : self.mSurfaceControl.isSome = true
  · simp [enter_eq_ok self.addr hguard, invoke_eq_ok _ _ hcb, bind, Except.bind, hs,
      reparentSurfaceControl_eq, ScopedCurrentFunctor.leave, ALOG_ASSERT, LOG_ALWAYS_FATAL_IF]
  · have hn : self.mSurfaceControl = none := by
      cases h : self.mSurfaceControl <;> simp_all
    have hself : { self with mSurfaceControl := none } = self := by
      cases self; simp_all
    simp [enter_eq_ok self.addr hguard, invoke_eq_ok _ _ hcb, bind, Except.bind, hn,
      ScopedCurrentFunctor.leave, ALOG_ASSERT, LOG_ALWAYS_FATAL_IF, reparentEvents]
    exact hself.symm

theorem destruct_exact (self : WebViewFunctor) (p : Process)
    (hguard : p.LOG_NDEBUG = true ∨ p.sCurrentFunctor = none)
    (hcb : self.mCallbacks.mandatoryPresent = true) :
    self.destruct p =
      .ok { p with
        sCurrentFunctor := if self.mSurfaceControl.isSome then none else p.sCurrentFunctor,
        events := p.events ++ contextEvents p.grContext self ++
          (if self.mSurfaceControl.isSome then
            Event.removeOverlays self.mFunctor self.mData ::
              reparentEvents self p.activeContext none
          else []) ++
          [Event.onDestroyed self.mFunctor self.mData] } := by
  unfold WebViewFunctorCallbacks.mandatoryPresent at hcb
  simp only [Bool.and_eq_true] at hcb
  obtain ⟨⟨⟨-, h2⟩, h3⟩, h4⟩ := hcb
  have h1 := destroyContext_eq self p (fun _ => h2)
  have he := removeOverlays_exact { self with mHasContext := false }
    { p with events := p.events ++
        (if self.mHasContext then
          Event.onContextDestroyed self.mFunctor self.mData ::
            (if p.grContext then [Event.resetContext] else [])
        else []) } hguard h4
  unfold WebViewFunctor.destruct
  by_cases hs : self.mSurfaceControl.isSome = true
  · simp only [h1, bind, Except.bind, hs, if_true, he]
    rw [invoke_eq_ok _ _ h3]
    simp [contextEvents, reparentEvents]
  · simp only [h1, bind, Except.bind, hs, if_false]
    rw [invoke_eq_ok _ _ h3]
    simp [contextEvents]

end exact

section destruction

theorem filter_isCallback_mergeEvents (activeContext : Option CanvasContext)
    (t : Transaction) (surfaceControl : Option Nat) :
    (mergeEvents activeContext t surfaceControl).filter Event.isCallback = [] := by
  unfold mergeEvents
  cases activeContext with
  | none => simp [List.filter, Event.isCallback]
  | some c => cases c.mergeTransactionResult <;> simp [List.filter, Event.isCallback]

theorem filter_isCallback_reparentEvents (self : WebViewFunctor)
    (activeContext : Option CanvasContext) (parent : Option Nat) :
    (reparentEvents self activeContext parent).filter Event.isCallback = [] := by
  unfold reparentEvents
  cases self.mSurfaceControl with
  | none => rfl
  | some surface => exact filter_isCallback_mergeEvents _ _ _

theorem filter_isCallback_contextEvents (grContext : Bool) (f : WebViewFunctor) :
    (contextEvents grContext f).filter Event.isCallback =
      if f.mHasContext then [Event.onContextDestroyed f.mFunctor f.mData] else [] := by
  unfold contextEvents
  cases f.mHasContext <;> cases grContext <;> simp [List.filter, Event.isCallback]

/-- C12: the destructor of a functor (whose table has the entries validation
demands, run outside a guarded callback) returns after logging, in this order:
`onContextDestroyed` and the reset of the GPU context, only when the functor has
a context; `removeOverlays` followed by the reparent of the surface to none,
only when a compositor surface is attached (`removeOverlays` then leaves the
functor without a surface); and `onDestroyed`. So the embedder callbacks are
`onContextDestroyed`, `removeOverlays`, `onDestroyed` in this order, the first
two under their conditions, and `onDestroyed` is called exactly once, last. -/
theorem destruct_callback_order (self : WebViewFunctor) (p : Process)
    (hguard : p.LOG_NDEBUG = true ∨ p.sCurrentFunctor = none)
    (hcb : self.mCallbacks.mandatoryPresent = true) :
    ∃ p' added, self.destruct p = .ok p' ∧ p'.events = p.events ++ added ∧
      added =
        (if self.mHasContext then
          Event.onContextDestroyed self.mFunctor self.mData ::
            (if p.grContext then [Event.resetContext] else [])
        else []) ++
        (match self.mSurfaceControl with
          | some surface =>
            Event.removeOverlays self.mFunctor self.mData ::
              mergeEvents p.activeContext (.reparent surface none) (some surface)
          | none => []) ++
        [Event.onDestroyed self.mFunctor self.mData] ∧
      added.filter Event.isCallback =
        (if self.mHasContext then [Event.onContextDestroyed self.mFunctor self.mData]
          else []) ++
        (if self.mSurfaceControl.isSome then [Event.removeOverlays self.mFunctor self.mData]
          else []) ++
        [Event.onDestroyed self.mFunctor self.mData] ∧
      added.count (Event.onDestroyed self.mFunctor self.mData) = 1 ∧
      added.getLast? = some (Event.onDestroyed self.mFunctor self.mData) ∧
      (∃ detached q, self.removeOverlays p = .ok (detached, q) ∧
        detached.mSurfaceControl = none) := by
  have hd := destruct_exact self p hguard hcb
  have hro : self.mCallbacks.removeOverlays.isSome = true := by
    unfold WebViewFunctorCallbacks.mandatoryPresent at hcb
    simp only [Bool.and_eq_true] at hcb
    exact hcb.2
  refine ⟨_, contextEvents p.grContext self ++
      (if self.mSurfaceControl.isSome then
        Event.removeOverlays self.mFunctor self.mData ::
          reparentEvents self p.activeContext none
      else []) ++ [Event.onDestroyed self.mFunctor self.mData], hd, by simp, ?_, ?_, ?_, ?_,
    ⟨_, _, removeOverlays_exact self p hguard hro, rfl⟩⟩
  · unfold contextEvents reparentEvents
    cases self.mSurfaceControl <;> simp
  · rw [List.filter_append, List.filter_append, filter_isCallback_contextEvents]
    cases self.mSurfaceControl.isSome
    · simp [List.filter, Event.isCallback]
    · simp only [if_true, List.filter_cons, Event.isCallback,
        filter_isCallback_reparentEvents]
      simp [List.filter, Event.isCallback]
  · have h1 : (contextEvents p.grContext self).count
        (Event.onDestroyed self.mFunctor self.mData) = 0 := by
      unfold contextEvents
      cases self.mHasContext <;> cases p.grContext <;> simp [List.count_cons]
    have h2 : (reparentEvents self p.activeContext none).count
        (Event.onDestroyed self.mFunctor self.mData) = 0 := by
      unfold reparentEvents mergeEvents
      cases self.mSurfaceControl with
      | none => simp
      | some surface =>
        cases p.activeContext with
        | none => simp [List.count_cons]
        | some c => cases hm : c.mergeTransactionResult <;> simp [List.count_cons, hm]
    rw [List.count_append, List.count_append, h1]
    cases self.mSurfaceControl.isSome
    · simp
    · simp [List.count_cons, h2]
  · simp

theorem destruct_callback_order_witness :
    ∃ p' added, overlayFunctor.destruct renderingProcess = .ok p' ∧
      p'.events = renderingProcess.events ++ added ∧
      added =
        (if overlayFunctor.mHasContext then
          Event.onContextDestroyed overlayFunctor.mFunctor overlayFunctor.mData ::
            (if renderingProcess.grContext then [Event.resetContext] else [])
        else []) ++
        (match overlayFunctor.mSurfaceControl with
          | some surface =>
            Event.removeOverlays overlayFunctor.mFunctor overlayFunctor.mData ::
              mergeEvents renderingProcess.activeContext (.reparent surface none)
                (some surface)
          | none => []) ++
        [Event.onDestroyed overlayFunctor.mFunctor overlayFunctor.mData] ∧
      added.filter Event.isCallback =
        (if overlayFunctor.mHasContext then
          [Event.onContextDestroyed overlayFunctor.mFunctor overlayFunctor.mData]
          else []) ++
        (if overlayFunctor.mSurfaceControl.isSome then
          [Event.removeOverlays overlayFunctor.mFunctor overlayFunctor.mData]
          else []) ++
        [Event.onDestroyed overlayFunctor.mFunctor overlayFunctor.mData] ∧
      added.count (Event.onDestroyed overlayFunctor.mFunctor overlayFunctor.mData) = 1 ∧
      added.getLast? =
        some (Event.onDestroyed overlayFunctor.mFunctor overlayFunctor.mData) ∧
      (∃ detached q, overlayFunctor.removeOverlays renderingProcess = .ok (detached, q) ∧
        detached.mSurfaceControl = none) :=
  destruct_callback_order overlayFunctor renderingProcess (Or.inr rfl) rfl

end destruction

section reparent

theorem prepareRootSurfaceControl_exact (self : WebViewFunctor) (p : Process)
    (c : CanvasContext) (root : Nat) (hov : p.enableWebViewOverlays = true)
    (hc : p.activeContext = some c) (hr : c.getSurfaceControl = some root) :
    self.prepareRootSurfaceControl p =
      (true,
        { self with mParentSurfaceControlGenerationId := c.getSurfaceControlGenerationId },
        { p with events := p.events ++ prepareRequests self c root }) := by
  unfold WebViewFunctor.prepareRootSurfaceControl prepareRequests
  by_cases hg : self.mParentSurfaceControlGenerationId = c.getSurfaceControlGenerationId
  · have hself : { self with
        mParentSurfaceControlGenerationId := c.getSurfaceControlGenerationId } = self := by
      cases self; simp_all
    rw [hself]
    simp [hov, hc, hr, hg]
    cases p
    simp_all
  · simp [reparentSurfaceControl_eq, hov, hc, hr, hg]

theorem drawGl_exact (self : WebViewFunctor) (p : Process) (drawInfo : DrawGlInfo)
    (c : CanvasContext) (root : Nat)
    (hguard : p.LOG_NDEBUG = true ∨ p.sCurrentFunctor = none)
    (hcb : self.mCallbacks.gles.draw.isSome = true)
    (hl : drawInfo.isLayer = false) (hov : p.enableWebViewOverlays = true)
    (hc : p.activeContext = some c) (hr : c.getSurfaceControl = some root) :
    self.drawGl p drawInfo =
      .ok ({ self with
          mHasContext := true,
          mParentSurfaceControlGenerationId := c.getSurfaceControlGenerationId },
        { p with
          sCurrentFunctor := none,
          events := p.events ++ prepareRequests self c root ++
            [Event.glesDraw self.mFunctor self.mData drawInfo .Enabled] }) := by
  unfold WebViewFunctor.drawGl
  have hself0 : (if (!self.mHasContext) = true then { self with mHasContext := true }
      else self) = { self with mHasContext := true } := by
    cases h : self.mHasContext
    · simp
    · cases self; simp_all
  rw [hself0]
  have hprep := prepareRootSurfaceControl_exact { self with mHasContext := true }
    { p with sCurrentFunctor := some self.addr } c root hov hc hr
  simp only [enter_eq_ok self.addr hguard, bind, Except.bind, hl, Bool.not_false, if_true,
    hprep]
  rw [invoke_eq_ok _ _ hcb]
  simp [ScopedCurrentFunctor.leave, ALOG_ASSERT, LOG_ALWAYS_FATAL_IF, bind, Except.bind,
    prepareRequests, reparentEvents]

theorem drawVk_exact (self : WebViewFunctor) (p : Process) (params : VkFunctorDrawParams)
    (c : CanvasContext) (root : Nat)
    (hguard : p.LOG_NDEBUG = true ∨ p.sCurrentFunctor = none)
    (hcb : self.mCallbacks.vk.draw.isSome = true)
    (hl : params.is_layer = false) (hov : p.enableWebViewOverlays = true)
    (hc : p.activeContext = some c) (hr : c.getSurfaceControl = some root) :
    self.drawVk p params =
      .ok ({ self with
          mParentSurfaceControlGenerationId := c.getSurfaceControlGenerationId },
        { p with
          sCurrentFunctor := none,
          events := p.events ++ prepareRequests self c root ++
            [Event.vkDraw self.mFunctor self.mData params .Enabled] }) := by
  unfold WebViewFunctor.drawVk
  have hprep := prepareRootSurfaceControl_exact self
    { p with sCurrentFunctor := some self.addr } c root hov hc hr
  simp only [enter_eq_ok self.addr hguard, bind, Except.bind, hl, Bool.not_false, if_true,
    hprep]
  rw [invoke_eq_ok _ _ hcb]
  simp [ScopedCurrentFunctor.leave, ALOG_ASSERT, LOG_ALWAYS_FATAL_IF, bind, Except.bind]

theorem countP_isReparent_mergeEvents (c : CanvasContext) (surface : Nat)
    (parent surfaceControl : Option Nat) :
    (mergeEvents (some c) (.reparent surface parent) surfaceControl).countP Event.isReparent =
      1 := by
  unfold mergeEvents
  cases hm : c.mergeTransactionResult <;> simp [List.countP_cons, Event.isReparent, hm]

theorem prepareRequests_cases (self : WebViewFunctor) (c : CanvasContext) (root : Nat) :
    (self.mParentSurfaceControlGenerationId = c.getSurfaceControlGenerationId →
      prepareRequests self c root = []) ∧
    (self.mSurfaceControl = none → prepareRequests self c root = []) ∧
    (∀ surface,
      self.mParentSurfaceControlGenerationId ≠ c.getSurfaceControlGenerationId →
      self.mSurfaceControl = some surface →
      prepareRequests self c root =
        Event.contextMergeTransaction (.reparent surface (some root)) (some surface) ::
          (if c.mergeTransactionResult then []
            else [Event.transactionApply (.reparent surface (some root))]) ∧
      (prepareRequests self c root).countP Event.isReparent = 1) := by
  refine ⟨?_, ?_, ?_⟩
  · intro h
    simp [prepareRequests, h]
  · intro h
    unfold prepareRequests reparentEvents
    split <;> simp [h]
  · intro surface hg hs
    have h : prepareRequests self c root =
        mergeEvents (some c) (.reparent surface (some root)) (some surface) := by
      simp [prepareRequests, reparentEvents, hg, hs]
    refine ⟨by rw [h]; rfl, ?_⟩
    rw [h]
    exact countP_isReparent_mergeEvents _ _ _ _

end reparent

section generation

/-- C11, as stated, fails for a functor that has no compositor surface: under an
active context of generation 1 with a root surface, a non-layer draw of a
functor whose last seen generation is 0 sets the last seen generation to 1 and
calls the draw callback with overlays enabled, but issues no reparent; a second
draw under generation 2 sets it to 2 and again issues no reparent. -/
theorem draw_without_surface_does_not_reparent :
    ∃ self1 p1 self2 p2,
      sampleFunctor.mSurfaceControl = none ∧
      sampleFunctor.mParentSurfaceControlGenerationId = 0 ∧
      sampleFunctor.drawGl renderingProcess { isLayer := false } = .ok (self1, p1) ∧
      self1.mParentSurfaceControlGenerationId = 1 ∧
      p1.events = [Event.glesDraw 1 7 { isLayer := false } .Enabled] ∧
      self1.drawGl generation2Process { isLayer := false } = .ok (self2, p2) ∧
      self2.mParentSurfaceControlGenerationId = 2 ∧
      p2.events = [Event.glesDraw 1 7 { isLayer := false } .Enabled] ∧
      p1.events.countP Event.isReparent + p2.events.countP Event.isReparent = 0 :=
  ⟨_, _, _, _, rfl, rfl, rfl, rfl, rfl, rfl, rfl, rfl, rfl⟩

/-- C11, amended: in a non-layer draw (`drawGl` or `drawVk`) with overlays
enabled and an active context with a non-null root surface and generation `g`,
the last seen generation becomes `g`; the compositor requests made before the
draw callback (`prepareRequests`) are: one reparent of the functor's surface to
the root when `g` differs from the last seen generation and a surface is
attached, and none when `g` equals it or when no surface is attached. Hence a
following draw of the same functor under the generation `g` issues no reparent,
and under another generation reparents an attached surface once more. The draw
callback is opaque: a surface it obtains through `getSurfaceControl` is not
part of the functor the draw returns here. -/
theorem draw_reparents_on_new_generation (self : WebViewFunctor) (p : Process)
    (c : CanvasContext) (root : Nat)
    (hguard : p.LOG_NDEBUG = true ∨ p.sCurrentFunctor = none)
    (hov : p.enableWebViewOverlays = true) (hc : p.activeContext = some c)
    (hr : c.getSurfaceControl = some root) :
    ((self.mParentSurfaceControlGenerationId = c.getSurfaceControlGenerationId →
        prepareRequests self c root = []) ∧
      (self.mSurfaceControl = none → prepareRequests self c root = []) ∧
      (∀ surface,
        self.mParentSurfaceControlGenerationId ≠ c.getSurfaceControlGenerationId →
        self.mSurfaceControl = some surface →
        prepareRequests self c root =
          Event.contextMergeTransaction (.reparent surface (some root)) (some surface) ::
            (if c.mergeTransactionResult then []
              else [Event.transactionApply (.reparent surface (some root))]) ∧
        (prepareRequests self c root).countP Event.isReparent = 1)) ∧
    (∀ drawInfo, drawInfo.isLayer = false → self.mCallbacks.gles.draw.isSome = true →
      ∃ self' p', self.drawGl p drawInfo = .ok (self', p') ∧
        self'.mParentSurfaceControlGenerationId = c.getSurfaceControlGenerationId ∧
        self'.mSurfaceControl = self.mSurfaceControl ∧
        p'.events = p.events ++ prepareRequests self c root ++
          [Event.glesDraw self.mFunctor self.mData drawInfo .Enabled] ∧
        ∀ (p2 : Process) (c2 : CanvasContext) (root2 : Nat) (drawInfo2 : DrawGlInfo),
          (p2.LOG_NDEBUG = true ∨ p2.sCurrentFunctor = none) →
          p2.enableWebViewOverlays = true → p2.activeContext = some c2 →
          c2.getSurfaceControl = some root2 → drawInfo2.isLayer = false →
          ∃ self'' p'', self'.drawGl p2 drawInfo2 = .ok (self'', p'') ∧
            p''.events = p2.events ++ prepareRequests self' c2 root2 ++
              [Event.glesDraw self.mFunctor self.mData drawInfo2 .Enabled] ∧
            (c2.getSurfaceControlGenerationId = c.getSurfaceControlGenerationId →
              prepareRequests self' c2 root2 = []) ∧
            (∀ surface,
              c2.getSurfaceControlGenerationId ≠ c.getSurfaceControlGenerationId →
              self.mSurfaceControl = some surface →
              (prepareRequests self' c2 root2).countP Event.isReparent = 1)) ∧
    (∀ params, params.is_layer = false → self.mCallbacks.vk.draw.isSome = true →
      ∃ self' p', self.drawVk p params = .ok (self', p') ∧
        self'.mParentSurfaceControlGenerationId = c.getSurfaceControlGenerationId ∧
        self'.mSurfaceControl = self.mSurfaceControl ∧
        p'.events = p.events ++ prepareRequests self c root ++
          [Event.vkDraw self.mFunctor self.mData params .Enabled] ∧
        ∀ (p2 : Process) (c2 : CanvasContext) (root2 : Nat) (params2 : VkFunctorDrawParams),
          (p2.LOG_NDEBUG = true ∨ p2.sCurrentFunctor = none) →
          p2.enableWebViewOverlays = true → p2.activeContext = some c2 →
          c2.getSurfaceControl = some root2 → params2.is_layer = false →
          ∃ self'' p'', self'.drawVk p2 params2 = .ok (self'', p'') ∧
            p''.events = p2.events ++ prepareRequests self' c2 root2 ++
              [Event.vkDraw self.mFunctor self.mData params2 .Enabled] ∧
            (c2.getSurfaceControlGenerationId = c.getSurfaceControlGenerationId →
              prepareRequests self' c2 root2 = []) ∧
            (∀ surface,
              c2.getSurfaceControlGenerationId ≠ c.getSurfaceControlGenerationId →
              self.mSurfaceControl = some surface →
              (prepareRequests self' c2 root2).countP Event.isReparent = 1)) := by
  refine ⟨prepareRequests_cases self c root, ?_, ?_⟩
  · intro drawInfo hl hcb
    refine ⟨_, _, drawGl_exact self p drawInfo c root hguard hcb hl hov hc hr, rfl, rfl,
      rfl, ?_⟩
    intro p2 c2 root2 drawInfo2 hguard2 hov2 hc2 hr2 hl2
    refine ⟨_, _, drawGl_exact _ p2 drawInfo2 c2 root2 hguard2 hcb hl2 hov2 hc2 hr2, rfl,
      ?_, ?_⟩
    · intro hg
      exact (prepareRequests_cases _ c2 root2).1 hg.symm
    · intro surface hg hs
      exact ((prepareRequests_cases
        { self with
          mHasContext := true,
          mParentSurfaceControlGenerationId := c.getSurfaceControlGenerationId }
        c2 root2).2.2 surface (fun h => hg h.symm) hs).2
  · intro params hl hcb
    refine ⟨_, _, drawVk_exact self p params c root hguard hcb hl hov hc hr, rfl, rfl,
      rfl, ?_⟩
    intro p2 c2 root2 params2 hguard2 hov2 hc2 hr2 hl2
    refine ⟨_, _, drawVk_exact _ p2 params2 c2 root2 hguard2 hcb hl2 hov2 hc2 hr2, rfl,
      ?_, ?_⟩
    · intro hg
      exact (prepareRequests_cases _ c2 root2).1 hg.symm
    · intro surface hg hs
      exact ((prepareRequests_cases
        { self with
          mHasContext := true,
          mParentSurfaceControlGenerationId := c.getSurfaceControlGenerationId }
        c2 root2).2.2 surface (fun h => hg h.symm) hs).2

theorem draw_reparents_on_new_generation_witness :
    (∀ surface,
      overlayFunctor.mParentSurfaceControlGenerationId ≠ 1 →
      overlayFunctor.mSurfaceControl = some surface →
      prepareRequests overlayFunctor
          { getSurfaceControl := some 50, getSurfaceControlGenerationId := 1,
            mergeTransactionResult := true } 50 =
        Event.contextMergeTransaction (.reparent surface (some 50)) (some surface) ::
          (if true then [] else [Event.transactionApply (.reparent surface (some 50))]) ∧
      (prepareRequests overlayFunctor
          { getSurfaceControl := some 50, getSurfaceControlGenerationId := 1,
            mergeTransactionResult := true } 50).countP Event.isReparent = 1) ∧
    overlayFunctor.drawGl renderingProcess { isLayer := false } =
      .ok ({ overlayFunctor with mParentSurfaceControlGenerationId := 1 },
        { renderingProcess with
          events := [Event.contextMergeTransaction (.reparent 60 (some 50)) (some 60),
            Event.glesDraw 1 7 { isLayer := false } .Enabled] }) :=
  ⟨(draw_reparents_on_new_generation overlayFunctor renderingProcess
      { getSurfaceControl := some 50, getSurfaceControlGenerationId := 1,
        mergeTransactionResult := true } 50 (Or.inr rfl) rfl rfl rfl).1.2.2, rfl⟩

end generation

section contextLoss

theorem find_addr_split (pre post : List WebViewFunctor) (f : WebViewFunctor)
    (h : ∀ g ∈ pre, g.addr ≠ f.addr) :
    (pre ++ f :: post).find? (fun g => g.addr == f.addr) = some f := by
  induction pre with
  | nil => simp
  | cons g pre ih =>
    have hg : g.addr ≠ f.addr := h g (List.mem_cons_self _ _)
    have ih := ih (fun x hx => h x (List.mem_cons_of_mem _ hx))
    simp [List.find?_cons, hg, ih]

theorem map_replace_absent (l : List WebViewFunctor) (a : Nat) (x : WebViewFunctor)
    (h : ∀ g ∈ l, g.addr ≠ a) :
    l.map (fun g => if g.addr == a then x else g) = l := by
  induction l with
  | nil => rfl
  | cons g l ih =>
    have hg : g.addr ≠ a := h g (List.mem_cons_self _ _)
    have ih := ih (fun x hx => h x (List.mem_cons_of_mem _ hx))
    rw [List.map_cons, ih]
    simp [hg]

theorem map_replace_split (pre post : List WebViewFunctor) (f x : WebViewFunctor)
    (h1 : ∀ g ∈ pre, g.addr ≠ f.addr) (h2 : ∀ g ∈ post, g.addr ≠ f.addr) :
    (pre ++ f :: post).map (fun g => if g.addr == f.addr then x else g) =
      pre ++ x :: post := by
  rw [List.map_append, List.map_cons, map_replace_absent pre f.addr x h1,
    map_replace_absent post f.addr x h2]
  simp

/-- The call `functor->destroyContext()` through a pointer of the snapshot whose
object is still owned by the manager. -/
theorem destroyContextAt_eq (q : Process) (pre post : List WebViewFunctor)
    (f : WebViewFunctor) (hq : q.mFunctors = pre ++ f :: post)
    (h1 : ∀ g ∈ pre, g.addr ≠ f.addr) (h2 : ∀ g ∈ post, g.addr ≠ f.addr)
    (hcb : f.mHasContext = true → f.mCallbacks.onContextDestroyed.isSome = true) :
    WebViewFunctorManager.destroyContextAt q f.addr =
      .ok { q with
        mFunctors := pre ++ { f with mHasContext := false } :: post,
        events := q.events ++ contextEvents q.grContext f } := by
  unfold WebViewFunctorManager.destroyContextAt
  rw [hq, find_addr_split pre post f h1]
  simp only [destroyContext_eq f q hcb, bind, Except.bind, hq]
  rw [map_replace_split pre post f _ h1 h2]
  rfl

theorem onContextDestroyed_loop_eq (rest : List WebViewFunctor) :
    ∀ (done : List WebViewFunctor) (q : Process),
      q.mFunctors = done ++ rest →
      ((done ++ rest).map (fun f => f.addr)).Nodup →
      (∀ f ∈ rest, f.mHasContext = true → f.mCallbacks.onContextDestroyed.isSome = true) →
      WebViewFunctorManager.onContextDestroyed_loop (rest.map (fun f => f.addr)) q =
        .ok { q with
          mFunctors := done ++ rest.map (fun f => { f with mHasContext := false }),
          events := q.events ++ rest.flatMap (contextEvents q.grContext) } := by
  induction rest with
  | nil =>
    intro done q hq _ _
    cases q
    simp_all [WebViewFunctorManager.onContextDestroyed_loop]
  | cons f rest ih =>
    intro done q hq hn hcb
    have hn' : (done.map (fun f => f.addr) ++ f.addr :: rest.map (fun f => f.addr)).Nodup := by
      simpa using hn
    obtain ⟨-, hfr, hdisj⟩ := List.nodup_append.1 hn'
    have h1 : ∀ g ∈ done, g.addr ≠ f.addr := fun g hg he =>
      hdisj (List.mem_map_of_mem (fun f => f.addr) hg) (he ▸ List.mem_cons_self _ _)
    have h2 : ∀ g ∈ rest, g.addr ≠ f.addr := fun g hg he =>
      (List.nodup_cons.1 hfr).1 (he ▸ List.mem_map_of_mem (fun f => f.addr) hg)
    have hstep := destroyContextAt_eq q done rest f hq h1 h2
      (hcb f (List.mem_cons_self _ _))
    have hrec := ih (done ++ [{ f with mHasContext := false }])
      { q with
        mFunctors := done ++ { f with mHasContext := false } :: rest,
        events := q.events ++ contextEvents q.grContext f }
      (by simp) (by simpa using hn) (fun g hg => hcb g (List.mem_cons_of_mem _ hg))
    simp only [List.map_cons, WebViewFunctorManager.onContextDestroyed_loop, hstep, bind,
      Except.bind, hrec]
    simp [List.flatMap_cons]

theorem filter_isOnContextDestroyed_contextEvents (grContext : Bool)
    (l : List WebViewFunctor) :
    (l.flatMap (contextEvents grContext)).filter Event.isOnContextDestroyed =
      (l.filter (fun f => f.mHasContext)).map
        (fun f => Event.onContextDestroyed f.mFunctor f.mData) := by
  induction l with
  | nil => rfl
  | cons f l ih =>
    rw [List.flatMap_cons, List.filter_append, ih]
    unfold contextEvents
    cases hf : f.mHasContext <;> cases grContext <;>
      simp [List.filter, Event.isOnContextDestroyed, hf]

theorem count_contextEvents_other (grContext : Bool) (l : List WebViewFunctor)
    (f : WebViewFunctor) (h : f.mFunctor ∉ l.map (fun g => g.mFunctor)) :
    (l.flatMap (contextEvents grContext)).count
      (Event.onContextDestroyed f.mFunctor f.mData) = 0 := by
  induction l with
  | nil => rfl
  | cons g l ih =>
    have hg : ¬ g.mFunctor = f.mFunctor := fun he => h (by simp [he])
    have hl : f.mFunctor ∉ l.map (fun g => g.mFunctor) := fun hm => h (by simp at hm ⊢; simp [hm])
    rw [List.flatMap_cons, List.count_append, ih hl]
    unfold contextEvents
    cases g.mHasContext <;> cases grContext <;> simp [List.count_cons, hg]

theorem count_contextEvents_self (grContext : Bool) (f : WebViewFunctor) :
    (contextEvents grContext f).count (Event.onContextDestroyed f.mFunctor f.mData) =
      if f.mHasContext then 1 else 0 := by
  unfold contextEvents
  cases f.mHasContext <;> cases grContext <;> simp [List.count_cons]

theorem count_contextEvents (grContext : Bool) (l : List WebViewFunctor)
    (hn : (l.map (fun g => g.mFunctor)).Nodup) (f : WebViewFunctor) (hf : f ∈ l) :
    (l.flatMap (contextEvents grContext)).count
      (Event.onContextDestroyed f.mFunctor f.mData) = if f.mHasContext then 1 else 0 := by
  induction l with
  | nil => cases hf
  | cons g l ih =>
    rw [List.map_cons, List.nodup_cons] at hn
    rw [List.flatMap_cons, List.count_append]
    rcases List.mem_cons.1 hf with he | hm
    · subst he
      rw [count_contextEvents_self, count_contextEvents_other grContext l f hn.1]
      simp
    · have hne : ¬ g.mFunctor = f.mFunctor := fun he =>
        hn.1 (he ▸ List.mem_map_of_mem (fun g => g.mFunctor) hm)
      have h0 : (contextEvents grContext g).count
          (Event.onContextDestroyed f.mFunctor f.mData) = 0 := by
        unfold contextEvents
        cases g.mHasContext <;> cases grContext <;> simp [List.count_cons, hne]
      rw [h0, ih hn.2 hm]
      simp

/-- C18: in a state whose functors are distinct objects and whose functors with
a context have the `onContextDestroyed` entry, the manager's
`onContextDestroyed()` returns; it calls `destroyContext()` on every functor of
the all-functors registry, released ones included: afterwards the registry is
the old one with `mHasContext` cleared in every functor, so no registered
functor has a context and the addresses and ids are the same; the active
registry is unchanged; the events added are, functor by functor in registry
order, the `onContextDestroyed` callback (and the reset of the GPU context)
for the functors that had a context and nothing for the others. When the ids
are distinct, the callback of each registered functor ran once when it had a
context and not at all otherwise. -/
theorem onContextDestroyed_destroys_every_context (p : Process)
    (haddr : (p.mFunctors.map (fun f => f.addr)).Nodup)
    (hcb : ∀ f ∈ p.mFunctors,
      f.mHasContext = true → f.mCallbacks.onContextDestroyed.isSome = true) :
    ∃ p' added, WebViewFunctorManager.onContextDestroyed p = .ok p' ∧
      p'.mFunctors = p.mFunctors.map (fun f => { f with mHasContext := false }) ∧
      (∀ f ∈ p'.mFunctors, f.mHasContext = false) ∧
      p'.identities = p.identities ∧
      p'.mActiveFunctors = p.mActiveFunctors ∧
      p'.events = p.events ++ added ∧
      added = p.mFunctors.flatMap (contextEvents p.grContext) ∧
      added.filter Event.isOnContextDestroyed =
        (p.mFunctors.filter (fun f => f.mHasContext)).map
          (fun f => Event.onContextDestroyed f.mFunctor f.mData) ∧
      ((p.mFunctors.map (fun f => f.mFunctor)).Nodup →
        ∀ f ∈ p.mFunctors,
          added.count (Event.onContextDestroyed f.mFunctor f.mData) =
            if f.mHasContext then 1 else 0) := by
  have h := onContextDestroyed_loop_eq p.mFunctors [] p (by simp) (by simpa using haddr) hcb
  refine ⟨_, p.mFunctors.flatMap (contextEvents p.grContext), h, ?_, ?_, ?_, rfl, rfl, rfl,
    filter_isOnContextDestroyed_contextEvents _ _, ?_⟩
  · simp
  · intro f hf
    simp only [List.nil_append, List.mem_map] at hf
    obtain ⟨g, -, rfl⟩ := hf
    rfl
  · simp [Process.identities, List.map_map, Function.comp_def]
  · intro hn f hf
    exact count_contextEvents p.grContext p.mFunctors hn f hf

theorem onContextDestroyed_destroys_every_context_witness :
    (∃ p' added, WebViewFunctorManager.onContextDestroyed contextLossProcess = .ok p' ∧
      p'.mFunctors =
        contextLossProcess.mFunctors.map (fun f => { f with mHasContext := false }) ∧
      (∀ f ∈ p'.mFunctors, f.mHasContext = false) ∧
      p'.identities = contextLossProcess.identities ∧
      p'.mActiveFunctors = contextLossProcess.mActiveFunctors ∧
      p'.events = contextLossProcess.events ++ added ∧
      added = contextLossProcess.mFunctors.flatMap
        (contextEvents contextLossProcess.grContext) ∧
      added.filter Event.isOnContextDestroyed =
        (contextLossProcess.mFunctors.filter (fun f => f.mHasContext)).map
          (fun f => Event.onContextDestroyed f.mFunctor f.mData) ∧
      ((contextLossProcess.mFunctors.map (fun f => f.mFunctor)).Nodup →
        ∀ f ∈ contextLossProcess.mFunctors,
          added.count (Event.onContextDestroyed f.mFunctor f.mData) =
            if f.mHasContext then 1 else 0)) ∧
    WebViewFunctorManager.onContextDestroyed contextLossProcess =
      .ok { contextLossProcess with
        mFunctors := [sampleFunctor, secondFunctor, releasedFunctor],
        events := [Event.onContextDestroyed 1 7, Event.resetContext,
          Event.onContextDestroyed 3 9, Event.resetContext] } :=
  ⟨onContextDestroyed_destroys_every_context contextLossProcess (by decide) (by decide),
    rfl⟩

end contextLoss

section concurrent

theorem onContextDestroyed_loop_within (rest : List WebViewFunctor) :
    ∀ (done tail : List WebViewFunctor) (q : Process),
      q.mFunctors = done ++ (rest ++ tail) →
      ((done ++ (rest ++ tail)).map (fun f => f.addr)).Nodup →
      (∀ f ∈ rest, f.mHasContext = true → f.mCallbacks.onContextDestroyed.isSome = true) →
      WebViewFunctorManager.onContextDestroyed_loop (rest.map (fun f => f.addr)) q =
        .ok { q with
          mFunctors := done ++ (rest.map (fun f => { f with mHasContext := false }) ++ tail),
          events := q.events ++ rest.flatMap (contextEvents q.grContext) } := by
  induction rest with
  | nil =>
    intro done tail q hq _ _
    cases q
    simp_all [WebViewFunctorManager.onContextDestroyed_loop]
  | cons f rest ih =>
    intro done tail q hq hn hcb
    have hn' : (done.map (fun f => f.addr) ++
        f.addr :: (rest ++ tail).map (fun f => f.addr)).Nodup := by
      simpa using hn
    obtain ⟨-, hfr, hdisj⟩ := List.nodup_append.1 hn'
    have h1 : ∀ g ∈ done, g.addr ≠ f.addr := fun g hg he =>
      hdisj (List.mem_map_of_mem (fun f => f.addr) hg) (he ▸ List.mem_cons_self _ _)
    have h2 : ∀ g ∈ rest ++ tail, g.addr ≠ f.addr := fun g hg he =>
      (List.nodup_cons.1 hfr).1 (he ▸ List.mem_map_of_mem (fun f => f.addr) hg)
    have hstep := destroyContextAt_eq q done (rest ++ tail) f hq h1 h2
      (hcb f (List.mem_cons_self _ _))
    have hrec := ih (done ++ [{ f with mHasContext := false }]) tail
      { q with
        mFunctors := done ++ { f with mHasContext := false } :: (rest ++ tail),
        events := q.events ++ contextEvents q.grContext f }
      (by simp) (by simpa using hn) (fun g hg => hcb g (List.mem_cons_of_mem _ hg))
    simp only [List.map_cons, WebViewFunctorManager.onContextDestroyed_loop, hstep, bind,
      Except.bind, hrec]
    simp [List.flatMap_cons]

theorem validateCallbacks_frame (p q : Process) (callbacks : WebViewFunctorCallbacks)
    (h : q.pipelineType = p.pipelineType) :
    validateCallbacks q callbacks = validateCallbacks p callbacks := by
  unfold validateCallbacks WebViewFunctor_queryPlatformRenderMode
  rw [h]

theorem onContextDestroyed_concurrent_eq (p : Process)
    (insertion : WebViewFunctorManager.Insertion) (data : Nat)
    (callbacks : WebViewFunctorCallbacks) (functorMode : RenderMode)
    (haddr : (p.mFunctors.map (fun f => f.addr)).Nodup)
    (hbelow : ∀ f ∈ p.mFunctors, f.addr < p.heapNext)
    (hcb : ∀ f ∈ p.mFunctors,
      f.mHasContext = true → f.mCallbacks.onContextDestroyed.isSome = true)
    (hv : validateCallbacks p callbacks = .ok ()) :
    WebViewFunctorManager.onContextDestroyed_concurrent p insertion data callbacks
        functorMode =
      .ok (p.sNextId,
        { p with
          heapNext := p.heapNext + 1,
          sNextId := wrapInt32 (p.sNextId + 1),
          mActiveFunctors := p.mActiveFunctors ++ [{ mReference := p.heapNext }],
          mFunctors := p.mFunctors.map (fun f => { f with mHasContext := false }) ++ [
            { addr := p.heapNext, mCallbacks := callbacks, mData := data,
              mFunctor := p.sNextId, mMode := functorMode, mCreatedHandle := true }],
          events := p.events ++ p.mFunctors.flatMap (contextEvents p.grContext) }) := by
  have hnodup : ∀ l1 l2 : List WebViewFunctor, l1 ++ l2 = p.mFunctors →
      ((l1.map (fun f : WebViewFunctor => { f with mHasContext := false }) ++ (l2 ++ [
      ({ addr := p.heapNext, mCallbacks := callbacks, mData := data,
         mFunctor := p.sNextId, mMode := functorMode, mCreatedHandle := true } :
        WebViewFunctor)])).map (fun f : WebViewFunctor => f.addr)).Nodup := by
    intro l1 l2 hl
    have hmap : (l1.map (fun f : WebViewFunctor => { f with mHasContext := false }) ++ (l2 ++ [
        ({ addr := p.heapNext, mCallbacks := callbacks, mData := data,
           mFunctor := p.sNextId, mMode := functorMode, mCreatedHandle := true } :
          WebViewFunctor)])).map (fun f : WebViewFunctor => f.addr) =
        p.mFunctors.map (fun f => f.addr) ++ [p.heapNext] := by
      rw [← hl]
      simp [List.map_map, Function.comp_def]
    rw [hmap, List.nodup_append]
    refine ⟨haddr, by simp, ?_⟩
    intro a ha hb
    simp only [List.mem_singleton] at hb
    simp only [List.mem_map] at ha
    obtain ⟨f, hf, rfl⟩ := ha
    exact Nat.ne_of_lt (hbelow f hf) hb
  cases insertion with
  | beforeSnapshot =>
    have hloop := onContextDestroyed_loop_eq (p.mFunctors ++ [
        ({ addr := p.heapNext, mCallbacks := callbacks, mData := data,
           mFunctor := p.sNextId, mMode := functorMode, mCreatedHandle := true } :
          WebViewFunctor)]) []
      { p with
        heapNext := p.heapNext + 1,
        sNextId := wrapInt32 (p.sNextId + 1),
        mActiveFunctors := p.mActiveFunctors ++ [{ mReference := p.heapNext }],
        mFunctors := p.mFunctors ++ [
          { addr := p.heapNext, mCallbacks := callbacks, mData := data,
            mFunctor := p.sNextId, mMode := functorMode, mCreatedHandle := true }] }
      (by simp) (by simpa using hnodup [] p.mFunctors rfl)
      (by
        intro f hf hc
        rcases List.mem_append.1 hf with hf | hf
        · exact hcb f hf hc
        · simp only [List.mem_singleton] at hf
          subst hf
          cases hc)
    unfold WebViewFunctorManager.onContextDestroyed_concurrent
      WebViewFunctorManager.onContextDestroyed
    simp only [createFunctor_eq_ok hv, bind, Except.bind, hloop]
    simp [contextEvents]
  | afterSnapshot calls =>
    have hfirst := onContextDestroyed_loop_within (p.mFunctors.take calls) []
      (p.mFunctors.drop calls) p (by simp) (by simpa using haddr)
      (fun f hf => hcb f (List.mem_of_mem_take hf))
    have hv' : validateCallbacks
        { p with
          mFunctors := [] ++ ((p.mFunctors.take calls).map
            (fun f => { f with mHasContext := false }) ++ p.mFunctors.drop calls),
          events := p.events ++ (p.mFunctors.take calls).flatMap (contextEvents p.grContext) }
        callbacks = .ok () :=
      (validateCallbacks_frame p _ callbacks rfl).trans hv
    have hsecond := onContextDestroyed_loop_within (p.mFunctors.drop calls)
      ((p.mFunctors.take calls).map (fun f => { f with mHasContext := false }))
      [({ addr := p.heapNext, mCallbacks := callbacks, mData := data,
          mFunctor := p.sNextId, mMode := functorMode, mCreatedHandle := true } :
        WebViewFunctor)]
      { p with
        heapNext := p.heapNext + 1,
        sNextId := wrapInt32 (p.sNextId + 1),
        mActiveFunctors := p.mActiveFunctors ++ [{ mReference := p.heapNext }],
        mFunctors := (p.mFunctors.take calls).map (fun f => { f with mHasContext := false }) ++
          (p.mFunctors.drop calls ++ [
          { addr := p.heapNext, mCallbacks := callbacks, mData := data,
            mFunctor := p.sNextId, mMode := functorMode, mCreatedHandle := true }]),
        events := p.events ++ (p.mFunctors.take calls).flatMap (contextEvents p.grContext) }
      rfl (hnodup _ _ (List.take_append_drop calls p.mFunctors))
      (fun f hf => hcb f (List.mem_of_mem_drop hf))
    have hlist : p.mFunctors.map (fun f => { f with mHasContext := false }) =
        (p.mFunctors.take calls).map (fun f => { f with mHasContext := false }) ++
          (p.mFunctors.drop calls).map (fun f => { f with mHasContext := false }) := by
      rw [← List.map_append, List.take_append_drop]
    have hflat : p.mFunctors.flatMap (contextEvents p.grContext) =
        (p.mFunctors.take calls).flatMap (contextEvents p.grContext) ++
          (p.mFunctors.drop calls).flatMap (contextEvents p.grContext) := by
      rw [← List.flatMap_append, List.take_append_drop]
    unfold WebViewFunctorManager.onContextDestroyed_concurrent
    simp only [← List.map_take, ← List.map_drop, hfirst, bind, Except.bind,
      createFunctor_eq_ok hv']
    simp only [List.nil_append, List.append_assoc]
    rw [hsecond, hlist, hflat]
    simp
    rw [← List.append_assoc, List.take_append_drop]

/-- C20: in a state whose functors are distinct objects below the allocation
pointer and whose functors with a context have the `onContextDestroyed` entry,
let `onContextDestroyed()` run while another thread makes a `createFunctor`
call whose callback table passes validation, the locked block of that call
falling before the snapshot or after it, between any two `destroyContext`
calls of the second loop. In every such order the run returns the new id: no
call goes through a pointer whose object is gone. Afterwards the all-functors
registry is the old one with `mHasContext` cleared in every functor, followed
by the new functor; the active registry is the old one followed by the handle
of the new functor, which refers to it; and the events added are those of
`onContextDestroyed()` alone. -/
theorem createFunctor_during_onContextDestroyed (p : Process)
    (insertion : WebViewFunctorManager.Insertion) (data : Nat)
    (callbacks : WebViewFunctorCallbacks) (functorMode : RenderMode)
    (haddr : (p.mFunctors.map (fun f => f.addr)).Nodup)
    (hbelow : ∀ f ∈ p.mFunctors, f.addr < p.heapNext)
    (hcb : ∀ f ∈ p.mFunctors,
      f.mHasContext = true → f.mCallbacks.onContextDestroyed.isSome = true)
    (hv : validateCallbacks p callbacks = .ok ()) :
    ∃ p' object,
      WebViewFunctorManager.onContextDestroyed_concurrent p insertion data callbacks
        functorMode = .ok (p.sNextId, p') ∧
      object = { addr := p.heapNext, mCallbacks := callbacks, mData := data,
                 mFunctor := p.sNextId, mMode := functorMode, mCreatedHandle := true } ∧
      p'.mFunctors = p.mFunctors.map (fun f => { f with mHasContext := false }) ++ [object] ∧
      p'.mActiveFunctors = p.mActiveFunctors ++ [{ mReference := p.heapNext }] ∧
      Handle.deref { mReference := p.heapNext } p' = .ok object ∧
      p'.events = p.events ++ p.mFunctors.flatMap (contextEvents p.grContext) := by
  have hkey := onContextDestroyed_concurrent_eq p insertion data callbacks functorMode haddr
    hbelow hcb hv
  have hfresh : ∀ g ∈ p.mFunctors.map (fun f => { f with mHasContext := false }),
      g.addr ≠ p.heapNext := by
    intro g hg
    simp only [List.mem_map] at hg
    obtain ⟨f, hf, rfl⟩ := hg
    exact Nat.ne_of_lt (hbelow f hf)
  have hderef : ∀ (q : Process) (object : WebViewFunctor),
      object.addr = p.heapNext →
      q.mFunctors = p.mFunctors.map (fun f => { f with mHasContext := false }) ++ [object] →
      Handle.deref { mReference := p.heapNext } q = .ok object := by
    intro q object ha hq
    unfold Handle.deref
    have := find_addr_split (p.mFunctors.map (fun f => { f with mHasContext := false })) []
      object (fun g hg => ha ▸ hfresh g hg)
    rw [ha] at this
    simp only [hq, this]
  exact ⟨_, _, hkey, rfl, rfl, rfl, hderef _ _ rfl rfl, rfl⟩

theorem createFunctor_during_onContextDestroyed_witness :
    (∃ p' object,
      WebViewFunctorManager.onContextDestroyed_concurrent contextLossProcess
        (.afterSnapshot 1) 11 fullCallbacks .OpenGL_ES = .ok (contextLossProcess.sNextId, p') ∧
      object = { addr := contextLossProcess.heapNext, mCallbacks := fullCallbacks, mData := 11,
                 mFunctor := contextLossProcess.sNextId, mMode := .OpenGL_ES,
                 mCreatedHandle := true } ∧
      p'.mFunctors =
        contextLossProcess.mFunctors.map (fun f => { f with mHasContext := false }) ++
          [object] ∧
      p'.mActiveFunctors =
        contextLossProcess.mActiveFunctors ++ [{ mReference := contextLossProcess.heapNext }] ∧
      Handle.deref { mReference := contextLossProcess.heapNext } p' = .ok object ∧
      p'.events = contextLossProcess.events ++
        contextLossProcess.mFunctors.flatMap (contextEvents contextLossProcess.grContext)) ∧
    WebViewFunctorManager.onContextDestroyed_concurrent contextLossProcess
        (.afterSnapshot 1) 11 fullCallbacks .OpenGL_ES =
      .ok (4, { contextLossProcess with
        sNextId := 5, heapNext := 4,
        mFunctors := [sampleFunctor, secondFunctor, releasedFunctor,
          { addr := 3, mCallbacks := fullCallbacks, mData := 11, mFunctor := 4,
            mMode := .OpenGL_ES, mCreatedHandle := true }],
        mActiveFunctors := [{ mReference := 0 }, { mReference := 1 }, { mReference := 3 }],
        events := [Event.onContextDestroyed 1 7, Event.resetContext,
          Event.onContextDestroyed 3 9, Event.resetContext] }) :=
  ⟨createFunctor_during_onContextDestroyed contextLossProcess (.afterSnapshot 1) 11
      fullCallbacks .OpenGL_ES (by decide) (by decide) (by decide) rfl,
    rfl⟩

end concurrent

section acceptance

theorem validateCallbacks_ok_query {p : Process} {callbacks : WebViewFunctorCallbacks}
    (h : validateCallbacks p callbacks = .ok ()) :
    ∃ platform, WebViewFunctor_queryPlatformRenderMode p = .ok platform := by
  cases hq : WebViewFunctor_queryPlatformRenderMode p with
  | ok platform => exact ⟨platform, rfl⟩
  | error e =>
    exfalso
    unfold validateCallbacks LOG_ALWAYS_FATAL_IF at h
    rw [hq] at h
    cases h1 : callbacks.onSync <;> cases h2 : callbacks.onContextDestroyed <;>
      cases h3 : callbacks.onDestroyed <;> cases h4 : callbacks.removeOverlays <;>
      simp [h1, h2, h3, h4, bind, Except.bind] at h

theorem WebViewFunctor_create_accepted {p p' : Process} {data : Nat}
    {prototype : WebViewFunctorCallbacks} {functorMode : RenderMode} {id : Int}
    (h : WebViewFunctor_create p data prototype functorMode = .ok (id, p'))
    (hid : 0 ≤ id) :
    (functorMode = .OpenGL_ES ∨
      functorMode = .Vulkan ∧ WebViewFunctor_queryPlatformRenderMode p = .ok .Vulkan) ∧
    WebViewFunctorManager.createFunctor p data prototype functorMode = .ok (id, p') := by
  cases functorMode with
  | OpenGL_ES =>
    refine ⟨Or.inl rfl, ?_⟩
    simpa [WebViewFunctor_create] using h
  | Vulkan =>
    cases hq : WebViewFunctor_queryPlatformRenderMode p with
    | error e =>
      simp [WebViewFunctor_create, hq, bind, Except.bind, Functor.map, Except.map] at h
    | ok platform =>
      by_cases hp : platform = .Vulkan
      · subst hp
        refine ⟨Or.inr ⟨rfl, rfl⟩, ?_⟩
        simpa [WebViewFunctor_create, hq, bind, Except.bind, Functor.map, Except.map] using h
      · exfalso
        simp [WebViewFunctor_create, hq, bind, Except.bind, Functor.map, Except.map, hp] at h
        omega
  | other raw =>
    exfalso
    simp [WebViewFunctor_create] at h
    omega

/-- What validation gives for an accepted functor, whatever the layout of the
table: when `WebViewFunctor_create` returns a non-negative id, the
platform has a render mode, the functor registered under that id carries the
given table and mode, the mode is OpenGL-ES or Vulkan, a Vulkan functor is on a
Vulkan platform, and the table has `onSync`, `onContextDestroyed`,
`onDestroyed`, `removeOverlays` and the entries of the platform's backend:
`gles.draw` on an OpenGL-ES platform, `vk.initialize`, `vk.draw` and
`vk.postDraw` on a Vulkan platform. So for a functor with this table, called
outside a guarded callback, `sync`, `destroyContext`, `removeOverlays` and the
destructor return, `drawGl` returns on an OpenGL-ES platform, and `initVk`,
`drawVk` and `postDrawVk` return on a Vulkan platform. -/
theorem accepted_platform_entries (p p' : Process) (data : Nat)
    (prototype : WebViewFunctorCallbacks) (functorMode : RenderMode) (id : Int)
    (h : WebViewFunctor_create p data prototype functorMode = .ok (id, p'))
    (hid : 0 ≤ id) :
    ∃ platform object,
      WebViewFunctor_queryPlatformRenderMode p = .ok platform ∧
      p'.mFunctors = p.mFunctors ++ [object] ∧ object.mFunctor = id ∧
      object.mCallbacks = prototype ∧ object.mMode = functorMode ∧
      (functorMode = .OpenGL_ES ∨ functorMode = .Vulkan) ∧
      (functorMode = .Vulkan → platform = .Vulkan) ∧
      prototype.onSync.isSome = true ∧ prototype.onContextDestroyed.isSome = true ∧
      prototype.onDestroyed.isSome = true ∧ prototype.removeOverlays.isSome = true ∧
      (platform = .OpenGL_ES → prototype.gles.draw.isSome = true) ∧
      (platform = .Vulkan → prototype.vk.init.isSome = true ∧
        prototype.vk.draw.isSome = true ∧ prototype.vk.postDraw.isSome = true) ∧
      ∀ (f : WebViewFunctor) (q : Process), f.mCallbacks = prototype →
        (q.LOG_NDEBUG = true ∨ q.sCurrentFunctor = none) →
        (∃ q', f.sync q = .ok q') ∧ (∃ r, f.destroyContext q = .ok r) ∧
        (∃ r, f.removeOverlays q = .ok r) ∧ (∃ q', f.destruct q = .ok q') ∧
        (platform = .OpenGL_ES → ∀ drawInfo, ∃ r, f.drawGl q drawInfo = .ok r) ∧
        (platform = .Vulkan →
          (∃ r, f.initVk q = .ok r) ∧ (∀ params, ∃ r, f.drawVk q params = .ok r) ∧
          (∃ q', f.postDrawVk q = .ok q')) := by
  obtain ⟨hmode, hcreate⟩ := WebViewFunctor_create_accepted h hid
  have hv : validateCallbacks p prototype = .ok () := by
    cases hv : validateCallbacks p prototype with
    | ok u => rfl
    | error e => rw [createFunctor_eq_error hv] at hcreate; cases hcreate
  obtain ⟨platform, hq⟩ := validateCallbacks_ok_query hv
  obtain ⟨h1, h2, h3, h4, hgl, hvk⟩ := (validateCallbacks_eq_ok_iff p prototype platform hq).1 hv
  rw [createFunctor_eq_ok hv] at hcreate
  simp only [Except.ok.injEq, Prod.mk.injEq] at hcreate
  obtain ⟨hid', hp'⟩ := hcreate
  subst hp'
  refine ⟨platform, _, hq, rfl, hid', rfl, rfl, ?_, ?_, h1, h2, h3, h4, hgl, hvk, ?_⟩
  · rcases hmode with hm | ⟨hm, -⟩
    · exact Or.inl hm
    · exact Or.inr hm
  · intro hm
    rcases hmode with hm' | ⟨-, hq'⟩
    · rw [hm] at hm'
      cases hm'
    · rw [hq] at hq'
      simpa using hq'
  · intro f q hf hguard
    subst hf
    have hmand : f.mCallbacks.mandatoryPresent = true := by
      simp [WebViewFunctorCallbacks.mandatoryPresent, h1, h2, h3, h4]
    refine ⟨⟨_, invoke_eq_ok _ q h1⟩, ⟨_, destroyContext_eq f q (fun _ => h2)⟩, ?_, ?_, ?_, ?_⟩
    · obtain ⟨evs, he⟩ := removeOverlays_eq f q hguard h4
      exact ⟨_, he⟩
    · obtain ⟨q', evs, he, -⟩ := destruct_eq f q hguard hmand
      exact ⟨q', he⟩
    · intro hp drawInfo
      obtain ⟨self', evs, he, -⟩ := drawGl_spec f q drawInfo hguard (hgl hp)
      exact ⟨_, he⟩
    · intro hp
      obtain ⟨hv1, hv2, hv3⟩ := hvk hp
      refine ⟨⟨_, initVk_spec f q (fun _ => hv1)⟩, ?_, ⟨_, invoke_eq_ok _ q hv3⟩⟩
      intro params
      obtain ⟨self', evs, he, -⟩ := drawVk_spec f q params hguard hv2
      exact ⟨_, he⟩

/-- C17: for a callback table laid out as the header declares it (`gles` and
`vk` share their storage), when `WebViewFunctor_create` returns a non-negative
id, the functor registered under that id carries the table and the mode, and
every entry its operations invoke is present: `onSync`, `onContextDestroyed`,
`onDestroyed`, `removeOverlays`, and `gles.draw` for an OpenGL-ES functor or
`vk.initialize`, `vk.draw` and `vk.postDraw` for a Vulkan functor. So on a
functor with this table, called outside a guarded callback, `sync`,
`destroyContext`, `removeOverlays` and the destructor return, `drawGl` returns
for an OpenGL-ES functor, and `initVk`, `drawVk` and `postDrawVk` return for a
Vulkan functor: no later call meets a missing entry. -/
theorem accepted_entries_present (p p' : Process) (data : Nat)
    (prototype : WebViewFunctorCallbacks) (functorMode : RenderMode) (id : Int)
    (hlayout : prototype.Overlaid)
    (h : WebViewFunctor_create p data prototype functorMode = .ok (id, p'))
    (hid : 0 ≤ id) :
    ∃ object,
      p'.mFunctors = p.mFunctors ++ [object] ∧ object.mFunctor = id ∧
      object.mCallbacks = prototype ∧ object.mMode = functorMode ∧
      (functorMode = .OpenGL_ES ∨ functorMode = .Vulkan) ∧
      prototype.onSync.isSome = true ∧ prototype.onContextDestroyed.isSome = true ∧
      prototype.onDestroyed.isSome = true ∧ prototype.removeOverlays.isSome = true ∧
      (functorMode = .OpenGL_ES → prototype.gles.draw.isSome = true) ∧
      (functorMode = .Vulkan → prototype.vk.init.isSome = true ∧
        prototype.vk.draw.isSome = true ∧ prototype.vk.postDraw.isSome = true) ∧
      ∀ (f : WebViewFunctor) (q : Process), f.mCallbacks = prototype →
        (q.LOG_NDEBUG = true ∨ q.sCurrentFunctor = none) →
        (∃ q', f.sync q = .ok q') ∧ (∃ r, f.destroyContext q = .ok r) ∧
        (∃ r, f.removeOverlays q = .ok r) ∧ (∃ q', f.destruct q = .ok q') ∧
        (functorMode = .OpenGL_ES → ∀ drawInfo, ∃ r, f.drawGl q drawInfo = .ok r) ∧
        (functorMode = .Vulkan →
          (∃ r, f.initVk q = .ok r) ∧ (∀ params, ∃ r, f.drawVk q params = .ok r) ∧
          (∃ q', f.postDrawVk q = .ok q')) := by
  obtain ⟨platform, object, hq, hfs, hoid, hocb, hom, hmode, hvulkan, h1, h2, h3, h4, hgl, hvk,
    hops⟩ := accepted_platform_entries p p' data prototype functorMode id h hid
  have hplat : platform = .OpenGL_ES ∨ platform = .Vulkan := by
    unfold WebViewFunctor_queryPlatformRenderMode at hq
    split at hq <;> simp_all
  have hdraw : prototype.gles.draw.isSome = true := by
    rcases hplat with hp | hp
    · exact hgl hp
    · rw [hlayout]
      exact (hvk hp).1
  refine ⟨object, hfs, hoid, hocb, hom, hmode, h1, h2, h3, h4, fun _ => hdraw,
    fun hm => hvk (hvulkan hm), ?_⟩
  intro f q hf hguard
  obtain ⟨hs1, hs2, hs3, hs4, -, hvkops⟩ := hops f q hf hguard
  refine ⟨hs1, hs2, hs3, hs4, ?_, fun hm => hvkops (hvulkan hm)⟩
  intro _ drawInfo
  obtain ⟨self', evs, he, -⟩ := drawGl_spec f q drawInfo hguard (hf ▸ hdraw)
  exact ⟨_, he⟩

theorem accepted_entries_present_witness :
    ∃ object : WebViewFunctor,
      object.mFunctor = 1 ∧ object.mCallbacks = fullCallbacks ∧ object.mMode = .OpenGL_ES ∧
      (RenderMode.OpenGL_ES = .OpenGL_ES → fullCallbacks.gles.draw.isSome = true) ∧
      ∀ drawInfo, ∃ r, object.drawGl (freshProcess .SkiaVulkan) drawInfo = .ok r := by
  obtain ⟨object, -, hid, hcb, hm, -, -, -, -, -, hgl, -, hops⟩ :=
    accepted_entries_present (freshProcess .SkiaVulkan) _ 7 fullCallbacks .OpenGL_ES 1
      rfl rfl (by decide)
  exact ⟨object, hid, hcb, hm, hgl,
    (hops object (freshProcess .SkiaVulkan) hcb (Or.inr rfl)).2.2.2.2.1 rfl⟩

end acceptance

section guard

theorem enter_eq_fatal {p : Process} (functor : Option Nat) (hdebug : p.LOG_NDEBUG = false)
    (hslot : p.sCurrentFunctor.isSome = true) :
    ScopedCurrentFunctor.enter p functor = .error (.fatal "assertion failed") := by
  cases hs : p.sCurrentFunctor with
  | none => simp [hs] at hslot
  | some a =>
    simp [ScopedCurrentFunctor.enter, ALOG_ASSERT, LOG_ALWAYS_FATAL_IF, hdebug, hs, bind,
      Except.bind]

/-- C19, as stated, fails in a build that compiles `ALOG_ASSERT` out: a `drawGl`
call that starts while the slot holds another functor runs the draw callback
and returns, leaving the slot empty. -/
theorem nested_draw_runs_without_assertions :
    ∃ self' p',
      nestedProcess.sCurrentFunctor = some 9 ∧
      sampleFunctor.drawGl nestedProcess { isLayer := false } = .ok (self', p') ∧
      p'.events = [Event.glesDraw 1 7 { isLayer := false } .Disabled] ∧
      p'.sCurrentFunctor = none :=
  ⟨_, _, rfl, rfl, rfl, rfl⟩

theorem static_mergeTransaction_held (p : Process) (current : WebViewFunctor)
    (transaction : Option Transaction) (hslot : p.sCurrentFunctor = some current.addr) :
    ScopedCurrentFunctor.mergeTransaction p current transaction =
      .ok (current.mergeTransaction p transaction) := by
  unfold ScopedCurrentFunctor.mergeTransaction
  cases hd : p.LOG_NDEBUG <;>
    simp [ALOG_ASSERT, LOG_ALWAYS_FATAL_IF, hslot, hd, bind, Except.bind]

theorem static_mergeTransaction_empty (p : Process) (current : WebViewFunctor)
    (transaction : Option Transaction) (hslot : p.sCurrentFunctor = none) :
    ScopedCurrentFunctor.mergeTransaction p current transaction =
      .error (if p.LOG_NDEBUG then .undefinedBehaviour "call through a null sCurrentFunctor"
        else .fatal "assertion failed") := by
  unfold ScopedCurrentFunctor.mergeTransaction
  cases hd : p.LOG_NDEBUG <;>
    simp [ALOG_ASSERT, LOG_ALWAYS_FATAL_IF, hslot, hd, bind, Except.bind]

theorem static_mergeTransaction_dangling (p : Process) (current : WebViewFunctor)
    (transaction : Option Transaction) (functor : Nat)
    (hslot : p.sCurrentFunctor = some functor) (hne : functor ≠ current.addr)
    (hfree : ∀ f ∈ p.mFunctors, f.addr ≠ functor) :
    ScopedCurrentFunctor.mergeTransaction p current transaction =
      .error (.undefinedBehaviour "call through a dangling sCurrentFunctor") := by
  have hfind : p.mFunctors.find? (fun f => f.addr == functor) = none := by
    rw [List.find?_eq_none]
    intro f hf
    simpa using hfree f hf
  unfold ScopedCurrentFunctor.mergeTransaction
  cases hd : p.LOG_NDEBUG <;>
    simp [ALOG_ASSERT, LOG_ALWAYS_FATAL_IF, hslot, hd, bind, Except.bind, hne, hfind]

theorem mergeTransaction_requestEvents (self : WebViewFunctor) (p : Process)
    (transaction : Option Transaction) :
    self.mergeTransaction p transaction =
      { p with events := p.events ++
          requestEvents p.activeContext self.mSurfaceControl [transaction] } := by
  cases transaction with
  | none => simp [WebViewFunctor.mergeTransaction, requestEvents]
  | some t => rw [mergeTransaction_eq]; simp [requestEvents]

theorem mergeTransaction_each_held (current : WebViewFunctor)
    (requests : List (Option Transaction)) :
    ∀ p : Process, p.sCurrentFunctor = some current.addr →
      ScopedCurrentFunctor.mergeTransaction_each current requests p =
        .ok { p with events := p.events ++
          requestEvents p.activeContext current.mSurfaceControl requests } := by
  induction requests with
  | nil =>
    intro p _
    simp [ScopedCurrentFunctor.mergeTransaction_each, requestEvents]
  | cons transaction rest ih =>
    intro p hslot
    have hrec := ih
      { p with
        events := p.events ++
          requestEvents p.activeContext current.mSurfaceControl [transaction] } hslot
    simp only [ScopedCurrentFunctor.mergeTransaction_each,
      static_mergeTransaction_held p current transaction hslot, bind, Except.bind,
      mergeTransaction_requestEvents, hrec]
    simp [requestEvents, List.flatMap_cons]

theorem mergeTransaction_each_nil (current : WebViewFunctor) (p : Process) :
    ScopedCurrentFunctor.mergeTransaction_each current [] p = .ok p := rfl

theorem invokeWith_nil (fn : Option Nat) (ev : Event) (current : WebViewFunctor) (p : Process) :
    invokeWith fn ev current [] p = invoke fn ev p := by
  unfold invokeWith
  cases h : invoke fn ev p <;> simp [bind, Except.bind, ScopedCurrentFunctor.mergeTransaction_each]

theorem invokeWith_held {fn : Option Nat} (ev : Event) (current : WebViewFunctor)
    (requests : List (Option Transaction)) (p : Process) (hcb : fn.isSome = true)
    (hslot : p.sCurrentFunctor = some current.addr) :
    invokeWith fn ev current requests p =
      .ok { p with events := p.events ++ [ev] ++
        requestEvents p.activeContext current.mSurfaceControl requests } := by
  unfold invokeWith
  simp only [invoke_eq_ok ev p hcb, bind, Except.bind]
  exact mergeTransaction_each_held current requests
    { p with events := p.events ++ [ev] } hslot

theorem drawGlWith_nil (self : WebViewFunctor) (p : Process) (drawInfo : DrawGlInfo) :
    self.drawGlWith p drawInfo [] = self.drawGl p drawInfo := by
  unfold WebViewFunctor.drawGlWith WebViewFunctor.drawGl
  simp only [invokeWith_nil]

theorem drawVkWith_nil (self : WebViewFunctor) (p : Process) (params : VkFunctorDrawParams) :
    self.drawVkWith p params [] = self.drawVk p params := by
  unfold WebViewFunctor.drawVkWith WebViewFunctor.drawVk
  simp only [invokeWith_nil]

theorem removeOverlaysWith_nil (self : WebViewFunctor) (p : Process) :
    self.removeOverlaysWith p [] = self.removeOverlays p := by
  unfold WebViewFunctor.removeOverlaysWith WebViewFunctor.removeOverlays
  simp only [invokeWith_nil]

theorem prepareRootSurfaceControl_surface (self : WebViewFunctor) (p : Process) :
    (self.prepareRootSurfaceControl p).2.1.mSurfaceControl = self.mSurfaceControl := by
  unfold WebViewFunctor.prepareRootSurfaceControl
  split
  · rfl
  · split
    · rfl
    · split
      · rfl
      · dsimp only
        split <;> rfl

theorem drawGlWith_spec (self : WebViewFunctor) (p : Process) (drawInfo : DrawGlInfo)
    (requests : List (Option Transaction))
    (hguard : p.LOG_NDEBUG = true ∨ p.sCurrentFunctor = none)
    (hcb : self.mCallbacks.gles.draw.isSome = true) :
    ∃ self' evs,
      self.drawGlWith p drawInfo requests =
        .ok (self', { p with
          sCurrentFunctor := none,
          events := p.events ++ evs ++ [Event.glesDraw self.mFunctor self.mData drawInfo
            (if !drawInfo.isLayer && overlaysAvailable p then .Enabled else .Disabled)] ++
            requestEvents p.activeContext self.mSurfaceControl requests }) ∧
      self'.addr = self.addr ∧ self'.mSurfaceControl = self.mSurfaceControl ∧
      ∀ e ∈ evs, e.isCallback = false := by
  unfold WebViewFunctor.drawGlWith
  generalize hself0 :
    (if (!self.mHasContext) = true then { self with mHasContext := true } else self) = self0
  have h0 : self0.mCallbacks = self.mCallbacks ∧
      self0.mFunctor = self.mFunctor ∧ self0.mData = self.mData ∧ self0.addr = self.addr ∧
      self0.mSurfaceControl = self.mSurfaceControl := by
    subst hself0
    cases h : self.mHasContext <;> simp [h]
  obtain ⟨h02, h03, h04, h05, h06⟩ := h0
  obtain ⟨self1, evs, hp, -, h12, h13, h14, h15, hev⟩ :=
    prepareRootSurfaceControl_spec self0 { p with sCurrentFunctor := some self0.addr }
  have h16 : self1.mSurfaceControl = self0.mSurfaceControl := by
    have h := prepareRootSurfaceControl_surface self0 { p with sCurrentFunctor := some self0.addr }
    rw [hp] at h
    exact h
  have hav : overlaysAvailable { p with sCurrentFunctor := some self0.addr } =
      overlaysAvailable p := rfl
  rw [hav] at hp
  simp only [enter_eq_ok self0.addr hguard, bind, Except.bind]
  cases hl : drawInfo.isLayer with
  | true =>
    refine ⟨self0, [], ?_, h05, h06, by simp⟩
    have hi := invokeWith_held (Event.glesDraw self.mFunctor self.mData drawInfo .Disabled)
      self0 requests { p with sCurrentFunctor := some self0.addr } (h02 ▸ hcb) rfl
    simp [hi, ScopedCurrentFunctor.leave, ALOG_ASSERT,
      LOG_ALWAYS_FATAL_IF, bind, Except.bind, h03, h04, h06]
  | false =>
    refine ⟨self1, evs, ?_, h15.trans h05, h16.trans h06, hev⟩
    have hi := invokeWith_held
      (Event.glesDraw self.mFunctor self.mData drawInfo
        (if overlaysAvailable p then .Enabled else .Disabled))
      self1 requests
      { p with sCurrentFunctor := some self0.addr, events := p.events ++ evs }
      ((h12.trans h02) ▸ hcb) (congrArg some h15.symm)
    simp [hp, hi, ScopedCurrentFunctor.leave, ALOG_ASSERT,
      LOG_ALWAYS_FATAL_IF, bind, Except.bind, h13, h03, h14, h04, h16, h06]

theorem drawVkWith_spec (self : WebViewFunctor) (p : Process) (params : VkFunctorDrawParams)
    (requests : List (Option Transaction))
    (hguard : p.LOG_NDEBUG = true ∨ p.sCurrentFunctor = none)
    (hcb : self.mCallbacks.vk.draw.isSome = true) :
    ∃ self' evs,
      self.drawVkWith p params requests =
        .ok (self', { p with
          sCurrentFunctor := none,
          events := p.events ++ evs ++ [Event.vkDraw self.mFunctor self.mData params
            (if !params.is_layer && overlaysAvailable p then .Enabled else .Disabled)] ++
            requestEvents p.activeContext self.mSurfaceControl requests }) ∧
      self'.addr = self.addr ∧ self'.mSurfaceControl = self.mSurfaceControl ∧
      ∀ e ∈ evs, e.isCallback = false := by
  unfold WebViewFunctor.drawVkWith
  obtain ⟨self1, evs, hp, -, h12, h13, h14, h15, hev⟩ :=
    prepareRootSurfaceControl_spec self { p with sCurrentFunctor := some self.addr }
  have h16 : self1.mSurfaceControl = self.mSurfaceControl := by
    have h := prepareRootSurfaceControl_surface self { p with sCurrentFunctor := some self.addr }
    rw [hp] at h
    exact h
  have hav : overlaysAvailable { p with sCurrentFunctor := some self.addr } =
      overlaysAvailable p := rfl
  rw [hav] at hp
  simp only [enter_eq_ok self.addr hguard, bind, Except.bind]
  cases hl : params.is_layer with
  | true =>
    refine ⟨self, [], ?_, rfl, rfl, by simp⟩
    have hi := invokeWith_held (Event.vkDraw self.mFunctor self.mData params .Disabled)
      self requests { p with sCurrentFunctor := some self.addr } hcb rfl
    simp [hi, ScopedCurrentFunctor.leave, ALOG_ASSERT,
      LOG_ALWAYS_FATAL_IF, bind, Except.bind]
  | false =>
    refine ⟨self1, evs, ?_, h15, h16, hev⟩
    have hi := invokeWith_held
      (Event.vkDraw self.mFunctor self.mData params
        (if overlaysAvailable p then .Enabled else .Disabled))
      self1 requests
      { p with sCurrentFunctor := some self.addr, events := p.events ++ evs }
      (h12 ▸ hcb) (congrArg some h15.symm)
    simp [hp, hi, ScopedCurrentFunctor.leave, ALOG_ASSERT,
      LOG_ALWAYS_FATAL_IF, bind, Except.bind, h13, h14, h16]

theorem removeOverlaysWith_exact (self : WebViewFunctor) (p : Process)
    (requests : List (Option Transaction))
    (hguard : p.LOG_NDEBUG = true ∨ p.sCurrentFunctor = none)
    (hcb : self.mCallbacks.removeOverlays.isSome = true) :
    self.removeOverlaysWith p requests =
      .ok ({ self with mSurfaceControl := none },
        { p with
          sCurrentFunctor := none,
          events := p.events ++ [Event.removeOverlays self.mFunctor self.mData] ++
            requestEvents p.activeContext self.mSurfaceControl requests ++
            reparentEvents self p.activeContext none }) := by
  unfold WebViewFunctor.removeOverlaysWith
  have hi := invokeWith_held (Event.removeOverlays self.mFunctor self.mData)
    self requests { p with sCurrentFunctor := some self.addr } hcb rfl
  by_cases hs : self.mSurfaceControl.isSome = true
  · simp [enter_eq_ok self.addr hguard, hi, bind, Except.bind, hs,
      reparentSurfaceControl_eq, ScopedCurrentFunctor.leave, ALOG_ASSERT, LOG_ALWAYS_FATAL_IF]
  · have hn : self.mSurfaceControl = none := by
      cases h : self.mSurfaceControl <;> simp_all
    have hself : { self with mSurfaceControl := none } = self := by
      cases self; simp_all
    simp [enter_eq_ok self.addr hguard, hi, bind, Except.bind, hn,
      ScopedCurrentFunctor.leave, ALOG_ASSERT, LOG_ALWAYS_FATAL_IF, reparentEvents]
    exact hself.symm

/-- C19, amended: in a build with assertions enabled, a `drawGl`, `drawVk` or
`removeOverlays` call that starts while the current-functor slot is occupied
ends in the fatal assertion of the guard, whatever its callback would do, and no
callback runs. A call that starts with the slot empty (or in a build with
assertions compiled out), with its callback entry present, returns with the
slot empty, and the slot holds this functor while the callback runs: every
`mergeTransaction` the callback calls through the pointer it was handed, null
transactions included, is served by this functor, with this functor's surface,
in the order of the calls and right after the callback event; before the draw
callback and after the `removeOverlays` callback only compositor requests are
made. The static `mergeTransaction` serves the functor whose address the slot
holds; it fails when the slot is empty, as it is outside such a call, and when
the slot holds an address at which there is no functor. The methods `drawGl`,
`drawVk` and `removeOverlays` are the case of a callback that makes no such
call. -/
theorem guard_holds_slot_during_callback (self : WebViewFunctor) (p : Process)
    (requests : List (Option Transaction)) :
    ((∀ drawInfo, self.drawGlWith p drawInfo [] = self.drawGl p drawInfo) ∧
      (∀ params, self.drawVkWith p params [] = self.drawVk p params) ∧
      self.removeOverlaysWith p [] = self.removeOverlays p) ∧
    (p.LOG_NDEBUG = false → p.sCurrentFunctor.isSome = true →
      (∀ drawInfo,
        self.drawGlWith p drawInfo requests = .error (.fatal "assertion failed")) ∧
      (∀ params,
        self.drawVkWith p params requests = .error (.fatal "assertion failed")) ∧
      self.removeOverlaysWith p requests = .error (.fatal "assertion failed")) ∧
    ((p.LOG_NDEBUG = true ∨ p.sCurrentFunctor = none) →
      (∀ drawInfo, self.mCallbacks.gles.draw.isSome = true →
        ∃ self' evs,
          (∀ e ∈ evs, e.isCallback = false) ∧
          self.drawGlWith p drawInfo requests =
            .ok (self', { p with
              sCurrentFunctor := none,
              events := p.events ++ evs ++ [Event.glesDraw self.mFunctor self.mData drawInfo
                (if !drawInfo.isLayer && overlaysAvailable p then .Enabled else .Disabled)] ++
                requestEvents p.activeContext self.mSurfaceControl requests })) ∧
      (∀ params, self.mCallbacks.vk.draw.isSome = true →
        ∃ self' evs,
          (∀ e ∈ evs, e.isCallback = false) ∧
          self.drawVkWith p params requests =
            .ok (self', { p with
              sCurrentFunctor := none,
              events := p.events ++ evs ++ [Event.vkDraw self.mFunctor self.mData params
                (if !params.is_layer && overlaysAvailable p then .Enabled else .Disabled)] ++
                requestEvents p.activeContext self.mSurfaceControl requests })) ∧
      (self.mCallbacks.removeOverlays.isSome = true →
        self.removeOverlaysWith p requests =
          .ok ({ self with mSurfaceControl := none },
            { p with
              sCurrentFunctor := none,
              events := p.events ++ [Event.removeOverlays self.mFunctor self.mData] ++
                requestEvents p.activeContext self.mSurfaceControl requests ++
                reparentEvents self p.activeContext none }))) ∧
    (∀ (q : Process) (transaction : Option Transaction),
      (q.sCurrentFunctor = some self.addr →
        ScopedCurrentFunctor.mergeTransaction q self transaction =
          .ok (self.mergeTransaction q transaction)) ∧
      (q.sCurrentFunctor = none →
        ScopedCurrentFunctor.mergeTransaction q self transaction =
          .error (if q.LOG_NDEBUG then
            .undefinedBehaviour "call through a null sCurrentFunctor"
          else .fatal "assertion failed")) ∧
      (∀ functor, q.sCurrentFunctor = some functor → functor ≠ self.addr →
        (∀ f ∈ q.mFunctors, f.addr ≠ functor) →
        ScopedCurrentFunctor.mergeTransaction q self transaction =
          .error (.undefinedBehaviour "call through a dangling sCurrentFunctor"))) := by
  refine ⟨⟨fun drawInfo => drawGlWith_nil self p drawInfo,
    fun params => drawVkWith_nil self p params, removeOverlaysWith_nil self p⟩, ?_, ?_, ?_⟩
  · intro hdebug hslot
    refine ⟨?_, ?_, ?_⟩
    · intro drawInfo
      unfold WebViewFunctor.drawGlWith
      simp only [enter_eq_fatal _ hdebug hslot, bind, Except.bind]
    · intro params
      unfold WebViewFunctor.drawVkWith
      simp only [enter_eq_fatal _ hdebug hslot, bind, Except.bind]
    · unfold WebViewFunctor.removeOverlaysWith
      simp only [enter_eq_fatal _ hdebug hslot, bind, Except.bind]
  · intro hguard
    refine ⟨?_, ?_, ?_⟩
    · intro drawInfo hcb
      obtain ⟨self', evs, he, -, -, hev⟩ := drawGlWith_spec self p drawInfo requests hguard hcb
      exact ⟨self', evs, hev, he⟩
    · intro params hcb
      obtain ⟨self', evs, he, -, -, hev⟩ := drawVkWith_spec self p params requests hguard hcb
      exact ⟨self', evs, hev, he⟩
    · intro hcb
      exact removeOverlaysWith_exact self p requests hguard hcb
  · intro q transaction
    exact ⟨static_mergeTransaction_held q self transaction,
      static_mergeTransaction_empty q self transaction,
      fun functor hslot hne hfree =>
        static_mergeTransaction_dangling q self transaction functor hslot hne hfree⟩

theorem guard_holds_slot_during_callback_witness :
    ((∀ drawInfo,
        sampleFunctor.drawGlWith nestedDebugProcess drawInfo [some (.external 5), none] =
          .error (.fatal "assertion failed")) ∧
      (∀ params,
        sampleFunctor.drawVkWith nestedDebugProcess params [some (.external 5), none] =
          .error (.fatal "assertion failed")) ∧
      sampleFunctor.removeOverlaysWith nestedDebugProcess [some (.external 5), none] =
        .error (.fatal "assertion failed")) ∧
    overlayFunctor.removeOverlaysWith renderingProcess [some (.external 5), none] =
      .ok ({ overlayFunctor with mSurfaceControl := none },
        { renderingProcess with
          events := [Event.removeOverlays 1 7,
            Event.contextMergeTransaction (.external 5) (some 60),
            Event.contextMergeTransaction (.reparent 60 none) (some 60)] }) :=
  ⟨(guard_holds_slot_during_callback sampleFunctor nestedDebugProcess
      [some (.external 5), none]).2.1 rfl rfl,
    ((guard_holds_slot_during_callback overlayFunctor renderingProcess
      [some (.external 5), none]).2.2.1 (Or.inr rfl)).2.2 rfl⟩

end guard

section lifecycle

theorem registeredByHistory_nil (id : Int) : ¬ RegisteredByHistory [] id := by
  rintro ⟨before, since, h, -⟩
  simp at h

theorem registeredByHistory_snoc (hist : List Done) (e : Done) (id : Int) :
    RegisteredByHistory (hist ++ [e]) id ↔
      e = .created id ∨ (RegisteredByHistory hist id ∧ e ≠ .destroyed id) := by
  constructor
  · rintro ⟨before, since, h, hs⟩
    rcases List.eq_nil_or_concat since with rfl | ⟨since0, x, rfl⟩
    · have := List.append_inj' h (by simp)
      simp only [List.cons.injEq, and_true] at this
      exact Or.inl this.2
    · rw [List.concat_eq_append] at h hs
      have h' : hist ++ [e] = (before ++ Done.created id :: since0) ++ [x] := by
        simpa using h
      have := List.append_inj' h' (by simp)
      simp only [List.cons.injEq, and_true] at this
      simp only [List.mem_append, List.mem_singleton, not_or] at hs
      exact Or.inr ⟨⟨before, since0, this.1, hs.1⟩, by rw [this.2]; exact fun h => hs.2 h.symm⟩
  · rintro (rfl | ⟨⟨before, since, rfl, hs⟩, he⟩)
    · exact ⟨hist, [], rfl, by simp⟩
    · refine ⟨before, since ++ [e], by simp, ?_⟩
      simp only [List.mem_append, List.mem_singleton, not_or]
      exact ⟨hs, fun h => he h.symm⟩

theorem mem_map_id_eraseP {l : List WebViewFunctor} (hnd : (l.map (·.mFunctor)).Nodup)
    (functor id : Int) :
    id ∈ (l.eraseP (fun f => f.id == functor)).map (·.mFunctor) ↔
      id ∈ l.map (·.mFunctor) ∧ id ≠ functor := by
  rw [eraseP_eq_filter_of_unique _ l (List.Nodup.of_map _ hnd)
    (fun a ha b hb hqa hqb => List.inj_on_of_nodup_map hnd ha hb
      ((by simpa [WebViewFunctor.id] using hqa : a.mFunctor = functor).trans
        (by simpa [WebViewFunctor.id] using hqb : b.mFunctor = functor).symm))]
  simp only [List.mem_map, List.mem_filter, WebViewFunctor.id]
  constructor
  · rintro ⟨f, ⟨hf, hq⟩, rfl⟩
    exact ⟨⟨f, hf, rfl⟩, by simpa using hq⟩
  · rintro ⟨⟨f, hf, rfl⟩, hne⟩
    exact ⟨f, ⟨hf, by simpa using hne⟩, rfl⟩

theorem Reaches.registered_iff {p0 p : Process} {hist : List Done} (h0 : p0.Initial)
    (hr : Reaches p0 hist p) :
    (createdIds hist).length < 2 ^ 31 →
      ∀ id, id ∈ p.mFunctors.map (·.mFunctor) ↔ RegisteredByHistory hist id := by
  induction hr with
  | start =>
    intro _ id
    simp [h0.2.1, registeredByHistory_nil]
  | @createFunctor hist p p' data callbacks functorMode id0 hprev hc ih =>
    intro hb id
    have hb' : (createdIds hist).length < 2 ^ 31 := by
      rw [createdIds_append] at hb
      simp only [createdIds, List.length_append, List.length_singleton] at hb
      omega
    obtain ⟨hid, -, -, object, -, hoi, hfs, -⟩ := createFunctor_ok_inv hc
    rw [registeredByHistory_snoc, ← ih hb' id, hfs]
    simp only [List.map_append, List.map_cons, List.map_nil, List.mem_append,
      List.mem_singleton, Done.created.injEq, ne_eq, reduceCtorEq, not_false_eq_true, and_true]
    rw [hoi, ← hid]
    constructor
    · rintro (h | h)
      · exact Or.inr h
      · exact Or.inl h.symm
    · rintro (h | h)
      · exact Or.inr h.symm
      · exact Or.inl h
  | @releaseFunctor hist p p' functor hprev hc ih =>
    intro hb id
    have hb' : (createdIds hist).length < 2 ^ 31 := by
      rw [createdIds_append] at hb
      simpa [createdIds] using hb
    have hold := hprev.consistent h0 hb'
    have hp := releaseFunctor_ok_inv hold.readable hc
    subst hp
    rw [registeredByHistory_snoc, ← ih hb' id]
    simp
  | @destroyFunctor hist p p' functor hprev hprot hc ih =>
    intro hb id
    have hb' : (createdIds hist).length < 2 ^ 31 := by
      rw [createdIds_append] at hb
      simpa [createdIds] using hb
    have hold := hprev.consistent h0 hb'
    obtain ⟨hfs, -, -, -⟩ := destroyFunctor_ok_inv hc
    rw [registeredByHistory_snoc, ← ih hb' id, hfs, mem_map_id_eraseP hold.idsNodup]
    simp only [reduceCtorEq, false_or, ne_eq, Done.destroyed.injEq]
    constructor
    · rintro ⟨h, hne⟩
      exact ⟨h, fun he => hne he.symm⟩
    · rintro ⟨h, hne⟩
      exact ⟨h, fun he => hne he.symm⟩
  | @other hist p p' hprev hsn hheap has hident ih =>
    intro hb id
    rw [← ih hb id, map_id_of_identities hident]

theorem mem_createdIds {l : List Done} {id : Int} :
    id ∈ createdIds l ↔ Done.created id ∈ l := by
  induction l with
  | nil => simp [createdIds]
  | cons x rest ih => cases x <;> simp [createdIds, ih]

theorem append_cons_unique {α : Type} {x : α} :
    ∀ {a a' b b' : List α}, a ++ x :: b = a' ++ x :: b' → x ∉ a → x ∉ a' → a = a' ∧ b = b'
  | [], [], _, _, h, _, _ => by simpa using h
  | [], y :: a', _, _, h, _, hx => by
    simp only [List.nil_append, List.cons_append, List.cons.injEq] at h
    exact absurd (h.1 ▸ List.mem_cons_self _ _) hx
  | y :: a, [], _, _, h, hx, _ => by
    simp only [List.nil_append, List.cons_append, List.cons.injEq] at h
    exact absurd (h.1 ▸ List.mem_cons_self _ _) hx
  | y :: a, z :: a', _, _, h, hx, hx' => by
    simp only [List.cons_append, List.cons.injEq] at h
    obtain ⟨h1, h2⟩ := @append_cons_unique α x a a' _ _ h.2
      (fun hm => hx (List.mem_cons_of_mem _ hm)) (fun hm => hx' (List.mem_cons_of_mem _ hm))
    exact ⟨by rw [h.1, h1], h2⟩

theorem created_not_mem_before {before since : List Done} {id : Int}
    (hnd : (createdIds (before ++ Done.created id :: since)).Nodup) :
    Done.created id ∉ before := by
  rw [createdIds_append] at hnd
  simp only [createdIds] at hnd
  intro hm
  exact (List.nodup_append.1 hnd).2.2 (mem_createdIds.2 hm) (List.mem_cons_self _ _)

theorem Consistent.created_nodup {ids : List Int} {p : Process} (hc : Consistent ids p) :
    ids.Nodup := by
  rw [hc.inOrder]
  refine (List.nodup_range _).map ?_
  intro a b h
  simpa using h

/-- What the history says of an id created in `hist` does not move backwards
when the history goes on: if no `e id` call follows the creation in the longer
history, none follows it in `hist`. -/
theorem byHistory_prefix (e : Int → Done) {hist more : List Done} {id : Int}
    (hnd : (createdIds (hist ++ more)).Nodup) (hid : id ∈ createdIds hist)
    (h : ∃ before since, hist ++ more = before ++ Done.created id :: since ∧ e id ∉ since) :
    ∃ before since, hist = before ++ Done.created id :: since ∧ e id ∉ since := by
  obtain ⟨before, since, heq, hs⟩ := h
  obtain ⟨a, b, hab⟩ := List.append_of_mem (mem_createdIds.1 hid)
  have heq' : a ++ Done.created id :: (b ++ more) = before ++ Done.created id :: since := by
    rw [← heq, hab]
    simp
  have ha : Done.created id ∉ a := by
    apply @created_not_mem_before a (b ++ more) id
    rw [show a ++ Done.created id :: (b ++ more) = hist ++ more by rw [hab]; simp]
    exact hnd
  have hb : Done.created id ∉ before := by
    apply @created_not_mem_before before since id
    rw [← heq]
    exact hnd
  obtain ⟨h1, h2⟩ := append_cons_unique heq' ha hb
  refine ⟨a, b, hab, ?_⟩
  intro hm
  exact hs (h2 ▸ List.mem_append_left _ hm)

/-- C27: let `p` be reached from an initial state by the history `hist` of
`createFunctor`, `releaseFunctor` and `destroyFunctor` calls, and `p'` by a
longer history `hist ++ more` (fewer than `2^31` functors constructed,
`destroyFunctor` applied to ids that no active handle carries). In `p` every
active handle refers to a functor of the all-functors registry and reads its
id from it, so every active id is registered, and every registered id was
created. Each id is created once, and an id moves forward only: an id created
in `hist` that is active in the later state `p'` is active in `p`, and one that
is registered in `p'` is registered in `p`; so a released id is never active
again and a destroyed id is never registered or active again. -/
theorem active_ids_registered (p0 p p' : Process) (hist more : List Done)
    (h0 : p0.Initial) (hr : Reaches p0 hist p) (hr' : Reaches p0 (hist ++ more) p')
    (hn : (createdIds (hist ++ more)).length < 2 ^ 31) :
    (∀ h ∈ p.mActiveFunctors,
      ∃ f ∈ p.mFunctors, f.addr = h.mReference ∧ h.id p = .ok f.mFunctor) ∧
    (∀ id, (∃ h ∈ p.mActiveFunctors, h.id p = .ok id) → id ∈ p.mFunctors.map (·.mFunctor)) ∧
    (∀ id ∈ p.mFunctors.map (·.mFunctor), id ∈ createdIds hist) ∧
    (createdIds (hist ++ more)).Nodup ∧
    (∀ id ∈ createdIds hist,
      (∃ h ∈ p'.mActiveFunctors, h.id p' = .ok id) →
        ∃ h ∈ p.mActiveFunctors, h.id p = .ok id) ∧
    (∀ id ∈ createdIds hist,
      id ∈ p'.mFunctors.map (·.mFunctor) → id ∈ p.mFunctors.map (·.mFunctor)) ∧
    (∀ id ∈ createdIds hist,
      id ∉ p.mFunctors.map (·.mFunctor) → ¬ ∃ h ∈ p'.mActiveFunctors, h.id p' = .ok id) := by
  have hn0 : (createdIds hist).length < 2 ^ 31 := by
    rw [createdIds_append, List.length_append] at hn
    omega
  have hc := hr.consistent h0 hn0
  have hc' := hr'.consistent h0 hn
  have hlive : ∀ h ∈ p.mActiveFunctors,
      ∃ f ∈ p.mFunctors, f.addr = h.mReference ∧ h.id p = .ok f.mFunctor := by
    intro h hh
    obtain ⟨f, hf, ha⟩ := mem_map_addr.mp (hc.live h hh)
    exact ⟨f, hf, ha, Handle.id_eq_ok_of_mem hc.addrNodup hf ha⟩
  have hreg : ∀ (q : Process), (∀ h ∈ q.mActiveFunctors,
      ∃ f ∈ q.mFunctors, f.addr = h.mReference ∧ h.id q = .ok f.mFunctor) →
      ∀ id, (∃ h ∈ q.mActiveFunctors, h.id q = .ok id) → id ∈ q.mFunctors.map (·.mFunctor) := by
    intro q hq id ⟨h, hh, hi⟩
    obtain ⟨f, hf, -, hfi⟩ := hq h hh
    rw [hi] at hfi
    simp only [Except.ok.injEq] at hfi
    exact List.mem_map.2 ⟨f, hf, hfi.symm⟩
  have hlive' : ∀ h ∈ p'.mActiveFunctors,
      ∃ f ∈ p'.mFunctors, f.addr = h.mReference ∧ h.id p' = .ok f.mFunctor := by
    intro h hh
    obtain ⟨f, hf, ha⟩ := mem_map_addr.mp (hc'.live h hh)
    exact ⟨f, hf, ha, Handle.id_eq_ok_of_mem hc'.addrNodup hf ha⟩
  have hback : ∀ id ∈ createdIds hist,
      id ∈ p'.mFunctors.map (·.mFunctor) → id ∈ p.mFunctors.map (·.mFunctor) := by
    intro id hid hm
    rw [hr.registered_iff h0 hn0 id]
    exact byHistory_prefix Done.destroyed hc'.created_nodup hid
      ((hr'.registered_iff h0 hn id).1 hm)
  refine ⟨hlive, hreg p hlive, hc.known, hc'.created_nodup, ?_, hback, ?_⟩
  · intro id hid hact
    rw [hr.active_iff h0 hn0 id]
    exact byHistory_prefix Done.released hc'.created_nodup hid
      ((hr'.active_iff h0 hn id).1 hact)
  · intro id hid hno hact
    exact hno (hback id hid (hreg p' hlive' id hact))

theorem active_ids_registered_witness :
    (∀ h ∈ activeProcess.mActiveFunctors,
      ∃ f ∈ activeProcess.mFunctors,
        f.addr = h.mReference ∧ h.id activeProcess = .ok f.mFunctor) ∧
    (∀ id ∈ createdIds [Done.created 1],
      (∃ h ∈ releasedProcess.mActiveFunctors, h.id releasedProcess = .ok id) →
        ∃ h ∈ activeProcess.mActiveFunctors, h.id activeProcess = .ok id) :=
  have h := active_ids_registered (freshProcess .SkiaGL) activeProcess releasedProcess
    [.created 1] [.released 1] (by decide) reaches_activeProcess reaches_releasedProcess
    (by decide)
  ⟨h.1, h.2.2.2.2.1⟩

end lifecycle

end uirenderer

namespace android

section conversion

namespace StringBuffer
theorem load_eq_ok {buffer : List Nat} {i : Nat} (h : i < buffer.length) :
    load buffer i = .ok buffer[i] := by
  simp [load, List.getElem?_eq_getElem h]

theorem store_eq_ok {buffer : List Nat} {i : Nat} (c : Nat) (h : i < buffer.length) :
    store buffer i c = .ok (buffer.set i c) := by
  simp [store, h]

theorem transform_spec (src : List Nat) (offset : Nat) :
    ∀ (remaining i : Nat) (dst : List Nat),
      i + remaining ≤ src.length → offset + i + remaining ≤ dst.length →
      ∃ out, transform src offset i remaining dst = .ok out ∧ out.length = dst.length ∧
        ∀ k, out[k]? =
          if offset + i ≤ k ∧ k < offset + i + remaining then (src[k - offset]?).map toAscii
          else dst[k]? := by
  intro remaining
  induction remaining with
  | zero =>
    intro i dst _ _
    refine ⟨dst, rfl, rfl, ?_⟩
    intro k
    rw [if_neg (by omega)]
  | succ n ih =>
    intro i dst hs hd
    have hi : i < src.length := by omega
    have hoi : offset + i < dst.length := by omega
    obtain ⟨out, ho, hl, hk⟩ := ih (i + 1) (dst.set (offset + i) (toAscii src[i])) (by omega)
      (by simp; omega)
    refine ⟨out, ?_, by simpa using hl, ?_⟩
    · simp only [transform, load_eq_ok hi, store_eq_ok _ hoi, bind, Except.bind]
      exact ho
    · intro k
      rw [hk k]
      by_cases h1 : offset + (i + 1) ≤ k ∧ k < offset + (i + 1) + n
      · have h2 : offset + i ≤ k ∧ k < offset + i + (n + 1) := by omega
        simp [h1, h2]
      · by_cases h3 : k = offset + i
        · subst h3
          have h2 : offset + i ≤ offset + i ∧ offset + i < offset + i + (n + 1) := by omega
          simp [h1, h2, List.getElem?_set, hoi, List.getElem?_eq_getElem hi]
        · have h2 : ¬ (offset + i ≤ k ∧ k < offset + i + (n + 1)) := by omega
          simp [h1, h2, List.getElem?_set, Ne.symm h3]



theorem GetStringRegion_eq_ok {val buffer : List Nat} (h : val.length ≤ buffer.length) :
    GetStringRegion val val.length buffer = .ok (val ++ buffer.drop val.length) := by
  simp [GetStringRegion, h]

theorem copy_spec (src dst : List Nat) (len offset : Nat) (hs : len ≤ src.length)
    (hd : offset + len ≤ dst.length) :
    ∃ out, copy_utf16_to_ascii src len dst offset = .ok out ∧ out.length = dst.length ∧
      ∀ k, out[k]? =
        if offset ≤ k ∧ k < offset + len then (src[k - offset]?).map toAscii else dst[k]? := by
  obtain ⟨out, h1, h2, h3⟩ := transform_spec src offset len 0 dst (by omega) (by omega)
  exact ⟨out, h1, h2, by simpa using h3⟩

theorem utf16_to_ascii_fast (s : StringBuffer) (hs : s.Sized) (val : List Nat)
    (hne : val ≠ []) (hfit : s.current_offset + val.length + 1 < BASE_SIZE) :
    ∃ cb, s.utf16_to_ascii (some val) =
        .ok ({ data := .char_buffer s.current_offset, size := val.length },
          { s with
            char_buffer := cb,
            jchar_buffer := val ++ s.jchar_buffer.drop val.length,
            current_offset := s.current_offset + val.length + 1 }) ∧
      cb.length = BASE_SIZE ∧
      ∀ k, cb[k]? =
        if s.current_offset ≤ k ∧ k < s.current_offset + val.length then
          (val[k - s.current_offset]?).map toAscii
        else if k = s.current_offset + val.length then some 0
        else s.char_buffer[k]? := by
  obtain ⟨hc, hj⟩ := hs
  have hlen : val.length ≠ 0 := by simpa using hne
  have hle : val.length ≤ BASE_SIZE := by omega
  obtain ⟨out, ho, hol, hok⟩ := copy_spec (val ++ s.jchar_buffer.drop val.length) s.char_buffer
    val.length s.current_offset (by simp) (by omega)
  refine ⟨out.set (s.current_offset + val.length) 0, ?_, by simp [hol, hc], ?_⟩
  · simp only [utf16_to_ascii, hlen, if_false, hle, if_true,
      GetStringRegion_eq_ok (hj ▸ hle), bind, Except.bind, pure, Except.pure, gt_iff_lt, hfit, ho,
      store_eq_ok 0 (show s.current_offset + val.length < out.length by omega)]
  · intro k
    rw [List.getElem?_set, hok k]
    by_cases h1 : s.current_offset ≤ k ∧ k < s.current_offset + val.length
    · have h2 : s.current_offset + val.length ≠ k := by omega
      have h3 : k - s.current_offset < val.length := by omega
      simp [h1, h2, List.getElem?_append_left h3]
    · by_cases h2 : k = s.current_offset + val.length
      · subst h2
        simp [h1, hol, hc]
        omega
      · simp [h1, h2, Ne.symm h2]



theorem utf16_to_ascii_overflow (s : StringBuffer) (hs : s.Sized) (val : List Nat)
    (hne : val ≠ []) (hfull : ¬ s.current_offset + val.length + 1 < BASE_SIZE) :
    ∃ str, s.utf16_to_ascii (some val) =
        .ok ({ data := .overflow_strings s.overflow_strings.length, size := val.length + 1 },
          { s with
            jchar_buffer :=
              if val.length ≤ BASE_SIZE then val ++ s.jchar_buffer.drop val.length
              else s.jchar_buffer,
            overflow_strings := s.overflow_strings ++ [str],
            is_overflow_strings_empty := false }) ∧
      str.length = val.length + 1 ∧
      ∀ k, str[k]? =
        if k < val.length then (val[k]?).map toAscii
        else if k = val.length then some 0 else none := by
  obtain ⟨hc, hj⟩ := hs
  have hlen : val.length ≠ 0 := by simpa using hne
  have hchars : ∀ (src : List Nat), (∀ k, k < val.length → src[k]? = val[k]?) →
      val.length ≤ src.length →
      ∃ str, copy_utf16_to_ascii src val.length (List.replicate (val.length + 1) 0) 0 = .ok str ∧
        str.length = val.length + 1 ∧
        ∀ k, str[k]? =
          if k < val.length then (val[k]?).map toAscii
          else if k = val.length then some 0 else none := by
    intro src hsrc hsl
    obtain ⟨out, ho, hol, hok⟩ := copy_spec src (List.replicate (val.length + 1) 0)
      val.length 0 hsl (by simp)
    refine ⟨out, ho, by simpa using hol, ?_⟩
    intro k
    rw [hok k]
    by_cases h1 : k < val.length
    · simp [h1, hsrc k h1]
    · by_cases h2 : k = val.length
      · subst h2
        simp [List.getElem?_replicate]
      · have h3 : ¬ k < val.length + 1 := by omega
        simp [h1, h2, List.getElem?_replicate, h3]
  by_cases hle : val.length ≤ BASE_SIZE
  · obtain ⟨str, h1, h2, h3⟩ := hchars (val ++ s.jchar_buffer.drop val.length)
      (fun k hk => List.getElem?_append_left hk) (by simp)
    refine ⟨str, ?_, h2, h3⟩
    simp only [utf16_to_ascii, hlen, if_false, hle, if_true,
      GetStringRegion_eq_ok (hj ▸ hle), bind, Except.bind, pure, Except.pure, gt_iff_lt, hfull,
      h1, h2]
  · obtain ⟨str, h1, h2, h3⟩ := hchars val (fun _ _ => rfl) (le_refl _)
    refine ⟨str, ?_, h2, h3⟩
    simp only [utf16_to_ascii, hlen, if_false, hle, bind, Except.bind, pure, Except.pure,
      gt_iff_lt, hfull, h1, h2]

end StringBuffer

end conversion

section characters

namespace StringBuffer

theorem get?_fast {s' : StringBuffer} {offset size i : Nat} :
    string_view.get? { data := .char_buffer offset, size := size } s' i =
      s'.char_buffer[offset + i]? := rfl

/-- C21: for every state whose arrays have their declared size and every
non-null, non-empty Java string, `utf16_to_ascii` returns a view whose `i`-th
character, for every `i` below the length of the string, is the byte value of
the `i`-th code unit when the unit is at most `0xFF` and `?` (63) when it is
greater than 255; on the fast path and on the overflow path. -/
theorem utf16_to_ascii_characters (s : StringBuffer) (hs : s.Sized) (val : List Nat)
    (hne : val ≠ []) :
    ∃ res s', s.utf16_to_ascii (some val) = .ok (res, s') ∧
      ∀ (i : Nat) (hi : i < val.length),
        (val[i] ≤ 0xFF → res.get? s' i = some val[i]) ∧
        (255 < val[i] → res.get? s' i = some 63) := by
  have hconv : ∀ (i : Nat) (hi : i < val.length) (c : Option Nat),
      c = some (toAscii val[i]) →
      (val[i] ≤ 0xFF → c = some val[i]) ∧ (255 < val[i] → c = some 63) := by
    intro i hi c hc
    subst hc
    unfold toAscii
    constructor
    · intro h
      rw [if_pos h]
    · intro h
      rw [if_neg (by omega)]
  by_cases hfit : s.current_offset + val.length + 1 < BASE_SIZE
  · obtain ⟨cb, hrun, -, hk⟩ := utf16_to_ascii_fast s hs val hne hfit
    refine ⟨_, _, hrun, ?_⟩
    intro i hi
    apply hconv i hi
    rw [get?_fast]
    simp only
    rw [hk, if_pos (by omega)]
    simp [List.getElem?_eq_getElem hi]
  · obtain ⟨str, hrun, hl, hk⟩ := utf16_to_ascii_overflow s hs val hne hfit
    refine ⟨_, _, hrun, ?_⟩
    intro i hi
    apply hconv i hi
    simp only [string_view.get?, List.getElem?_concat_length, hl]
    rw [if_pos (by omega), hk, if_pos hi]
    simp [List.getElem?_eq_getElem hi]

theorem utf16_to_ascii_characters_witness :
    ∃ res s', initial.utf16_to_ascii (some shortString) = .ok (res, s') ∧
      ∀ (i : Nat) (hi : i < shortString.length),
        (shortString[i] ≤ 0xFF → res.get? s' i = some shortString[i]) ∧
        (255 < shortString[i] → res.get? s' i = some 63) :=
  utf16_to_ascii_characters initial
    ⟨List.length_replicate _ _, List.length_replicate _ _⟩ shortString (by decide)

end StringBuffer

end characters

section paths

namespace StringBuffer

theorem reset_sized {s : StringBuffer} (hs : s.Sized) : s.reset.Sized := by
  unfold reset Sized
  unfold Sized at hs
  cases s.is_overflow_strings_empty <;> exact hs

theorem reset_fields (s : StringBuffer) :
    s.reset.current_offset = 0 ∧ s.reset.char_buffer = s.char_buffer ∧
      s.reset.jchar_buffer = s.jchar_buffer := by
  unfold reset
  cases s.is_overflow_strings_empty <;> exact ⟨rfl, rfl, rfl⟩

theorem initial_sized : initial.Sized :=
  ⟨List.length_replicate _ _, List.length_replicate _ _⟩

/-- C22, as stated, fails for a string of 128 code units: converted right after
`reset()` it is copied into `jchar_buffer`, but its 128 characters and the
terminating NUL do not fit the 128 elements of `char_buffer` (the test
`BASE_SIZE > next_offset` fails, `next_offset` is 129), so the result is a new
string of the overflow list and the flag is cleared. -/
theorem long_string_after_reset_overflows :
    ∃ res s', initial.reset.utf16_to_ascii (some fullString) = .ok (res, s') ∧
      fullString.length = 128 ∧ initial.reset.current_offset = 0 ∧
      initial.reset.overflow_strings = [] ∧
      res.data = .overflow_strings 0 ∧ s'.overflow_strings.length = 1 ∧
      s'.is_overflow_strings_empty = false := by
  have hl : fullString.length = 128 := List.length_replicate _ _
  obtain ⟨str, hrun, -, -⟩ := utf16_to_ascii_overflow initial.reset (reset_sized initial_sized)
    fullString (by simp [fullString]) (by rw [hl]; decide)
  exact ⟨_, _, hrun, hl, rfl, rfl, rfl, rfl, rfl⟩

/-- C22, amended: for every non-empty Java string converted right after
`reset()` (offset 0), in a state whose arrays have their declared size:
a string of at most 126 characters takes the fast path (the result is stored
at the front of `char_buffer`, the overflow list and its flag stay as `reset`
left them); a string of 127 or more characters takes the overflow path (a new
string at the back of the overflow list, the flag cleared, `char_buffer` and
the offset untouched). The code units of a string of at most 128 characters
are copied into the pre-allocated `jchar_buffer`; those of a longer string are
not. -/
theorem utf16_to_ascii_after_reset (s : StringBuffer) (hs : s.Sized) (val : List Nat)
    (hne : val ≠ []) :
    ∃ res s', s.reset.utf16_to_ascii (some val) = .ok (res, s') ∧
      (val.length ≤ 126 →
        res = { data := .char_buffer 0, size := val.length } ∧
        s'.current_offset = val.length + 1 ∧
        s'.overflow_strings = s.reset.overflow_strings ∧
        s'.is_overflow_strings_empty = s.reset.is_overflow_strings_empty) ∧
      (126 < val.length →
        res.data = .overflow_strings s.reset.overflow_strings.length ∧
        s'.overflow_strings.length = s.reset.overflow_strings.length + 1 ∧
        s'.is_overflow_strings_empty = false ∧
        s'.char_buffer = s.char_buffer ∧ s'.current_offset = 0) ∧
      (val.length ≤ 128 → s'.jchar_buffer = val ++ s.jchar_buffer.drop val.length) ∧
      (128 < val.length → s'.jchar_buffer = s.jchar_buffer) := by
  obtain ⟨h0, hcb, hjb⟩ := reset_fields s
  by_cases hfit : val.length ≤ 126
  · obtain ⟨cb, hrun, -, -⟩ := utf16_to_ascii_fast s.reset (reset_sized hs) val hne
      (by rw [h0]; unfold BASE_SIZE; omega)
    refine ⟨_, _, hrun, ?_, ?_, ?_, ?_⟩
    · intro _
      simp [h0]
    · intro h
      omega
    · intro _
      simp [hjb]
    · intro h
      omega
  · obtain ⟨str, hrun, -, -⟩ := utf16_to_ascii_overflow s.reset (reset_sized hs) val hne
      (by rw [h0]; unfold BASE_SIZE; omega)
    refine ⟨_, _, hrun, ?_, ?_, ?_, ?_⟩
    · intro h
      omega
    · intro _
      simp [h0, hcb]
    · intro h
      have : val.length ≤ BASE_SIZE := h
      simp [this, hjb]
    · intro h
      have : ¬ val.length ≤ BASE_SIZE := by unfold BASE_SIZE; omega
      simp [this, hjb]

theorem utf16_to_ascii_after_reset_witness :
    ∃ res s', initial.reset.utf16_to_ascii (some shortString) = .ok (res, s') ∧
      (shortString.length ≤ 126 →
        res = { data := .char_buffer 0, size := shortString.length } ∧
        s'.current_offset = shortString.length + 1 ∧
        s'.overflow_strings = initial.reset.overflow_strings ∧
        s'.is_overflow_strings_empty = initial.reset.is_overflow_strings_empty) ∧
      (126 < shortString.length →
        res.data = .overflow_strings initial.reset.overflow_strings.length ∧
        s'.overflow_strings.length = initial.reset.overflow_strings.length + 1 ∧
        s'.is_overflow_strings_empty = false ∧
        s'.char_buffer = initial.char_buffer ∧ s'.current_offset = 0) ∧
      (shortString.length ≤ 128 →
        s'.jchar_buffer = shortString ++ initial.jchar_buffer.drop shortString.length) ∧
      (128 < shortString.length → s'.jchar_buffer = initial.jchar_buffer) :=
  utf16_to_ascii_after_reset initial
    ⟨List.length_replicate _ _, List.length_replicate _ _⟩ shortString (by decide)

/-- C28, at the failing input: with the offset at 0, the view returned for a
string of 127 code units (overflow path) has length 128, not 127: it counts
the terminating NUL, its character at index 127; the view returned for a
string of 3 code units (fast path) has length 3. -/
theorem overflow_view_counts_terminator :
    (∃ res s', initial.utf16_to_ascii (some longString) = .ok (res, s') ∧
      longString.length = 127 ∧ res.data = .overflow_strings 0 ∧ res.size = 128 ∧
      res.get? s' 127 = some 0) ∧
    (∃ res s', initial.utf16_to_ascii (some shortString) = .ok (res, s') ∧
      shortString.length = 3 ∧ res.data = .char_buffer 0 ∧ res.size = 3) := by
  have hl : longString.length = 127 := List.length_replicate _ _
  constructor
  · obtain ⟨str, hrun, hsl, hk⟩ := utf16_to_ascii_overflow initial initial_sized
      longString (by simp [longString]) (by rw [hl]; decide)
    refine ⟨_, _, hrun, hl, rfl, by rw [hl], ?_⟩
    simp only [string_view.get?, initial, List.nil_append, List.length_nil,
      List.getElem?_cons_zero]
    rw [hsl, hl, if_pos (by omega), hk 127, hl]
    simp
  · obtain ⟨cb, hrun, -, -⟩ := utf16_to_ascii_fast initial initial_sized shortString
      (by decide) (by decide)
    exact ⟨_, _, hrun, rfl, rfl, rfl⟩

end StringBuffer

end paths

section stability

namespace StringBuffer

/-- One call of `utf16_to_ascii` in a state whose arrays have their declared
size: it returns; the arrays keep their size; the offset does not decrease;
`char_buffer` changes only at indices from the old offset up to below the new
one, which is then inside the array; the overflow list grows at the back; the
view returned points into storage taken by this call, and a view into
`char_buffer` is followed by a NUL. -/
theorem utf16_to_ascii_step (s : StringBuffer) (hs : s.Sized) (val : Option (List Nat)) :
    ∃ res s', s.utf16_to_ascii val = .ok (res, s') ∧ s'.Sized ∧
      s.current_offset ≤ s'.current_offset ∧
      (∀ k, s'.char_buffer[k]? ≠ s.char_buffer[k]? →
        s.current_offset ≤ k ∧ k < s'.current_offset ∧ s'.current_offset < BASE_SIZE) ∧
      (∃ extra, s'.overflow_strings = s.overflow_strings ++ extra ∧
        (s'.is_overflow_strings_empty = true ↔
          s.is_overflow_strings_empty = true ∧ extra = [])) ∧
      res.Fresh s s' ∧
      (∀ offset, res.data = .char_buffer offset →
        s'.char_buffer[offset + res.size]? = some 0) ∧
      (s'.jchar_buffer = s.jchar_buffer ∨
        ∃ units : List Nat, units.length ≤ BASE_SIZE ∧
          s'.jchar_buffer = units ++ s.jchar_buffer.drop units.length) ∧
      (s.current_offset < BASE_SIZE → s'.current_offset < BASE_SIZE) := by
  have hsame : ∃ res s', Except.ok (({ data := .literal, size := 0 } : string_view), s) =
      (Except.ok (res, s') : Except uirenderer.Failure (string_view × StringBuffer)) ∧ s'.Sized ∧
      s.current_offset ≤ s'.current_offset ∧
      (∀ k, s'.char_buffer[k]? ≠ s.char_buffer[k]? →
        s.current_offset ≤ k ∧ k < s'.current_offset ∧ s'.current_offset < BASE_SIZE) ∧
      (∃ extra, s'.overflow_strings = s.overflow_strings ++ extra ∧
        (s'.is_overflow_strings_empty = true ↔
          s.is_overflow_strings_empty = true ∧ extra = [])) ∧
      res.Fresh s s' ∧
      (∀ offset, res.data = .char_buffer offset →
        s'.char_buffer[offset + res.size]? = some 0) ∧
      (s'.jchar_buffer = s.jchar_buffer ∨
        ∃ units : List Nat, units.length ≤ BASE_SIZE ∧
          s'.jchar_buffer = units ++ s.jchar_buffer.drop units.length) ∧
      (s.current_offset < BASE_SIZE → s'.current_offset < BASE_SIZE) :=
    ⟨_, s, rfl, hs, le_refl _, fun k hk => absurd rfl hk, ⟨[], by simp, by simp⟩, trivial,
      (fun _ h => Pointer.noConfusion h), Or.inl rfl, id⟩
  cases val with
  | none => exact hsame
  | some val =>
    by_cases hne : val = []
    · subst hne
      exact hsame
    · by_cases hfit : s.current_offset + val.length + 1 < BASE_SIZE
      · obtain ⟨cb, hrun, hcl, hk⟩ := utf16_to_ascii_fast s hs val hne hfit
        have hjl : (val ++ s.jchar_buffer.drop val.length).length = BASE_SIZE := by
          have := hs.2
          rw [List.length_append, List.length_drop]
          omega
        refine ⟨_, _, hrun, ⟨hcl, hjl⟩, by simp only; omega, ?_, ⟨[], by simp, by simp⟩, ?_, ?_,
          Or.inr ⟨val, by omega, rfl⟩, fun _ => hfit⟩
        · intro k hne'
          simp only at hne' ⊢
          rw [hk k] at hne'
          by_cases h1 : s.current_offset ≤ k ∧ k < s.current_offset + val.length
          · exact ⟨h1.1, by omega, hfit⟩
          · by_cases h2 : k = s.current_offset + val.length
            · exact ⟨by omega, by omega, hfit⟩
            · rw [if_neg h1, if_neg h2] at hne'
              exact absurd rfl hne'
        · simp only [string_view.Fresh]
          omega
        · intro offset ho
          simp only [Pointer.char_buffer.injEq] at ho
          subst ho
          simp only
          rw [hk, if_neg (by omega), if_pos rfl]
      · obtain ⟨str, hrun, hsl, hk⟩ := utf16_to_ascii_overflow s hs val hne hfit
        have hjl : (if val.length ≤ BASE_SIZE then val ++ s.jchar_buffer.drop val.length
            else s.jchar_buffer).length = BASE_SIZE := by
          have := hs.2
          split
          · rw [List.length_append, List.length_drop]
            omega
          · exact this
        refine ⟨_, _, hrun, ⟨hs.1, hjl⟩, le_refl _, fun k hk => absurd rfl hk,
          ⟨[str], rfl, by simp⟩, ?_, (fun _ h => Pointer.noConfusion h), ?_, id⟩
        · simp [string_view.Fresh]
        · by_cases hle : val.length ≤ BASE_SIZE
          · exact Or.inr ⟨val, hle, by simp [hle]⟩
          · exact Or.inl (by simp [hle])

end StringBuffer

end stability

section sequences

namespace StringBuffer

theorem fresh_mono {w : string_view} {a b c d : StringBuffer}
    (h : w.Fresh b c) (h1 : a.current_offset ≤ b.current_offset)
    (h2 : c.current_offset ≤ d.current_offset)
    (h3 : a.overflow_strings.length ≤ b.overflow_strings.length)
    (h4 : c.overflow_strings.length ≤ d.overflow_strings.length) : w.Fresh a d := by
  unfold string_view.Fresh at h ⊢
  cases hd : w.data with
  | literal => trivial
  | char_buffer offset =>
    rw [hd] at h
    simp only at h ⊢
    omega
  | overflow_strings node =>
    rw [hd] at h
    simp only at h ⊢
    omega

theorem utf16_to_ascii_each_spec (later : List (Option (List Nat))) :
    ∀ s : StringBuffer, s.Sized →
      ∃ views s2, s.utf16_to_ascii_each later = .ok (views, s2) ∧ s2.Sized ∧
        s.current_offset ≤ s2.current_offset ∧
        (∀ k, k < s.current_offset → s2.char_buffer[k]? = s.char_buffer[k]?) ∧
        (∃ extra, s2.overflow_strings = s.overflow_strings ++ extra) ∧
        ∀ w ∈ views, w.Fresh s s2 := by
  induction later with
  | nil =>
    intro s hs
    exact ⟨[], s, rfl, hs, le_refl _, fun _ _ => rfl, ⟨[], by simp⟩, by simp⟩
  | cons val rest ih =>
    intro s hs
    obtain ⟨res, s1, hrun, hs1, hle1, hch1, ⟨e1, he1, -⟩, hf1, -, -, -⟩ :=
      utf16_to_ascii_step s hs val
    obtain ⟨views, s2, hrest, hs2, hle2, hch2, ⟨e2, he2⟩, hf2⟩ := ih s1 hs1
    have hl1 : s.overflow_strings.length ≤ s1.overflow_strings.length := by
      rw [he1, List.length_append]
      omega
    have hl2 : s1.overflow_strings.length ≤ s2.overflow_strings.length := by
      rw [he2, List.length_append]
      omega
    refine ⟨res :: views, s2, ?_, hs2, le_trans hle1 hle2, ?_, ⟨e1 ++ e2, ?_⟩, ?_⟩
    · simp only [utf16_to_ascii_each, hrun, hrest, bind, Except.bind]
    · intro k hk
      rw [hch2 k (by omega)]
      by_contra hne
      have := (hch1 k hne).1
      omega
    · rw [he2, he1, List.append_assoc]
    · intro w hw
      rcases List.mem_cons.1 hw with rfl | hw
      · exact fresh_mono hf1 (le_refl _) hle2 (le_refl _) hl2
      · exact fresh_mono (hf2 w hw) hle1 (le_refl _) hl1 (le_refl _)

/-- A view handed out earlier reads the same characters, terminator included,
after storage was only taken behind it. -/
theorem get?_stable {v : string_view} {s s2 : StringBuffer} (hv : v.Issued s)
    (hch : ∀ k, k < s.current_offset → s2.char_buffer[k]? = s.char_buffer[k]?)
    (hov : ∃ extra, s2.overflow_strings = s.overflow_strings ++ extra) (i : Nat)
    (hi : i ≤ v.size) : v.get? s2 i = v.get? s i := by
  unfold string_view.Issued at hv
  unfold string_view.get?
  cases hd : v.data with
  | literal => rfl
  | char_buffer offset =>
    rw [hd] at hv
    simp only at hv ⊢
    exact hch _ (by omega)
  | overflow_strings node =>
    rw [hd] at hv
    simp only at hv ⊢
    obtain ⟨extra, he⟩ := hov
    rw [he, List.getElem?_append_left hv]

theorem issued_of_fresh {v : string_view} {s s' : StringBuffer} (h : v.Fresh s s') :
    v.Issued s' := by
  unfold string_view.Fresh at h
  unfold string_view.Issued
  cases hd : v.data with
  | literal => trivial
  | char_buffer offset =>
    rw [hd] at h
    exact h.2
  | overflow_strings node =>
    rw [hd] at h
    exact h.2

/-- C23: in a state whose arrays have their declared size, let a call of
`utf16_to_ascii` return the view `res`, and let any sequence of further calls
follow with no `reset()` in between. Every later call returns, and afterwards
`res` shows the characters it showed when it was returned, terminator
included. When `res` points into `char_buffer` it is followed by a NUL and
every later view into `char_buffer` starts behind that NUL (the ranges are
disjoint); when it points to a string of the overflow list, that string is
still the same node of the list, and every later overflow result is a node
further back. -/
theorem issued_views_stable (s : StringBuffer) (hs : s.Sized) (val : Option (List Nat))
    (res : string_view) (s1 : StringBuffer) (h1 : s.utf16_to_ascii val = .ok (res, s1))
    (later : List (Option (List Nat))) :
    ∃ views s2, s1.utf16_to_ascii_each later = .ok (views, s2) ∧
      (∀ i, i ≤ res.size → res.get? s2 i = res.get? s1 i) ∧
      res.chars s2 = res.chars s1 ∧
      (∀ offset, res.data = .char_buffer offset →
        s2.char_buffer[offset + res.size]? = some 0 ∧
        ∀ w ∈ views, ∀ offset', w.data = .char_buffer offset' → offset + res.size < offset') ∧
      (∀ node, res.data = .overflow_strings node →
        node < s1.overflow_strings.length ∧
        s2.overflow_strings[node]? = s1.overflow_strings[node]? ∧
        ∀ w ∈ views, ∀ node', w.data = .overflow_strings node' → node < node') := by
  obtain ⟨res', s1', hrun, hs1, -, -, -, hf1, hnul, -, -⟩ := utf16_to_ascii_step s hs val
  rw [h1] at hrun
  simp only [Except.ok.injEq, Prod.mk.injEq] at hrun
  obtain ⟨hr, hs'⟩ := hrun
  subst hr hs'
  obtain ⟨views, s2, hrest, -, -, hch, hov, hfresh⟩ := utf16_to_ascii_each_spec later s1 hs1
  have hiss := issued_of_fresh hf1
  have hget := fun i hi => get?_stable hiss hch hov i hi
  refine ⟨views, s2, hrest, hget, ?_, ?_, ?_⟩
  · unfold string_view.chars
    apply List.map_congr_left
    intro i hi
    exact hget i (le_of_lt (List.mem_range.1 hi))
  · intro offset hd
    have hlt : offset + res.size < s1.current_offset := by
      unfold string_view.Issued at hiss
      rw [hd] at hiss
      exact hiss
    refine ⟨(hch _ hlt).trans (hnul offset hd), ?_⟩
    intro w hw offset' hd'
    have := hfresh w hw
    unfold string_view.Fresh at this
    rw [hd'] at this
    simp only at this
    omega
  · intro node hd
    have hlt : node < s1.overflow_strings.length := by
      unfold string_view.Issued at hiss
      rw [hd] at hiss
      exact hiss
    obtain ⟨extra, he⟩ := hov
    refine ⟨hlt, by rw [he, List.getElem?_append_left hlt], ?_⟩
    intro w hw node' hd'
    have := hfresh w hw
    unfold string_view.Fresh at this
    rw [hd'] at this
    simp only at this
    omega

end StringBuffer

end sequences

section bounds

namespace StringBuffer

theorem issued_views_stable_witness :
    ∃ res s1, initial.utf16_to_ascii (some shortString) = .ok (res, s1) ∧
      ∃ views s2, s1.utf16_to_ascii_each [some longString, none, some shortString] =
          .ok (views, s2) ∧
        (∀ i, i ≤ res.size → res.get? s2 i = res.get? s1 i) ∧
        res.chars s2 = res.chars s1 ∧
        (∀ offset, res.data = .char_buffer offset →
          s2.char_buffer[offset + res.size]? = some 0 ∧
          ∀ w ∈ views, ∀ offset', w.data = .char_buffer offset' →
            offset + res.size < offset') ∧
        (∀ node, res.data = .overflow_strings node →
          node < s1.overflow_strings.length ∧
          s2.overflow_strings[node]? = s1.overflow_strings[node]? ∧
          ∀ w ∈ views, ∀ node', w.data = .overflow_strings node' → node < node') := by
  obtain ⟨cb, hrun, -, -⟩ := utf16_to_ascii_fast initial initial_sized shortString
    (by decide) (by decide)
  exact ⟨_, _, hrun, issued_views_stable initial initial_sized (some shortString) _ _ hrun
    [some longString, none, some shortString]⟩

theorem invariant_initial : initial.Invariant :=
  ⟨List.length_replicate _ _, List.length_replicate _ _, by decide, by simp [initial]⟩

theorem invariant_reset {s : StringBuffer} (h : s.Invariant) : s.reset.Invariant := by
  obtain ⟨h1, h2, -, h4⟩ := h
  unfold reset Invariant
  cases hf : s.is_overflow_strings_empty
  · exact ⟨h1, h2, Nat.zero_lt_succ _, by simp⟩
  · exact ⟨h1, h2, Nat.zero_lt_succ _, by simpa [hf] using h4⟩

theorem invariant_step {s s' : StringBuffer} {val : Option (List Nat)} {res : string_view}
    (h : s.Invariant) (hrun : s.utf16_to_ascii val = .ok (res, s')) : s'.Invariant := by
  obtain ⟨h1, h2, h3, h4⟩ := h
  obtain ⟨res', s1, hrun', hs1, -, -, ⟨extra, he, hflag⟩, -, -, -, hoff⟩ :=
    utf16_to_ascii_step s ⟨h1, h2⟩ val
  rw [hrun] at hrun'
  simp only [Except.ok.injEq, Prod.mk.injEq] at hrun'
  obtain ⟨-, hs'⟩ := hrun'
  subst hs'
  refine ⟨hs1.1, hs1.2, hoff h3, ?_⟩
  rw [hflag, he, h4]
  simp

theorem Reachable.invariant {s : StringBuffer} (h : Reachable s) : s.Invariant := by
  induction h with
  | start => exact invariant_initial
  | reset _ ih => exact invariant_reset ih
  | utf16_to_ascii _ hrun ih => exact invariant_step ih hrun

/-- C29: in every state reached by `utf16_to_ascii` and `reset`, the arrays
have their 128 elements, `current_offset` is below 128 and
`is_overflow_strings_empty` is true exactly when the overflow list is empty.
In such a state every call of `utf16_to_ascii` returns, so no store or copy
leaves an array: `char_buffer` changes only at indices from the old offset to
below the new offset, which is below 128, and `jchar_buffer` is left as it
was or receives at its front the code units of a string of at most 128 code
units. -/
theorem reachable_within_bounds (s : StringBuffer) (h : Reachable s) :
    s.char_buffer.length = 128 ∧ s.jchar_buffer.length = 128 ∧ s.current_offset < 128 ∧
    (s.is_overflow_strings_empty = true ↔ s.overflow_strings = []) ∧
    ∀ val, ∃ res s', s.utf16_to_ascii val = .ok (res, s') ∧
      s'.char_buffer.length = 128 ∧ s'.jchar_buffer.length = 128 ∧
      (∀ k, s'.char_buffer[k]? ≠ s.char_buffer[k]? →
        s.current_offset ≤ k ∧ k < s'.current_offset ∧ s'.current_offset < 128) ∧
      (s'.jchar_buffer = s.jchar_buffer ∨
        ∃ units : List Nat, units.length ≤ 128 ∧
          s'.jchar_buffer = units ++ s.jchar_buffer.drop units.length) := by
  obtain ⟨h1, h2, h3, h4⟩ := h.invariant
  refine ⟨h1, h2, h3, h4, ?_⟩
  intro val
  obtain ⟨res, s', hrun, hs', -, hch, -, -, -, hj, -⟩ := utf16_to_ascii_step s ⟨h1, h2⟩ val
  exact ⟨res, s', hrun, hs'.1, hs'.2, hch, hj⟩

theorem reachable_within_bounds_witness :
    initial.reset.char_buffer.length = 128 ∧ initial.reset.jchar_buffer.length = 128 ∧
    initial.reset.current_offset < 128 ∧
    (initial.reset.is_overflow_strings_empty = true ↔ initial.reset.overflow_strings = []) ∧
    ∀ val, ∃ res s', initial.reset.utf16_to_ascii val = .ok (res, s') ∧
      s'.char_buffer.length = 128 ∧ s'.jchar_buffer.length = 128 ∧
      (∀ k, s'.char_buffer[k]? ≠ initial.reset.char_buffer[k]? →
        initial.reset.current_offset ≤ k ∧ k < s'.current_offset ∧
          s'.current_offset < 128) ∧
      (s'.jchar_buffer = initial.reset.jchar_buffer ∨
        ∃ units : List Nat, units.length ≤ 128 ∧
          s'.jchar_buffer = units ++ initial.reset.jchar_buffer.drop units.length) :=
  reachable_within_bounds initial.reset (Reachable.reset Reachable.start)

end StringBuffer

end bounds

section pwle

variable {α : Type}

theorem push_eq_primitiveAt (ops : FloatOps α) (braking : Aidl.Braking) (i : Nat)
    (element : RampSegment α) (primitives : List (Aidl.PrimitivePwle α)) :
    (if (decide (i > 0) &&
          shouldBeReplacedWithBraking ops (activePwleFromJavaPrimitive element) braking) = true then
        primitives ++ [Aidl.PrimitivePwle.braking
          (brakingPwle braking (activePwleFromJavaPrimitive element).duration)]
      else
        primitives ++ [Aidl.PrimitivePwle.active (activePwleFromJavaPrimitive element)]) =
      primitives ++ [primitiveAt ops braking i element] := by
  unfold primitiveAt shouldBeReplacedWithBraking activePwleFromJavaPrimitive brakingPwle
  by_cases h : 0 < i ∧ braking ≠ Aidl.Braking.NONE ∧
      ops.isZero element.startAmplitude = true ∧ ops.isZero element.endAmplitude = true
  · rw [if_pos h, if_pos]
    simp [h.1, h.2.1, h.2.2.1, h.2.2.2]
  · rw [if_neg h, if_neg]
    simp only [Bool.and_eq_true, decide_eq_true_eq, bne_iff_ne, ne_eq, gt_iff_lt]
    intro hc
    exact h ⟨hc.1, hc.2.1.1, hc.2.1.2, hc.2.2⟩

theorem endsWithBraking_cons (ops : FloatOps α) (braking : Aidl.Braking)
    (element next : RampSegment α) (rest : List (RampSegment α)) :
    endsWithBraking ops braking (element :: next :: rest) =
      endsWithBraking ops braking (next :: rest) := by
  simp [endsWithBraking, List.getLast?_cons_cons]

theorem endsWithBraking_singleton (ops : FloatOps α) (braking : Aidl.Braking)
    (element : RampSegment α) :
    endsWithBraking ops braking [element] =
      shouldAddLastBraking ops (activePwleFromJavaPrimitive element) braking := by
  unfold endsWithBraking shouldAddLastBraking activePwleFromJavaPrimitive
  by_cases h : braking = Aidl.Braking.NONE
  · simp [h]
  · have hb : (braking != Aidl.Braking.NONE) = true := by simpa using h
    simp [h, hb]

theorem vibratorPerformPwleEffect_loop_eq (ops : FloatOps α) (braking : Aidl.Braking)
    (size : Nat) :
    ∀ (rest : List (RampSegment α)) (i : Nat) (primitives : List (Aidl.PrimitivePwle α))
      (totalDuration : Int), i + rest.length = size →
      (vibratorPerformPwleEffect_loop ops braking size i rest (primitives, totalDuration)).1 =
        primitives ++ primitivesFrom ops braking i rest ++
          (if endsWithBraking ops braking rest then
            [Aidl.PrimitivePwle.braking { braking := braking, duration := 0 }] else []) := by
  intro rest
  induction rest with
  | nil =>
    intro i primitives totalDuration _
    simp [vibratorPerformPwleEffect_loop, primitivesFrom, endsWithBraking]
  | cons element rest ih =>
    intro i primitives totalDuration hsize
    simp only [vibratorPerformPwleEffect_loop, push_eq_primitiveAt]
    cases rest with
    | nil =>
      have hi : i = size - 1 := by simp at hsize; omega
      simp only [vibratorPerformPwleEffect_loop, primitivesFrom, endsWithBraking_singleton,
        hi, decide_True, Bool.true_and]
      cases shouldAddLastBraking ops (activePwleFromJavaPrimitive element) braking <;>
        simp [brakingPwle]
    | cons next rest =>
      have hi : ¬ i = size - 1 := by simp at hsize; omega
      rw [endsWithBraking_cons]
      simp only [hi, decide_False, Bool.false_and, if_false]
      rw [ih (i + 1) _ _ (by simp at hsize ⊢; omega)]
      simp [primitivesFrom]

theorem length_primitivesFrom (ops : FloatOps α) (braking : Aidl.Braking) :
    ∀ (rest : List (RampSegment α)) (i : Nat),
      (primitivesFrom ops braking i rest).length = rest.length
  | [], _ => rfl
  | _ :: rest, i => by
    simp [primitivesFrom, length_primitivesFrom ops braking rest (i + 1)]

theorem getElem?_primitivesFrom (ops : FloatOps α) (braking : Aidl.Braking) :
    ∀ (rest : List (RampSegment α)) (i k : Nat),
      (primitivesFrom ops braking i rest)[k]? =
        (rest[k]?).map (primitiveAt ops braking (i + k))
  | [], _, _ => by simp [primitivesFrom]
  | ramp :: rest, i, 0 => by simp [primitivesFrom]
  | ramp :: rest, i, k + 1 => by
    simp only [primitivesFrom, List.getElem?_cons_succ]
    rw [getElem?_primitivesFrom ops braking rest (i + 1) k,
      show i + 1 + k = i + (k + 1) by omega]

end pwle

section pwleClaims

variable {α : Type}

theorem vibratorPerformPwleEffect_handed (ops : FloatOps α)
    (performPwleEffect : List (Aidl.PrimitivePwle α) → HalResult)
    (wrapper : VibratorControllerWrapper) (waveform : List (RampSegment α))
    (brakingId vibrationId stepId : Int) :
    (vibratorPerformPwleEffect ops performPwleEffect (some wrapper) waveform brakingId
        vibrationId stepId).2.2 =
      some (primitivesFrom ops brakingId 0 waveform ++
          (if endsWithBraking ops brakingId waveform then
            [Aidl.PrimitivePwle.braking { braking := brakingId, duration := 0 }] else []),
        (wrapper.createCallback vibrationId stepId).1) := by
  have h := vibratorPerformPwleEffect_loop_eq ops brakingId waveform.length waveform 0 [] 0
    (by simp)
  simp only [vibratorPerformPwleEffect, List.nil_append] at h ⊢
  rw [← h]

theorem endsWithBraking_iff (ops : FloatOps α) (braking : Aidl.Braking)
    (waveform : List (RampSegment α)) :
    endsWithBraking ops braking waveform = true ↔
      ∃ last, waveform.getLast? = some last ∧ braking ≠ Aidl.Braking.NONE ∧
        ops.isPositive last.startAmplitude = true ∧ ops.isZero last.endAmplitude = true := by
  unfold endsWithBraking
  cases waveform.getLast? with
  | none => simp
  | some last => simp [and_assoc]

theorem primitivesFrom_none (ops : FloatOps α) :
    ∀ (rest : List (RampSegment α)) (i : Nat),
      primitivesFrom ops Aidl.Braking.NONE i rest =
        rest.map (fun ramp => Aidl.PrimitivePwle.active (activePwleFromJavaPrimitive ramp))
  | [], _ => rfl
  | ramp :: rest, i => by
    simp [primitivesFrom, primitivesFrom_none ops rest (i + 1), primitiveAt,
      activePwleFromJavaPrimitive]

/-- C24: for every waveform of `n` ramps and every braking value, the list
`vibratorPerformPwleEffect` hands to the HAL has `n` or `n + 1` entries, and
`n + 1` exactly when the waveform has a last ramp (`n > 0`), braking is not
`NONE`, and that ramp has a positive start amplitude and a zero end amplitude;
the extra entry is the last one, a braking primitive of duration 0. So when
`n` is at most the advertised `pwleSizeMax` (the maximum of the HAL minus 1,
for a maximum that is an `int32_t` above its least value), the list is no
longer than the maximum of the HAL. -/
theorem pwle_primitives_size (ops : FloatOps α)
    (performPwleEffect : List (Aidl.PrimitivePwle α) → HalResult)
    (wrapper : VibratorControllerWrapper) (waveform : List (RampSegment α))
    (brakingId vibrationId stepId : Int) :
    ∃ primitives callback,
      (vibratorPerformPwleEffect ops performPwleEffect (some wrapper) waveform brakingId
        vibrationId stepId).2.2 = some (primitives, callback) ∧
      (primitives.length = waveform.length ∨ primitives.length = waveform.length + 1) ∧
      (primitives.length = waveform.length + 1 ↔
        ∃ last, waveform.getLast? = some last ∧ brakingId ≠ Aidl.Braking.NONE ∧
          ops.isPositive last.startAmplitude = true ∧ ops.isZero last.endAmplitude = true) ∧
      (primitives.length = waveform.length + 1 →
        primitives[waveform.length]? =
          some (Aidl.PrimitivePwle.braking { braking := brakingId, duration := 0 })) ∧
      (∀ pwleSizeMax : Int, -2147483648 < pwleSizeMax → pwleSizeMax < 2147483648 →
        (waveform.length : Int) ≤ vibratorGetInfo_pwleSizeMax pwleSizeMax →
        (primitives.length : Int) ≤ pwleSizeMax) := by
  refine ⟨_, _, vibratorPerformPwleEffect_handed ops performPwleEffect wrapper waveform
    brakingId vibrationId stepId, ?_⟩
  rw [← endsWithBraking_iff]
  have hl := length_primitivesFrom ops brakingId waveform 0
  cases hb : endsWithBraking ops brakingId waveform
  · simp only [Bool.false_eq_true, if_false, List.append_nil, hl]
    refine ⟨by simp, by simp, by simp, ?_⟩
    intro m h1 h2 h3
    unfold vibratorGetInfo_pwleSizeMax uirenderer.wrapInt32 at h3
    omega
  · simp only [if_true, List.length_append, hl, List.length_singleton]
    refine ⟨by simp, by simp, ?_, ?_⟩
    · intro _
      rw [List.getElem?_append_right (by rw [hl]), hl]
      simp
    · intro m h1 h2 h3
      unfold vibratorGetInfo_pwleSizeMax uirenderer.wrapInt32 at h3
      push_cast
      omega

theorem pwle_primitives_size_witness :
    ∃ primitives callback,
      (vibratorPerformPwleEffect intOps (fun _ => HalResult.isOk) (some sampleWrapper)
        sampleWaveform 1 7 8).2.2 = some (primitives, callback) ∧
      (primitives.length = sampleWaveform.length ∨
        primitives.length = sampleWaveform.length + 1) ∧
      (primitives.length = sampleWaveform.length + 1 ↔
        ∃ last, sampleWaveform.getLast? = some last ∧ (1 : Int) ≠ Aidl.Braking.NONE ∧
          intOps.isPositive last.startAmplitude = true ∧
          intOps.isZero last.endAmplitude = true) ∧
      (primitives.length = sampleWaveform.length + 1 →
        primitives[sampleWaveform.length]? =
          some (Aidl.PrimitivePwle.braking { braking := 1, duration := 0 })) ∧
      (∀ pwleSizeMax : Int, -2147483648 < pwleSizeMax → pwleSizeMax < 2147483648 →
        (sampleWaveform.length : Int) ≤ vibratorGetInfo_pwleSizeMax pwleSizeMax →
        (primitives.length : Int) ≤ pwleSizeMax) :=
  pwle_primitives_size intOps (fun _ => HalResult.isOk) sampleWrapper sampleWaveform 1 7 8

/-- C25: for every waveform and every index `i` below its length, the `i`-th
primitive `vibratorPerformPwleEffect` hands to the HAL is a braking primitive
with the given braking and the duration of ramp `i` when `i > 0`, braking is
not `NONE` and ramp `i` starts and ends with zero amplitude, and otherwise the
active primitive with the five fields of ramp `i`; it is a braking primitive
only in the first case. The first ramp is never replaced, and with braking
`NONE` the list handed over is the waveform, ramp by ramp. -/
theorem pwle_primitive_at (ops : FloatOps α)
    (performPwleEffect : List (Aidl.PrimitivePwle α) → HalResult)
    (wrapper : VibratorControllerWrapper) (waveform : List (RampSegment α))
    (brakingId vibrationId stepId : Int) (i : Nat) (hi : i < waveform.length) :
    ∃ primitives callback,
      (vibratorPerformPwleEffect ops performPwleEffect (some wrapper) waveform brakingId
        vibrationId stepId).2.2 = some (primitives, callback) ∧
      ((0 < i ∧ brakingId ≠ Aidl.Braking.NONE ∧ ops.isZero waveform[i].startAmplitude = true ∧
          ops.isZero waveform[i].endAmplitude = true) →
        primitives[i]? = some (Aidl.PrimitivePwle.braking
          { braking := brakingId, duration := waveform[i].duration })) ∧
      (¬ (0 < i ∧ brakingId ≠ Aidl.Braking.NONE ∧ ops.isZero waveform[i].startAmplitude = true ∧
          ops.isZero waveform[i].endAmplitude = true) →
        primitives[i]? = some (Aidl.PrimitivePwle.active
          { startAmplitude := waveform[i].startAmplitude,
            endAmplitude := waveform[i].endAmplitude,
            startFrequency := waveform[i].startFrequencyHz,
            endFrequency := waveform[i].endFrequencyHz,
            duration := waveform[i].duration })) ∧
      ((∃ pwle, primitives[i]? = some (Aidl.PrimitivePwle.braking pwle)) ↔
        (0 < i ∧ brakingId ≠ Aidl.Braking.NONE ∧ ops.isZero waveform[i].startAmplitude = true ∧
          ops.isZero waveform[i].endAmplitude = true)) ∧
      (i = 0 → primitives[0]? =
        some (Aidl.PrimitivePwle.active (activePwleFromJavaPrimitive waveform[i]))) ∧
      (brakingId = Aidl.Braking.NONE →
        primitives = waveform.map
          (fun ramp => Aidl.PrimitivePwle.active (activePwleFromJavaPrimitive ramp))) := by
  refine ⟨_, _, vibratorPerformPwleEffect_handed ops performPwleEffect wrapper waveform
    brakingId vibrationId stepId, ?_⟩
  have hl := length_primitivesFrom ops brakingId waveform 0
  have hget : (primitivesFrom ops brakingId 0 waveform ++
      (if endsWithBraking ops brakingId waveform then
        [Aidl.PrimitivePwle.braking { braking := brakingId, duration := 0 }] else []))[i]? =
      some (primitiveAt ops brakingId i waveform[i]) := by
    rw [List.getElem?_append_left (by rw [hl]; exact hi), getElem?_primitivesFrom,
      List.getElem?_eq_getElem hi]
    simp
  rw [hget]
  refine ⟨?_, ?_, ?_, ?_, ?_⟩
  · intro hc
    rw [primitiveAt, if_pos hc]
  · intro hc
    rw [primitiveAt, if_neg hc]
  · by_cases hc : 0 < i ∧ brakingId ≠ Aidl.Braking.NONE ∧
        ops.isZero waveform[i].startAmplitude = true ∧ ops.isZero waveform[i].endAmplitude = true
    · rw [primitiveAt, if_pos hc]
      exact ⟨fun _ => hc, fun _ => ⟨_, rfl⟩⟩
    · rw [primitiveAt, if_neg hc]
      simp [hc]
  · intro h0
    subst h0
    rw [hget]
    simp [primitiveAt, activePwleFromJavaPrimitive]
  · intro hn
    subst hn
    rw [primitivesFrom_none]
    have : endsWithBraking ops Aidl.Braking.NONE waveform = false := by
      unfold endsWithBraking
      cases waveform.getLast? <;> simp
    simp [this]

theorem pwle_primitive_at_witness :
    ∃ primitives callback,
      (vibratorPerformPwleEffect intOps (fun _ => HalResult.isOk) (some sampleWrapper)
        sampleWaveform 1 7 8).2.2 = some (primitives, callback) ∧
      primitives[1]? = some (Aidl.PrimitivePwle.braking { braking := 1, duration := 20 }) := by
  obtain ⟨primitives, callback, h, hb, -⟩ :=
    pwle_primitive_at intOps (fun _ => HalResult.isOk) sampleWrapper sampleWaveform 1 7 8 1
      (by decide)
  exact ⟨primitives, callback, h, hb (by decide)⟩

end pwleClaims

section callbacks

theorem wrapInt64_range (n : Int) :
    -9223372036854775808 ≤ wrapInt64 n ∧ wrapInt64 n < 9223372036854775808 := by
  unfold wrapInt64
  omega

theorem wrapInt64_succ (n : Int) : wrapInt64 (wrapInt64 n + 1) = wrapInt64 (n + 1) := by
  unfold wrapInt64
  omega

theorem invoke_fields (callback : Callback) (fix : Bool) (self : VibratorControllerWrapper) :
    (callback.invoke fix self).mCallbackId = self.mCallbackId ∧
      (callback.invoke fix self).mVibratorId = self.mVibratorId := by
  unfold Callback.invoke
  simp only
  split <;> exact ⟨rfl, rfl⟩

theorem after_fields (fix : Bool) :
    ∀ (calls : List WrapperCall) (self : VibratorControllerWrapper),
      (self.after fix calls).mVibratorId = self.mVibratorId ∧
      wrapInt64 (self.after fix calls).mCallbackId =
        wrapInt64 (self.mCallbackId + ((calls.filter WrapperCall.renews).length : Int)) ∧
      ((∀ call ∈ calls, call.renews = false) →
        (self.after fix calls).mCallbackId = self.mCallbackId) ∧
      ((∃ call ∈ calls, call.renews = true) →
        (self.after fix calls).mCallbackId = wrapInt64 (self.after fix calls).mCallbackId)
  | [], self => by
    simp [VibratorControllerWrapper.after]
  | .createCallback vibrationId stepId :: rest, self => by
    obtain ⟨h1, h2, h3, h4⟩ := after_fields fix rest (self.createCallback vibrationId stepId).2
    simp only [VibratorControllerWrapper.after, List.filter_cons, WrapperCall.renews, if_true,
      List.length_cons]
    refine ⟨h1, ?_, ?_, ?_⟩
    · rw [h2]
      simp only [VibratorControllerWrapper.createCallback]
      unfold wrapInt64
      push_cast
      omega
    · intro h
      have := h _ (List.mem_cons_self _ _)
      simp [WrapperCall.renews] at this
    · intro _
      by_cases hr : ∃ call ∈ rest, call.renews = true
      · exact h4 hr
      · have hr' : ∀ call ∈ rest, call.renews = false := by
          intro call hc
          cases hcr : call.renews
          · rfl
          · exact absurd ⟨call, hc, hcr⟩ hr
        rw [h3 hr']
        simp only [VibratorControllerWrapper.createCallback]
        unfold wrapInt64
        omega
  | .disableOldCallbacks :: rest, self => by
    obtain ⟨h1, h2, h3, h4⟩ := after_fields fix rest self.disableOldCallbacks
    simp only [VibratorControllerWrapper.after, List.filter_cons, WrapperCall.renews, if_true,
      List.length_cons]
    refine ⟨h1, ?_, ?_, ?_⟩
    · rw [h2]
      simp only [VibratorControllerWrapper.disableOldCallbacks]
      unfold wrapInt64
      push_cast
      omega
    · intro h
      have := h _ (List.mem_cons_self _ _)
      simp [WrapperCall.renews] at this
    · intro _
      by_cases hr : ∃ call ∈ rest, call.renews = true
      · exact h4 hr
      · have hr' : ∀ call ∈ rest, call.renews = false := by
          intro call hc
          cases hcr : call.renews
          · rfl
          · exact absurd ⟨call, hc, hcr⟩ hr
        rw [h3 hr']
        simp only [VibratorControllerWrapper.disableOldCallbacks]
        unfold wrapInt64
        omega
  | .fire callback :: rest, self => by
    obtain ⟨h1, h2, h3, h4⟩ := after_fields fix rest (callback.invoke fix self)
    rw [(invoke_fields callback fix self).1] at h2 h3
    rw [(invoke_fields callback fix self).2] at h1
    simp only [VibratorControllerWrapper.after, List.filter_cons, WrapperCall.renews,
      Bool.false_eq_true, if_false]
    refine ⟨h1, h2, ?_, ?_⟩
    · intro h
      exact h3 (fun call hc => h call (List.mem_cons_of_mem _ hc))
    · rintro ⟨call, hc, hr⟩
      rcases List.mem_cons.1 hc with rfl | hc
      · simp [WrapperCall.renews] at hr
      · exact h4 ⟨call, hc, hr⟩

end callbacks

section latest

/-- C26: let `createCallback` return a callback on a wrapper, and let any
sequence of fewer than `2^64` calls follow on the same wrapper (later
`createCallback` calls, `disableOldCallbacks` calls as `vibratorOff` makes
them, other callbacks firing) before the callback fires. With the flag
disabled, the callback calls `onComplete` with the vibrator id of the wrapper
and its vibration and step ids when no `createCallback` or
`disableOldCallbacks` call is among them, and leaves the wrapper and the
listener as they are when one is. With the flag enabled it calls `onComplete`
in every case. -/
theorem callback_fires_iff_latest (fix : Bool) (self : VibratorControllerWrapper)
    (vibrationId stepId : Int) (later : List WrapperCall) (hlen : later.length < 2 ^ 64) :
    (fix = true ∨ (∀ call ∈ later, call.renews = false) →
      ((self.createCallback vibrationId stepId).1.invoke fix
          ((self.createCallback vibrationId stepId).2.after fix later)).mCallbackListener =
        ((self.createCallback vibrationId stepId).2.after fix later).mCallbackListener ++
          [(self.mVibratorId, vibrationId, stepId)]) ∧
    (fix = false → (∃ call ∈ later, call.renews = true) →
      (self.createCallback vibrationId stepId).1.invoke fix
          ((self.createCallback vibrationId stepId).2.after fix later) =
        (self.createCallback vibrationId stepId).2.after fix later) ∧
    vibratorOff (some self) = some self.disableOldCallbacks := by
  have hfacts : (self.createCallback vibrationId stepId).1.vibrationId = vibrationId ∧
      (self.createCallback vibrationId stepId).1.stepId = stepId ∧
      (self.createCallback vibrationId stepId).1.callbackId =
        (self.createCallback vibrationId stepId).2.mCallbackId ∧
      (self.createCallback vibrationId stepId).2.mVibratorId = self.mVibratorId ∧
      (self.createCallback vibrationId stepId).2.mCallbackId =
        wrapInt64 (self.mCallbackId + 1) := ⟨rfl, rfl, rfl, rfl, rfl⟩
  generalize self.createCallback vibrationId stepId = created at hfacts ⊢
  obtain ⟨hv, hs, hcid, hvib, hrange⟩ := hfacts
  obtain ⟨hid, hcount, hsame, hwrap⟩ := after_fields fix later created.2
  refine ⟨?_, ?_, rfl⟩
  · rintro (hfix | hnone)
    · subst hfix
      simp [Callback.invoke, hid, hvib, hv, hs]
    · have := hsame hnone
      simp [Callback.invoke, this, hcid, hid, hvib, hv, hs]
  · intro hfix hsome
    subst hfix
    have hpos : 0 < (later.filter WrapperCall.renews).length := by
      obtain ⟨call, hc, hr⟩ := hsome
      exact List.length_pos_of_mem (List.mem_filter.2 ⟨hc, hr⟩)
    have hle : (later.filter WrapperCall.renews).length ≤ later.length :=
      List.length_filter_le _ _
    have hne : (created.2.after false later).mCallbackId ≠ created.1.callbackId := by
      rw [hwrap hsome, hcount, hcid, hrange]
      generalize (later.filter WrapperCall.renews).length = k at hpos hle
      have hk : (k : Int) < 18446744073709551616 := by
        have : k < 2 ^ 64 := lt_of_le_of_lt hle hlen
        norm_num at this
        exact_mod_cast this
      have hk0 : (0 : Int) < k := by exact_mod_cast hpos
      unfold wrapInt64
      omega
    simp [Callback.invoke, hne]

theorem callback_fires_iff_latest_witness :
    (sampleWrapper.createCallback 7 8).1.invoke false
        ((sampleWrapper.createCallback 7 8).2.after false
          [.fire { vibrationId := 1, stepId := 2, callbackId := 0 }, .disableOldCallbacks]) =
      (sampleWrapper.createCallback 7 8).2.after false
        [.fire { vibrationId := 1, stepId := 2, callbackId := 0 }, .disableOldCallbacks] :=
  (callback_fires_iff_latest false sampleWrapper 7 8
    [.fire { vibrationId := 1, stepId := 2, callbackId := 0 }, .disableOldCallbacks]
    (by decide)).2.1 rfl ⟨_, List.mem_cons_of_mem _ (List.mem_cons_self _ _), rfl⟩

end latest

section parcel

theorem Region_writeToParcel_loop_eq :
    ∀ (rects : List SkIRect) (acc : List Int),
      Region_writeToParcel_loop rects acc =
        acc ++ rects.flatMap (fun r => [r.fLeft, r.fTop, r.fRight, r.fBottom])
  | [], acc => by simp [Region_writeToParcel_loop]
  | r :: rest, acc => by
    simp [Region_writeToParcel_loop, Region_writeToParcel_loop_eq rest, List.flatMap_cons]

theorem Region_createFromParcel_loop_flat :
    ∀ (rects : List SkIRect) (region : SkRegion),
      Region_createFromParcel_loop
          (rects.flatMap (fun r => [r.fLeft, r.fTop, r.fRight, r.fBottom])) region =
        rects.foldl (fun region rect => region ∪ rect.pixels) region
  | [], region => by simp [Region_createFromParcel_loop]
  | r :: rest, region => by
    have hflat : (r :: rest).flatMap (fun r => [r.fLeft, r.fTop, r.fRight, r.fBottom]) =
        r.fLeft :: r.fTop :: r.fRight :: r.fBottom ::
          rest.flatMap (fun r => [r.fLeft, r.fTop, r.fRight, r.fBottom]) := rfl
    rw [hflat, Region_createFromParcel_loop, Region_createFromParcel_loop_flat rest]
    rfl

theorem length_flat (rects : List SkIRect) :
    (rects.flatMap (fun r => [r.fLeft, r.fTop, r.fRight, r.fBottom])).length =
      4 * rects.length := by
  induction rects with
  | nil => rfl
  | cons r rest ih => simp [List.flatMap_cons, ih]; omega

/-- C30: let the iterator of the region `r` yield rectangles whose union is
`r`. `Region_writeToParcel` on a non-null parcel returns true and leaves in
the parcel a vector with exactly the four ints left, top, right, bottom of
each rectangle of the iterator, in order; `Region_createFromParcel` on that
parcel returns a region, the union of those rectangles, and `Region_equals`
holds of it and `r`. `Region_createFromParcel` returns 0 for a null parcel and
for a vector whose length is not a multiple of 4. -/
theorem region_parcel_round_trip (iterator : SkRegion → List SkIRect) (r : SkRegion)
    (parcel : Parcel) (hiter : unionOf (iterator r) = r) :
    ∃ written region,
      Region_writeToParcel iterator r (some parcel) = (true, some written) ∧
      written.rects =
        (iterator r).flatMap (fun rect => [rect.fLeft, rect.fTop, rect.fRight, rect.fBottom]) ∧
      written.rects.length = 4 * (iterator r).length ∧
      Region_createFromParcel (some written) = some region ∧
      region = unionOf (iterator r) ∧
      Region_equals region r = true ∧
      Region_createFromParcel none = none ∧
      ∀ other : Parcel, other.rects.length % 4 ≠ 0 →
        Region_createFromParcel (some other) = none := by
  have hw : Region_writeToParcel_loop (iterator r) [] =
      (iterator r).flatMap (fun rect => [rect.fLeft, rect.fTop, rect.fRight, rect.fBottom]) := by
    rw [Region_writeToParcel_loop_eq]
    rfl
  have hl := length_flat (iterator r)
  refine ⟨{ rects := Region_writeToParcel_loop (iterator r) [] }, unionOf (iterator r), rfl, hw,
    by rw [hw, hl], ?_, rfl, by simp [Region_equals, hiter], rfl, ?_⟩
  · simp only [Region_createFromParcel, hw, hl]
    rw [if_neg (by omega), Region_createFromParcel_loop_flat]
    rfl
  · intro other ho
    simp [Region_createFromParcel, ho]

theorem region_parcel_round_trip_witness :
    ∃ written region,
      Region_writeToParcel (fun _ => [sampleRect]) sampleRect.pixels (some { rects := [] }) =
        (true, some written) ∧
      written.rects = [0, 0, 2, 2] ∧ written.rects.length = 4 ∧
      Region_createFromParcel (some written) = some region ∧
      Region_equals region sampleRect.pixels = true := by
  obtain ⟨written, region, h1, h2, h3, h4, -, h6, -⟩ :=
    region_parcel_round_trip (fun _ => [sampleRect]) sampleRect.pixels { rects := [] }
      (by simp [unionOf])
  exact ⟨written, region, h1, h2, h3, h4, h6⟩

end parcel

end android
